import Mathlib

/-!
# oak-bank: token service, credential cipher and authentication middleware

A shallow embedding of `internal/api/security/jwt.go`,
`internal/api/security/password.go` and `internal/api/middlewares/base.go`, and of
the part of `github.com/golang-jwt/jwt/v5` that `jwt.Parse` and
`Token.SignedString` run through.

Conventions of the embedding:

* in the token service Go strings and byte slices are `String`; in the cipher a
  byte slice is a list of bytes.
* an instant (`time.Time`) is an `Int`, the nanoseconds since the Unix epoch; a
  `time.Duration` is an `Int` of nanoseconds; `time.Now()` is an explicit argument
  of every function that reads the clock.
* a claim value (`interface{}` inside a `jwt.MapClaims`) is a JSON value; numbers
  are rationals (what `float64` holds after `json.Unmarshal`, idealised). A
  payload handed to the service may also hold Go values without a JSON form: it
  is a map of `GoValue`.
* a Go `map[string]interface{}` is an association list read with `List.lookup`:
  the first entry for a key is the value of the key, so `m[k] = v` is a cons.
* a Go result `(value, error)` is an `Except`, or the pair itself where the value
  returned beside an error matters.
* HMAC, base64url and the JSON codec are not reimplemented: they are the fields of
  `Codec`, together with the laws that the real ones satisfy; `Primitives` adds
  the exact round trip of an idealised JSON codec. Likewise AES-GCM and standard
  base64 are the fields of `CipherPrimitives`.
* a gin handler takes the rest of the handler chain, what `c.Next()` runs, as an
  argument.
-/

namespace OakBank

/-! ## Data model -/

/-- A JSON value held by a claim. Arrays and objects are opaque to the token
machinery and are kept as their JSON text. -/
inductive Value where
  | null
  | bool (b : Bool)
  | num (q : ℚ)
  | str (s : String)
  | raw (json : String)
  deriving DecidableEq

/-- The type `jwt.MapClaims` (also used for the JOSE header): a map from claim
name to value. -/
abbrev Claims := List (String × Value)

/-- The read `m[k]` with its presence flag. -/
def Claims.get (m : Claims) (k : String) : Option Value := m.lookup k

/-- The write `m[k] = v`. -/
def Claims.set (m : Claims) (k : String) (v : Value) : Claims := (k, v) :: m

/-- The loop `for key, value := range src { dst[key] = value }`. The keys of a Go
map are distinct, so the order of the iteration does not matter; the fold is taken
from the right, which makes the first entry of `src` for a key the one that is
read back, as in `src` itself. -/
def Claims.assignAll (dst src : Claims) : Claims :=
  src.foldr (fun kv acc => acc.set kv.1 kv.2) dst

/-- A value that a JSON round trip into `map[string]interface{}` certainly keeps:
null, a boolean, a string, or an integer of magnitude at most `2^53`, which
`float64` holds exactly. -/
def Value.plain : Value → Bool
  | .null => true
  | .bool _ => true
  | .str _ => true
  | .num q => decide (q.den = 1 ∧ q.num.natAbs ≤ 9007199254740992)
  | .raw _ => false

/-- A value that `json.Unmarshal` reads back without an error once `json.Marshal`
has written it: null, a boolean, a string, or a number within the range of
`float64` (at most `10^308` in magnitude). -/
def Value.encodable : Value → Bool
  | .null => true
  | .bool _ => true
  | .str _ => true
  | .num q => decide (q.num.natAbs ≤ 10 ^ 308 * q.den)
  | .raw _ => false

/-- The external primitives: HMAC (by algorithm name, key and message), the raw
base64url codec of `EncodeSegment`/`DecodeSegment`, and `json.Marshal` /
`json.Unmarshal` on a string-keyed map. The law `json_decode` is what
`encoding/json` gives when the map is read back into a `map[string]interface{}`,
where every number becomes a `float64`: a map of encodable values is read back,
with the same keys, and a plain value is read back as itself. -/
structure Codec where
  hmac : String → String → String → String
  b64encode : String → String
  b64decode : String → Option String
  jsonMarshal : Claims → String
  jsonUnmarshal : String → Option Claims
  b64_roundtrip : ∀ b, b64decode (b64encode b) = some b
  b64_nodot : ∀ b, '.' ∉ (b64encode b).data
  json_decode : ∀ c : Claims, (∀ kv ∈ c, kv.2.encodable = true) →
    ∃ d, jsonUnmarshal (jsonMarshal c) = some d ∧
      ∀ k, (c.lookup k = none → d.lookup k = none) ∧
        ∀ v, c.lookup k = some v → v.plain = true → d.lookup k = some v

/-- The primitives with an idealised JSON codec, one that reads every number back
exactly: the map read back has the lookups of the map written. -/
structure Primitives extends Codec where
  json_roundtrip : ∀ c, ∃ d, jsonUnmarshal (jsonMarshal c) = some d ∧
    ∀ k, d.lookup k = c.lookup k

instance instCoePrimitivesCodec : Coe Primitives Codec := ⟨Primitives.toCodec⟩

/-- The sentinel errors of golang-jwt that a failed `Parse` wraps. -/
inductive JwtErr where
  | TokenMalformed
  | TokenUnverifiable
  | TokenSignatureInvalid
  | TokenInvalidClaims
  | TokenExpired
  | TokenNotValidYet
  | InvalidType
  deriving DecidableEq

/-- The failures of the token service: the four sentinels of `jwt.go` and the
anonymous error of `RefreshToken` for a token that is not a refresh token. -/
inductive AuthError where
  | InvalidToken
  | ExpiredToken
  | MissingToken
  | InvalidAuthHeader
  | NotARefreshToken
  deriving DecidableEq

/-- A registered signing method: the HMAC family (`*jwt.SigningMethodHMAC`) or
any other registered one. -/
inductive SigningMethod where
  | hmac (alg : String)
  | other (alg : String)
  deriving DecidableEq

/-- The method `jwt.GetSigningMethod`: the methods the library registers. -/
def getSigningMethod (alg : String) : Option SigningMethod :=
  if alg = "HS256" ∨ alg = "HS384" ∨ alg = "HS512" then some (.hmac alg)
  else if alg = "RS256" ∨ alg = "RS384" ∨ alg = "RS512" ∨
      alg = "ES256" ∨ alg = "ES384" ∨ alg = "ES512" ∨
      alg = "PS256" ∨ alg = "PS384" ∨ alg = "PS512" ∨
      alg = "EdDSA" ∨ alg = "none" then some (.other alg)
  else none

/-- The struct `jwtService`. -/
structure jwtService where
  secretKey : String
  refreshSecretKey : String
  defaultExpiration : Int
  refreshExpiration : Int
  issuer : String
  deriving DecidableEq

/-! ## golang-jwt: signing -/

/-- The method `Time.Unix`: whole seconds since the epoch, rounded down. -/
def unix (t : Int) : Int := t / 1000000000

/-- The call `strings.Split(s, ".")`. -/
def splitDots (s : String) : List String :=
  (s.data.splitOn '.').map String.mk

/-- The header `jwt.NewWithClaims` gives a token. -/
def newHeader (alg : String) : Claims :=
  [("typ", .str "JWT"), ("alg", .str alg)]

/-- The method `Token.SigningString`: the two encoded segments joined by a dot. -/
def signingString (E : Codec) (alg : String) (claims : Claims) : String :=
  E.b64encode (E.jsonMarshal (newHeader alg)) ++ "." ++ E.b64encode (E.jsonMarshal claims)

/-- The method `Token.SignedString` of a token made by `jwt.NewWithClaims` with an
HMAC method and a byte-slice key. With claims that are JSON values neither
`json.Marshal` nor the HMAC can fail, so the error result is left out. -/
def SignedString (E : Codec) (alg : String) (claims : Claims) (key : String) : String :=
  signingString E alg claims ++ "." ++ E.b64encode (E.hmac alg key (signingString E alg claims))

/-! ## golang-jwt: parsing and validation -/

/-- The method `MapClaims.parseNumericDate`: a missing claim and the number 0 are
no date, a number is truncated to the second, anything else is `ErrInvalidType`. -/
def parseNumericDate (m : Claims) (key : String) : Except JwtErr (Option Int) :=
  match m.get key with
  | none => .ok none
  | some (.num q) => if q = 0 then .ok none else .ok (some (Rat.floor q))
  | some _ => .error .InvalidType

/-- The method `Validator.verifyExpiresAt` (not required, no leeway):
`now.Before(exp)` must hold. -/
def verifyExpiresAt (m : Claims) (now : Int) : Option JwtErr :=
  match parseNumericDate m "exp" with
  | .error e => some e
  | .ok none => none
  | .ok (some s) => if now < s * 1000000000 then none else some .TokenExpired

/-- The method `Validator.verifyNotBefore` (not required, no leeway):
`!now.Before(nbf)` must hold. -/
def verifyNotBefore (m : Claims) (now : Int) : Option JwtErr :=
  match parseNumericDate m "nbf" with
  | .error e => some e
  | .ok none => none
  | .ok (some s) => if now < s * 1000000000 then some .TokenNotValidYet else none

/-- The method `Validator.Validate` of the default validator: the errors it joins. -/
def validate (m : Claims) (now : Int) : List JwtErr :=
  (verifyExpiresAt m now).toList ++ (verifyNotBefore m now).toList

/-- The method `SigningMethod.Verify` with a byte-slice key: the HMAC family
recomputes the MAC and compares; every other method rejects the key type. -/
def verify (E : Codec) (method : SigningMethod) (text sig key : String) : Bool :=
  match method with
  | .hmac alg => decide (sig = E.hmac alg key text)
  | .other _ => false

/-- The function `jwt.Parse` with the default parser: `ParseUnverified`, the
signature segment, the key function, `Verify`, then `Validate`. An error is the
list of sentinels it wraps; success is a token with `Valid = true`, of which the
claims are returned. -/
def parse (E : Codec) (tokenString : String)
    (keyFunc : SigningMethod → Option String) (now : Int) : Except (List JwtErr) Claims :=
  match splitDots tokenString with
  | [p0, p1, p2] =>
    match (E.b64decode p0).bind E.jsonUnmarshal with
    | none => .error [.TokenMalformed]
    | some header =>
      match (E.b64decode p1).bind E.jsonUnmarshal with
      | none => .error [.TokenMalformed]
      | some claims =>
        match header.get "alg" with
        | some (.str alg) =>
          match getSigningMethod alg with
          | none => .error [.TokenUnverifiable]
          | some method =>
            match E.b64decode p2 with
            | none => .error [.TokenMalformed]
            | some sig =>
              match keyFunc method with
              | none => .error [.TokenUnverifiable]
              | some key =>
                if verify E method (p0 ++ "." ++ p1) sig key then
                  match validate claims now with
                  | [] => .ok claims
                  | e :: es => .error (.TokenInvalidClaims :: e :: es)
                else .error [.TokenSignatureInvalid]
        | _ => .error [.TokenUnverifiable]
  | _ => .error [.TokenMalformed]

/-! ## The token service -/

/-- The key function of `ValidateToken` and `RefreshToken`: a method outside the
HMAC family is an error, otherwise the key is handed over. -/
def hmacKeyFunc (key : String) (method : SigningMethod) : Option String :=
  match method with
  | .hmac _ => some key
  | .other _ => none

/-- The method `jwtService.CreateToken` on a payload of JSON values, the values
that `json.Marshal` writes; `now` is the reading of `time.Now()`. -/
def CreateToken (E : Codec) (j : jwtService) (payload : Claims) (expiration : Int)
    (now : Int) : Except AuthError String :=
  let expiration := if expiration = 0 then j.defaultExpiration else expiration
  let claims : Claims :=
    [("iss", .str j.issuer), ("iat", .num (unix now)), ("exp", .num (unix (now + expiration)))]
  let claims := claims.assignAll payload
  .ok (SignedString E "HS256" claims j.secretKey)

/-- The method `jwtService.CreateRefreshToken` on a payload of JSON values. -/
def CreateRefreshToken (E : Codec) (j : jwtService) (payload : Claims)
    (now : Int) : Except AuthError String :=
  let claims : Claims :=
    [("iss", .str j.issuer), ("iat", .num (unix now)),
     ("exp", .num (unix (now + j.refreshExpiration))), ("type", .str "refresh")]
  let claims := claims.assignAll payload
  .ok (SignedString E "HS256" claims j.refreshSecretKey)

/-- The mapping of a `jwt.Parse` error in `ValidateToken` and `RefreshToken`:
`errors.Is(err, jwt.ErrTokenExpired)` gives `ErrExpiredToken`, everything else
wraps `ErrInvalidToken`. -/
def mapParseError (errs : List JwtErr) : AuthError :=
  if JwtErr.TokenExpired ∈ errs then .ExpiredToken else .InvalidToken

/-- The method `jwtService.ValidateToken`; `now` is the clock the validator reads. -/
def ValidateToken (E : Codec) (j : jwtService) (tokenString : String)
    (now : Int) : Except AuthError Claims :=
  match parse E tokenString (hmacKeyFunc j.secretKey) now with
  | .error errs => .error (mapParseError errs)
  | .ok claims => .ok claims

/-- The set `excludeKeys` of `RefreshToken`. -/
def excludeKeys (key : String) : Bool :=
  key = "iss" || key = "iat" || key = "exp" || key = "type"

/-- The method `jwtService.RefreshToken`; `now` is the clock the validator reads
and `now2` the later reading taken by `CreateToken`. -/
def RefreshToken (E : Codec) (j : jwtService) (refreshToken : String)
    (now now2 : Int) : Except AuthError String :=
  match parse E refreshToken (hmacKeyFunc j.refreshSecretKey) now with
  | .error errs => .error (mapParseError errs)
  | .ok claims =>
    match claims.get "type" with
    | some (.str tokenType) =>
      if tokenType ≠ "refresh" then .error .NotARefreshToken
      else
        let payload : Claims :=
          claims.foldr (fun kv acc => if !excludeKeys kv.1 then acc.set kv.1 kv.2 else acc) []
        CreateToken E j payload j.defaultExpiration now2
    | _ => .error .NotARefreshToken

/-! ## Payloads of Go values

A payload handed to `CreateToken` or `CreateRefreshToken` is a
`map[string]interface{}`, which can hold values that `json.Marshal` refuses. -/

/-- A value of a payload map as `json.Marshal` treats it: a value that it writes,
given by the JSON value written, or a value that it refuses with an
`UnsupportedValueError` or an `UnsupportedTypeError` (a NaN or an infinity, a func,
a chan, a complex number). -/
inductive GoValue where
  | json (v : Value)
  | unsupported
  deriving DecidableEq

/-- The JSON value that `json.Marshal` writes for a Go value, if it writes one. -/
def GoValue.written : GoValue → Option Value
  | .json v => some v
  | .unsupported => none

/-- The error of `json.Marshal`, which `Token.SignedString` hands back. -/
inductive MarshalError where
  | Unsupported
  deriving DecidableEq

/-- The claims that `json.Marshal` writes for a map of Go values; nothing when it
refuses one of the values. -/
def marshalValues : List (String × GoValue) → Option Claims
  | [] => some []
  | (k, .json v) :: rest => (marshalValues rest).map (fun c => (k, v) :: c)
  | (_, .unsupported) :: _ => none

/-- The method `jwtService.CreateToken` on a payload of Go values: the claims are
built as in `CreateToken`, and `token.SignedString` returns the error of
`json.Marshal` when a value of the claims has no JSON form. -/
def CreateTokenGo (E : Codec) (j : jwtService) (payload : List (String × GoValue))
    (expiration : Int) (now : Int) : Except MarshalError String :=
  let expiration := if expiration = 0 then j.defaultExpiration else expiration
  let claims : List (String × GoValue) :=
    [("iss", .json (.str j.issuer)), ("iat", .json (.num (unix now))),
     ("exp", .json (.num (unix (now + expiration))))]
  let claims := payload.foldr (fun kv acc => (kv.1, kv.2) :: acc) claims
  match marshalValues claims with
  | none => .error .Unsupported
  | some c => .ok (SignedString E "HS256" c j.secretKey)

/-- The method `jwtService.CreateRefreshToken` on a payload of Go values. -/
def CreateRefreshTokenGo (E : Codec) (j : jwtService) (payload : List (String × GoValue))
    (now : Int) : Except MarshalError String :=
  let claims : List (String × GoValue) :=
    [("iss", .json (.str j.issuer)), ("iat", .json (.num (unix now))),
     ("exp", .json (.num (unix (now + j.refreshExpiration)))),
     ("type", .json (.str "refresh"))]
  let claims := payload.foldr (fun kv acc => (kv.1, kv.2) :: acc) claims
  match marshalValues claims with
  | none => .error .Unsupported
  | some c => .ok (SignedString E "HS256" c j.refreshSecretKey)

/-! ## A reference instance of the primitives

The laws of `Primitives` are satisfiable: this instance writes a byte string or a
map as a unary numeral of its code. It is used to run the service on concrete
inputs. -/

/-- A string as the list of its code points. -/
def stringCode (s : String) : List ℕ := s.data.map Char.toNat

/-- The string of a list of code points. -/
def stringOfCode (l : List ℕ) : String := String.mk (l.map Char.ofNat)

instance instEncodableString : Encodable String :=
  Encodable.ofLeftInjection stringCode (fun l => some (stringOfCode l))
    (fun s => by simp [stringOfCode, stringCode, List.map_map, Function.comp_def])

/-- A JSON value as a tagged sum. -/
def valueCode : Value → Unit ⊕ Bool ⊕ ℚ ⊕ String ⊕ String
  | .null => .inl ()
  | .bool b => .inr (.inl b)
  | .num q => .inr (.inr (.inl q))
  | .str s => .inr (.inr (.inr (.inl s)))
  | .raw s => .inr (.inr (.inr (.inr s)))

/-- The JSON value of a tagged sum. -/
def valueOfCode : Unit ⊕ Bool ⊕ ℚ ⊕ String ⊕ String → Value
  | .inl _ => .null
  | .inr (.inl b) => .bool b
  | .inr (.inr (.inl q)) => .num q
  | .inr (.inr (.inr (.inl s))) => .str s
  | .inr (.inr (.inr (.inr s))) => .raw s

instance instEncodableValue : Encodable Value :=
  Encodable.ofLeftInjection valueCode (fun c => some (valueOfCode c))
    (fun v => by cases v <;> rfl)

/-- A unary numeral: `n` copies of the character `c`. -/
def unary (c : Char) (n : ℕ) : String := String.mk (List.replicate n c)

/-- The number a unary numeral over `c` stands for. -/
def ofUnary (c : Char) (s : String) : Option ℕ :=
  if s.data.all (fun x => x = c) then some s.length else none

/-- The reference primitives: the MAC is the concatenation of algorithm, key and
message, and both codecs are unary numerals. -/
def refPrimitives : Primitives where
  hmac := fun alg key text => alg ++ key ++ text
  b64encode := fun b => unary 'A' (Encodable.encode b)
  b64decode := fun s => (ofUnary 'A' s).bind Encodable.decode
  jsonMarshal := fun c => unary 'J' (Encodable.encode c)
  jsonUnmarshal := fun s => (ofUnary 'J' s).bind Encodable.decode
  b64_roundtrip := fun b => by simp [ofUnary, unary, String.length]
  b64_nodot := fun b => by simp [unary, List.mem_replicate]
  json_decode := fun c _ =>
    ⟨c, by simp [ofUnary, unary, String.length], fun _ => ⟨fun h => h, fun _ h _ => h⟩⟩
  json_roundtrip := fun c => ⟨c, by simp [ofUnary, unary, String.length], fun _ => rfl⟩

/-- A service with two distinct key domains, as `NewJwtService` builds it from the
secret `"k"` alone. -/
def svcDefault : jwtService :=
  { secretKey := "k", refreshSecretKey := "k-refresh",
    defaultExpiration := 900000000000, refreshExpiration := 604800000000000,
    issuer := "my-app" }

/-- A service configured with the same secret for both key domains. -/
def svcSameKey : jwtService :=
  { secretKey := "k", refreshSecretKey := "k",
    defaultExpiration := 900000000000, refreshExpiration := 604800000000000,
    issuer := "my-app" }

/-! ## The token service: the Authorization header

The part of `gin.Context` that the service and the middlewares use: the request
headers, the key/value store of the request (`c.Keys`), the abort flag and the
response written by `c.JSON`. -/

/-- The struct `UserClaims` of `middlewares/base.go`. The nil `interface{}` is
`Value.null`, which is also what a JSON `null` decodes to. -/
structure UserClaims where
  UserID : Value
  Username : String
  Email : String
  Role : String
  Claims : OakBank.Claims
  deriving DecidableEq

/-- A value stored in the request context with `c.Set`: a plain value (a Go string
is `Value.str`), a `jwt.MapClaims`, a `*UserClaims`, or a Go `int` or `int64`. -/
inductive CtxValue where
  | value (v : Value)
  | claims (m : Claims)
  | user (u : UserClaims)
  | int (n : Int)
  deriving DecidableEq

/-- The request context `gin.Context`. -/
structure Context where
  headers : List (String × String)
  Keys : List (String × CtxValue)
  aborted : Bool
  response : Option (Nat × Claims)
  deriving DecidableEq

/-- The method `c.GetHeader`: the value of the header, `""` when it is absent. -/
def Context.GetHeader (c : Context) (key : String) : String :=
  (c.headers.lookup key).getD ""

/-- The method `c.Set`. -/
def Context.Set (c : Context) (key : String) (value : CtxValue) : Context :=
  { c with Keys := (key, value) :: c.Keys }

/-- The method `c.Get`: the value with its presence flag. -/
def Context.Get (c : Context) (key : String) : Option CtxValue :=
  c.Keys.lookup key

/-- The method `c.JSON`: writes the status code and the JSON body `gin.H`. -/
def Context.JSON (c : Context) (code : Nat) (obj : Claims) : Context :=
  { c with response := some (code, obj) }

/-- The method `c.Abort`: the pending handlers of the chain are not called. -/
def Context.Abort (c : Context) : Context :=
  { c with aborted := true }

/-- The call `strings.Split(s, " ")`. -/
def splitSpaces (s : String) : List String :=
  (s.data.splitOn ' ').map String.mk

/-- The call `strings.ToLower`, on the letters `A` to `Z`. Go also lowers letters
outside ASCII; none of them becomes a letter of `"bearer"`, the only string the
result is compared with. -/
def ToLower (s : String) : String := String.mk (s.data.map Char.toLower)

/-- The method `jwtService.ExtractTokenFromHeader` (the receiver is not used). -/
def ExtractTokenFromHeader (c : Context) : Except AuthError String :=
  let authHeader := c.GetHeader "Authorization"
  if authHeader = "" then .error .MissingToken
  else
    match splitSpaces authHeader with
    | [p0, p1] => if ToLower p0 ≠ "bearer" then .error .InvalidAuthHeader else .ok p1
    | _ => .error .InvalidAuthHeader

/-- The method `jwtService.ValidateTokenFromHeader`. -/
def ValidateTokenFromHeader (E : Codec) (j : jwtService) (c : Context)
    (now : Int) : Except AuthError Claims :=
  match ExtractTokenFromHeader c with
  | .error err => .error err
  | .ok tokenString => ValidateToken E j tokenString now

/-- The composition the specification gives for `ValidateTokenFromHeader`:
extract, then validate, the first failure being the result. -/
def extractThenValidate (E : Codec) (j : jwtService) (c : Context)
    (now : Int) : Except AuthError Claims :=
  (ExtractTokenFromHeader c).bind (fun tokenString => ValidateToken E j tokenString now)

/-! ## The middlewares (`internal/api/middlewares/base.go`) -/

/-- The function `extractUserFromClaims`. -/
def extractUserFromClaims (claims : Claims) : UserClaims :=
  let user : UserClaims :=
    { UserID := .null, Username := "", Email := "", Role := "", Claims := claims }
  let user := match claims.get "user_id" with
    | some userID => { user with UserID := userID }
    | none => user
  let user := match claims.get "username" with
    | some (.str username) => { user with Username := username }
    | _ => user
  let user := match claims.get "email" with
    | some (.str email) => { user with Email := email }
    | _ => user
  let user := match claims.get "role" with
    | some (.str role) => { user with Role := role }
    | _ => user
  user

/-- The handler returned by `AuthMiddleware`; `next` is what `c.Next()` runs, the
rest of the handler chain, and `now` the clock read by the validation. -/
def AuthMiddleware (E : Codec) (jwtService : jwtService) (now : Int)
    (next : Context → Context) (c : Context) : Context :=
  match ValidateTokenFromHeader E jwtService c now with
  | .error _ =>
    let c := c.JSON 401 [("error", .str "Token inválido ou ausente")]
    c.Abort
  | .ok claims =>
    let user := extractUserFromClaims claims
    let c := c.Set "user_claims" (.claims claims)
    let c := c.Set "user" (.user user)
    let c := c.Set "user_id" (.value user.UserID)
    let c := c.Set "username" (.value (.str user.Username))
    let c := c.Set "email" (.value (.str user.Email))
    let c := c.Set "role" (.value (.str user.Role))
    next c

/-- The function `GetUser`. -/
def GetUser (c : Context) : Option UserClaims :=
  match c.Get "user" with
  | some (.user u) => some u
  | _ => none

/-- The function `GetUserID`: the stored value, nil included, with its presence. -/
def GetUserID (c : Context) : Option CtxValue :=
  c.Get "user_id"

/-- The function `GetUsername`. -/
def GetUsername (c : Context) : Option String :=
  match c.Get "username" with
  | some (.value (.str u)) => some u
  | _ => none

/-- The function `GetEmail`. -/
def GetEmail (c : Context) : Option String :=
  match c.Get "email" with
  | some (.value (.str e)) => some e
  | _ => none

/-- The function `GetRole`. -/
def GetRole (c : Context) : Option String :=
  match c.Get "role" with
  | some (.value (.str r)) => some r
  | _ => none

/-- The function `GetClaims`. -/
def GetClaims (c : Context) : Option Claims :=
  match c.Get "user_claims" with
  | some (.claims cl) => some cl
  | _ => none

/-! ## The credential cipher (`internal/api/security/password.go`)

A byte slice is a list of bytes; the plaintext password, a Go string, is taken as
its bytes. AES-GCM and the padded standard base64 codec are the fields of
`CipherPrimitives`. The random source `rand.Reader` is the list of bytes it
yields. -/

/-- A byte slice. -/
abbrev Bytes := List UInt8

/-- The struct `passwordService`. -/
structure passwordService where
  key : Bytes
  deriving DecidableEq

/-- The errors `Encrypt` and `Decrypt` return: `aes.KeySizeError` from
`aes.NewCipher`, the error reading `rand.Reader`, `base64.CorruptInputError`, the
error `"dados criptografados inválidos"` of `Decrypt`, and the authentication
failure of `gcm.Open`. -/
inductive CipherError where
  | KeySizeError (n : Nat)
  | RandomReadError
  | CorruptInputError
  | InvalidData
  | AuthFailed
  deriving DecidableEq

/-- The key sizes `aes.NewCipher` accepts. -/
def validKeySize (n : Nat) : Bool := n = 16 || n = 24 || n = 32

/-- The value `gcm.NonceSize()` of the standard GCM. -/
def nonceSize : Nat := 12

/-- The external primitives of the cipher: `gcm.Seal` and `gcm.Open` with no
additional data (by key, nonce and text; `Seal` gives ciphertext and tag, `Open`
gives nothing when the tag does not verify) and `base64.StdEncoding`. -/
structure CipherPrimitives where
  sealGCM : Bytes → Bytes → Bytes → Bytes
  openGCM : Bytes → Bytes → Bytes → Option Bytes
  stdEncode : Bytes → String
  stdDecode : String → Option Bytes
  open_seal : ∀ key nonce plaintext, validKeySize key.length = true →
    nonce.length = nonceSize → openGCM key nonce (sealGCM key nonce plaintext) = some plaintext
  std_roundtrip : ∀ b, stdDecode (stdEncode b) = some b

/-- The method `passwordService.Encrypt`; `rnd` is what `rand.Reader` yields, of
which `io.ReadFull` takes the first `nonceSize` bytes. The result is the Go pair
of the string and the error. -/
def Encrypt (E : CipherPrimitives) (p : passwordService) (plainPassword : Bytes)
    (rnd : Bytes) : String × Option CipherError :=
  if validKeySize p.key.length = false then ("", some (.KeySizeError p.key.length))
  else if rnd.length < nonceSize then ("", some .RandomReadError)
  else
    let nonce := rnd.take nonceSize
    let ciphertext := nonce ++ E.sealGCM p.key nonce plainPassword
    (E.stdEncode ciphertext, none)

/-- The method `passwordService.Decrypt`. -/
def Decrypt (E : CipherPrimitives) (p : passwordService)
    (encryptedPassword : String) : Bytes × Option CipherError :=
  match E.stdDecode encryptedPassword with
  | none => ([], some .CorruptInputError)
  | some data =>
    if validKeySize p.key.length = false then ([], some (.KeySizeError p.key.length))
    else if data.length < nonceSize then ([], some .InvalidData)
    else
      match E.openGCM p.key (data.take nonceSize) (data.drop nonceSize) with
      | none => ([], some .AuthFailed)
      | some plaintext => (plaintext, none)

/-- The method `passwordService.Compare`. -/
def Compare (E : CipherPrimitives) (p : passwordService) (plainPassword : Bytes)
    (encryptedPassword : String) : Bool × Option CipherError :=
  match Decrypt E p encryptedPassword with
  | (_, some err) => (false, some err)
  | (decrypted, none) => (decide (plainPassword = decrypted), none)

instance instEncodableUInt8 : Encodable UInt8 :=
  Encodable.ofLeftInjection UInt8.toNat (fun n => some (UInt8.ofNat n))
    (fun b => by cases b; simp [UInt8.ofNat, UInt8.toNat])

/-- The reference cipher: the sealed text is the plaintext behind a tag made of
the key and the nonce, and the base64 text is a unary numeral. -/
def refCipher : CipherPrimitives where
  sealGCM := fun key nonce plaintext => (key ++ nonce) ++ plaintext
  openGCM := fun key nonce sealed =>
    if sealed.take (key.length + nonce.length) = key ++ nonce then
      some (sealed.drop (key.length + nonce.length))
    else none
  stdEncode := fun b => unary 'B' (Encodable.encode b)
  stdDecode := fun s => (ofUnary 'B' s).bind Encodable.decode
  open_seal := fun key nonce plaintext _ _ => by
    have h : (key ++ nonce).length = key.length + nonce.length := List.length_append _ _
    show (if ((key ++ nonce) ++ plaintext).take (key.length + nonce.length) = key ++ nonce then
        some (((key ++ nonce) ++ plaintext).drop (key.length + nonce.length))
      else none) = some plaintext
    rw [if_pos (List.take_left' h), List.drop_left' h]
  std_roundtrip := fun b => by simp [ofUnary, unary, String.length]

/-- A password service with a 16-byte key. -/
def pwdService : passwordService :=
  { key := [1, 2, 3, 4, 5, 6, 7, 8, 9, 10, 11, 12, 13, 14, 15, 16] }

/-- Twelve bytes of the random source. -/
def rndA : Bytes := [0, 1, 2, 3, 4, 5, 6, 7, 8, 9, 10, 11]

/-- Twelve other bytes of the random source. -/
def rndB : Bytes := [9, 1, 2, 3, 4, 5, 6, 7, 8, 9, 10, 11]

/-- A request context with the given `Authorization` header and nothing else. -/
def requestWith (authorization : String) : Context :=
  { headers := [("Authorization", authorization)], Keys := [], aborted := false,
    response := none }

/-! ## The optional gate, the role gates and the subject id

`strings.EqualFold` is written out from the Go library; the table behind
`unicode.SimpleFold`, which it reads for a pair of runes that are not both ASCII,
is the field of `CaseFolding`, with the properties that the documentation of
`SimpleFold` states. What
`fmt.Sprintf("%v", x)` prints for a value that is neither a string, a number with
an integral value, a boolean, nil nor an integer is an argument of
`GetUserIDAsString`. -/

/-- The handler returned by `AuthMiddlewareOptional`. -/
def AuthMiddlewareOptional (E : Codec) (jwtService : jwtService) (now : Int)
    (next : Context → Context) (c : Context) : Context :=
  match ValidateTokenFromHeader E jwtService c now with
  | .ok claims =>
    let user := extractUserFromClaims claims
    let c := c.Set "user_claims" (.claims claims)
    let c := c.Set "user" (.user user)
    let c := c.Set "user_id" (.value user.UserID)
    let c := c.Set "username" (.value (.str user.Username))
    let c := c.Set "email" (.value (.str user.Email))
    let c := c.Set "role" (.value (.str user.Role))
    next c
  | .error _ => next c

/-- The function `IsAuthenticated`. -/
def IsAuthenticated (c : Context) : Bool :=
  (c.Get "user").isSome

/-- The table of package `unicode` that `strings.EqualFold` reads: the function
`unicode.SimpleFold`, with what its documentation says of it. The runes reached
from a rune by repeating `SimpleFold` are the runes equal to it under simple case
folding: `SimpleFold` returns the smallest of them above its argument if there is
one (`fold_next`), and the walk comes back to where it started (`fold_cycle`); two
ASCII runes are equal under folding when they are the same letter in either case
(`fold_ascii`). -/
structure CaseFolding where
  SimpleFold : Char → Char
  fold_next : ∀ (c d : Char) (n : Nat), Nat.iterate SimpleFold n c = d →
    c.toNat < d.toNat → c.toNat < (SimpleFold c).toNat ∧ (SimpleFold c).toNat ≤ d.toNat
  fold_cycle : ∀ c, ∃ n, Nat.iterate SimpleFold (n + 1) c = c
  fold_ascii : ∀ c d : Char, c.toNat < 128 → d.toNat < 128 →
    ((∃ n, Nat.iterate SimpleFold n c = d) ↔ c.toLower = d.toLower)

/-- The inner loop `for r != sr && r < tr { r = unicode.SimpleFold(r) }` of
`EqualFold` and the test `r == tr` after it. The runes equal to `sr` under folding
form a cycle, so the walk comes back to `sr`; the fuel is the number of code
points. -/
def foldWalk (F : CaseFolding) (sr tr : Char) : Nat → Char → Bool
  | 0, _ => false
  | fuel + 1, r =>
    if r ≠ sr ∧ r.toNat < tr.toNat then foldWalk F sr tr fuel (F.SimpleFold r)
    else decide (r = tr)

/-- One round of the loop of `EqualFold`, on the rune `sr` of the first string and
the rune `tr` of the second: equal runes match; otherwise the smaller one is
called `sr`, two ASCII runes match when `sr` is a letter `A` to `Z` and `tr` its
lower case, and any other pair matches when the walk from `sr` reaches `tr`. -/
def equalFoldRune (F : CaseFolding) (sr tr : Char) : Bool :=
  if tr = sr then true
  else
    let lo := if tr.toNat < sr.toNat then tr else sr
    let hi := if tr.toNat < sr.toNat then sr else tr
    if hi.toNat < 128 then
      decide (65 ≤ lo.toNat ∧ lo.toNat ≤ 90 ∧ hi.toNat = lo.toNat + 32)
    else foldWalk F lo hi 1114112 (F.SimpleFold lo)

/-- The loop of `strings.EqualFold` over the runes of the two strings: it stops
with `false` at the first pair that does not match or when the second string ends
first, and when the first string ends the second one must have ended too. -/
def equalFoldRunes (F : CaseFolding) : List Char → List Char → Bool
  | [], t => t.isEmpty
  | _ :: _, [] => false
  | sr :: s, tr :: t => equalFoldRune F sr tr && equalFoldRunes F s t

/-- The call `strings.EqualFold(s, t)`. -/
def EqualFold (F : CaseFolding) (s t : String) : Bool :=
  equalFoldRunes F s.data t.data

/-- Whether a string is made of ASCII characters only. -/
def isASCII (s : String) : Bool := s.data.all (fun c => decide (c.toNat < 128))

/-- The same letter when case is ignored: the rune `d` is one of the runes that
`unicode.SimpleFold` walks through from the rune `c`. -/
def sameLetter (F : CaseFolding) (c d : Char) : Prop :=
  ∃ n, Nat.iterate F.SimpleFold n c = d

/-- Equality of two strings ignoring letter case: as many runes in both and,
position by position, the same letter when case is ignored. -/
def equalIgnoringCase (F : CaseFolding) (s t : String) : Prop :=
  List.Forall₂ (sameLetter F) s.data t.data

/-- The loop over the allow-list of a role gate, with the comparison `isAllowed`:
the first entry that matches runs `c.Next()`; without a match the request is
forbidden. -/
def roleLoop (isAllowed : String → Bool) (next : Context → Context) (c : Context) :
    List String → Context
  | [] =>
    let c := c.JSON 403 [("error", .str "Acesso negado: permissões insuficientes")]
    c.Abort
  | allowedRole :: rest =>
    if isAllowed allowedRole then next c else roleLoop isAllowed next c rest

/-- The handler returned by `RequireRole(roles...)`. -/
def RequireRole (F : CaseFolding) (roles : List String) (next : Context → Context)
    (c : Context) : Context :=
  match c.Get "role" with
  | none =>
    let c := c.JSON 401 [("error", .str "Usuário não autenticado")]
    c.Abort
  | some (.value (.str role)) =>
    roleLoop (fun allowedRole => EqualFold F role allowedRole) next c roles
  | some _ =>
    let c := c.JSON 403 [("error", .str "Role inválida")]
    c.Abort

/-- The handler returned by `RequireRoleStrict(roles...)`. -/
def RequireRoleStrict (roles : List String) (next : Context → Context)
    (c : Context) : Context :=
  match c.Get "role" with
  | none =>
    let c := c.JSON 401 [("error", .str "Usuário não autenticado")]
    c.Abort
  | some (.value (.str role)) =>
    roleLoop (fun allowedRole => decide (role = allowedRole)) next c roles
  | some _ =>
    let c := c.JSON 403 [("error", .str "Role inválida")]
    c.Abort

/-- The other case of an ASCII letter; any other rune is left as it is. -/
def asciiSwap (c : Char) : Char :=
  if 65 ≤ c.toNat ∧ c.toNat ≤ 90 then Char.ofNat (c.toNat + 32)
  else if 97 ≤ c.toNat ∧ c.toNat ≤ 122 then Char.ofNat (c.toNat - 32)
  else c

/-- A table for the ASCII letters alone: a letter goes to its other case and every
other rune to itself. -/
def refFolding : CaseFolding :=
  have small : ∀ n : Nat, n < 55296 → (Char.ofNat n).toNat = n := by
    intro n h
    have hv : n.isValidChar := Or.inl h
    unfold Char.ofNat
    rw [dif_pos hv]
    simp [Char.ofNatAux, Char.toNat, UInt32.toNat]
  have inj : ∀ c d : Char, c.toNat = d.toNat → c = d := by
    intro c d h
    have := congrArg Char.ofNat h
    simpa using this
  have key : ∀ c : Char, (asciiSwap c).toNat =
      if 65 ≤ c.toNat ∧ c.toNat ≤ 90 then c.toNat + 32
      else if 97 ≤ c.toNat ∧ c.toNat ≤ 122 then c.toNat - 32 else c.toNat := by
    intro c
    unfold asciiSwap
    split_ifs with h1 h2
    · exact small _ (by omega)
    · exact small _ (by omega)
    · rfl
  have lower : ∀ c : Char, c.toLower.toNat =
      if 65 ≤ c.toNat ∧ c.toNat ≤ 90 then c.toNat + 32 else c.toNat := by
    intro c
    unfold Char.toLower
    by_cases h : 65 ≤ c.toNat ∧ c.toNat ≤ 90
    · simp only [h, ge_iff_le, and_self, if_true]
      exact small _ (by omega)
    · simp [h]
  have twice : ∀ c : Char, asciiSwap (asciiSwap c) = c := by
    intro c
    apply inj
    rw [key (asciiSwap c), key c]
    split_ifs <;> omega
  have orbit : ∀ (n : Nat) (c : Char),
      Nat.iterate asciiSwap n c = c ∨ Nat.iterate asciiSwap n c = asciiSwap c := by
    intro n
    induction n with
    | zero => exact fun c => Or.inl rfl
    | succ m ih =>
      intro c
      rw [Function.iterate_succ_apply']
      rcases ih c with h | h
      · rw [h]
        exact Or.inr rfl
      · rw [h, twice]
        exact Or.inl rfl
  { SimpleFold := asciiSwap
    fold_next := by
      intro c d n hn hlt
      rcases orbit n c with h | h
      · rw [h] at hn
        rw [hn] at hlt
        omega
      · rw [h] at hn
        rw [hn]
        exact ⟨hlt, le_refl _⟩
    fold_cycle := fun c => ⟨1, twice c⟩
    fold_ascii := by
      intro c d hc hd
      constructor
      · rintro ⟨n, hn⟩
        apply inj
        rw [lower, lower]
        rcases orbit n c with h | h
        · rw [h] at hn
          rw [hn]
        · rw [h] at hn
          rw [← hn, key c]
          split_ifs <;> omega
      · intro h
        have h2 := congrArg Char.toNat h
        rw [lower, lower] at h2
        by_cases he : d.toNat = c.toNat
        · exact ⟨0, (inj _ _ he).symm⟩
        · refine ⟨1, inj _ _ ?_⟩
          show (asciiSwap c).toNat = d.toNat
          rw [key c]
          split_ifs at h2 ⊢ <;> omega }

/-- The spaces that `fmt` skips before a number; a newline is not one of them in
`Sscanf`. -/
def isScanSpace (c : Char) : Bool :=
  c = ' ' || c.toNat = 9 || c.toNat = 11 || c.toNat = 12 || c.toNat = 13

/-- The value of a run of decimal digits. -/
def digitsValue (ds : List Char) : Nat :=
  ds.foldl (fun x c => x * 10 + (c.toNat - 48)) 0

/-- The call `fmt.Sscanf(v, "%d", &id)`: leading spaces are skipped, then an
optional sign and at least one digit are read, and whatever follows the digits is
left unread; the value must fit in 64 bits. -/
def Sscanf_d (v : String) : Option Int :=
  match v.data.dropWhile isScanSpace with
  | [] => none
  | c :: rest =>
    let neg := decide (c = '-')
    let body := if c = '-' ∨ c = '+' then rest else c :: rest
    let digits := body.takeWhile Char.isDigit
    if digits = [] then none
    else
      let n : Int := if neg then -(digitsValue digits : Int) else (digitsValue digits : Int)
      if n < -9223372036854775808 ∨ 9223372036854775807 < n then none else some n

/-- The function `GetUserIDAsInt`; the result `(0, false)` is `none`. The
conversion `int(v)` of a `float64` truncates toward zero. -/
def GetUserIDAsInt (c : Context) : Option Int :=
  match c.Get "user_id" with
  | none => none
  | some (.int v) => some v
  | some (.value (.num v)) => some (v.num.tdiv v.den)
  | some (.value (.str v)) => Sscanf_d v
  | some _ => none

/-- The digits of a positive whole `float64` as `%v` prints it: the format `%g`
with the shortest precision, which is the plain numeral below `10^6` and the
exponent form from `10^6` on. -/
def formatWhole (n : Nat) : String :=
  let digits := Nat.toDigits 10 n
  if digits.length ≤ 6 then String.mk digits
  else
    let mantissa := (digits.reverse.dropWhile (fun c => c = '0')).reverse
    let exp := digits.length - 1
    let expDigits := if exp < 10 then '0' :: Nat.toDigits 10 exp else Nat.toDigits 10 exp
    match mantissa with
    | [] => "0"
    | [d] => String.mk (d :: 'e' :: '+' :: expDigits)
    | d :: more => String.mk (d :: '.' :: more ++ 'e' :: '+' :: expDigits)

/-- The call `fmt.Sprintf("%v", x)` on a context value; `other` prints what is
not modelled. -/
def Sprintf_v (other : CtxValue → String) : CtxValue → String
  | .value (.str s) => s
  | .value .null => "<nil>"
  | .value (.bool b) => if b then "true" else "false"
  | .value (.num q) =>
    if q.den = 1 then
      (if q.num < 0 then "-" ++ formatWhole q.num.natAbs else formatWhole q.num.natAbs)
    else other (.value (.num q))
  | .int n => if n < 0 then "-" ++ String.mk (Nat.toDigits 10 n.natAbs)
      else String.mk (Nat.toDigits 10 n.natAbs)
  | x => other x

/-- The function `GetUserIDAsString`; the result `("", false)` is `none`. -/
def GetUserIDAsString (other : CtxValue → String) (c : Context) : Option String :=
  match c.Get "user_id" with
  | none => none
  | some userID => some (Sprintf_v other userID)

/-! ## Configuration of the token service

The environment is the function `os.Getenv` as it is once `godotenv.Load` has run.
`time.ParseDuration` and `strconv.Atoi` are written out from the Go library; the
fraction of a duration, computed in `float64` by Go, is computed exactly here.
The products of `time.Duration` wrap around at 64 bits. -/

/-- The struct `JwtConfig`. -/
structure JwtConfig where
  SecretKey : String
  RefreshSecretKey : String
  DefaultExpiration : Int
  RefreshExpiration : Int
  Issuer : String
  deriving DecidableEq

/-- The function `getEnv`. -/
def getEnv (env : String → String) (key defaultValue : String) : String :=
  let value := env key
  if value = "" then defaultValue else value

/-- The function `leadingInt` of package `time`: the value of the leading digits,
added to `x`, and the rest of the string; nothing on overflow. -/
def leadingInt : List Char → Nat → Option (Nat × List Char)
  | [], x => some (x, [])
  | c :: cs, x =>
    if c.isDigit then
      if x > 9223372036854775808 / 10 then none
      else if x * 10 + (c.toNat - 48) > 9223372036854775808 then none
      else leadingInt cs (x * 10 + (c.toNat - 48))
    else some (x, c :: cs)

/-- The function `leadingFraction` of package `time`: the digits after the point
as a number and its scale, and the rest of the string; digits past an overflow are
dropped. -/
def leadingFraction : List Char → Nat → Nat → Bool → Nat × Nat × List Char
  | [], x, scale, _ => (x, scale, [])
  | c :: cs, x, scale, overflow =>
    if c.isDigit then
      if overflow then leadingFraction cs x scale true
      else if x > 9223372036854775807 / 10 then leadingFraction cs x scale true
      else if x * 10 + (c.toNat - 48) > 9223372036854775808 then
        leadingFraction cs x scale true
      else leadingFraction cs (x * 10 + (c.toNat - 48)) (scale * 10) false
    else (x, scale, c :: cs)

/-- The table `unitMap` of package `time`, in nanoseconds. -/
def unitMap (u : String) : Option Nat :=
  if u = "ns" then some 1
  else if u = "us" ∨ u = "µs" ∨ u = "μs" then some 1000
  else if u = "ms" then some 1000000
  else if u = "s" then some 1000000000
  else if u = "m" then some 60000000000
  else if u = "h" then some 3600000000000
  else none

/-- The loop of `time.ParseDuration` over the groups number, fraction, unit; `d`
is the sum so far. Every round consumes at least one character, so a fuel of one
more than the length of the string is never used up. -/
def parseDurationLoop : Nat → List Char → Nat → Option Nat
  | 0, _, _ => none
  | _ + 1, [], d => some d
  | fuel + 1, c :: cs, d =>
    if !(c = '.' || c.isDigit) then none
    else
      match leadingInt (c :: cs) 0 with
      | none => none
      | some (v, s1) =>
        let pre := decide (s1.length ≠ (c :: cs).length)
        let frac : Nat × Nat × List Char × Bool :=
          match s1 with
          | '.' :: r =>
            let res := leadingFraction r 0 1 false
            (res.1, res.2.1, res.2.2, decide (res.2.2.length ≠ r.length))
          | _ => (0, 1, s1, false)
        if !pre && !frac.2.2.2 then none
        else
          let u := frac.2.2.1.takeWhile (fun x => !(x = '.' || x.isDigit))
          let s3 := frac.2.2.1.dropWhile (fun x => !(x = '.' || x.isDigit))
          if u = [] then none
          else
            match unitMap (String.mk u) with
            | none => none
            | some unit =>
              if v > 9223372036854775808 / unit then none
              else
                let w := if frac.1 > 0 then v * unit + frac.1 * unit / frac.2.1 else v * unit
                if frac.1 > 0 ∧ w > 9223372036854775808 then none
                else if (d + w) % 18446744073709551616 > 9223372036854775808 then none
                else parseDurationLoop fuel s3 ((d + w) % 18446744073709551616)

/-- The optional sign that `ParseDuration` and `Atoi` consume: whether it is a
minus, and the rest. -/
def splitSign : List Char → Bool × List Char
  | '-' :: r => (true, r)
  | '+' :: r => (false, r)
  | r => (false, r)

/-- The function `time.ParseDuration`; nothing is an error. -/
def ParseDuration (s : String) : Option Int :=
  let signed := splitSign s.data
  if signed.2 = ['0'] then some 0
  else if signed.2 = [] then none
  else
    match parseDurationLoop (signed.2.length + 1) signed.2 0 with
    | none => none
    | some d =>
      if signed.1 then some (-(d : Int))
      else if d > 9223372036854775807 then none else some (d : Int)

/-- The function `strconv.Atoi` with a 64-bit `int`; nothing is an error. -/
def Atoi (s : String) : Option Int :=
  let signed := splitSign s.data
  if signed.2 = [] ∨ signed.2.all Char.isDigit = false then none
  else
    let n : Int :=
      if signed.1 then -(digitsValue signed.2 : Int) else (digitsValue signed.2 : Int)
    if n < -9223372036854775808 ∨ 9223372036854775807 < n then none else some n

/-- The value of an `int64` after an arithmetic operation: the result modulo
`2^64`, between `-2^63` and `2^63 - 1`. -/
def wrap64 (x : Int) : Int :=
  (x + 9223372036854775808) % 18446744073709551616 - 9223372036854775808

/-- The function `getEnvDuration`. -/
def getEnvDuration (env : String → String) (key : String) (defaultValue : Int) : Int :=
  let value := env key
  if value = "" then defaultValue
  else
    match ParseDuration value with
    | some duration => duration
    | none =>
      let days : Option Int :=
        if value.data.getLast? = some 'd' then Atoi (String.mk value.data.dropLast)
        else none
      match days with
      | some d => wrap64 (wrap64 (d * 24) * 3600000000000)
      | none =>
        match Atoi value with
        | some seconds => wrap64 (seconds * 1000000000)
        | none => defaultValue

/-- The function `NewJwtService`; `config` is nothing for a nil pointer and the
result is nothing when the function panics. -/
def NewJwtService (env : String → String) (config : Option JwtConfig) : Option jwtService :=
  let config : JwtConfig := config.getD
    { SecretKey := "", RefreshSecretKey := "", DefaultExpiration := 0,
      RefreshExpiration := 0, Issuer := "" }
  let config := if config.SecretKey = "" then
    { config with SecretKey := getEnv env "JWT_SECRET_KEY" "" } else config
  let config := if config.RefreshSecretKey = "" then
    { config with RefreshSecretKey := getEnv env "JWT_REFRESH_SECRET_KEY" "" } else config
  let config := if config.DefaultExpiration = 0 then
    { config with
      DefaultExpiration := getEnvDuration env "JWT_DEFAULT_EXPIRATION" 900000000000 }
    else config
  let config := if config.RefreshExpiration = 0 then
    { config with
      RefreshExpiration := getEnvDuration env "JWT_REFRESH_EXPIRATION" 604800000000000 }
    else config
  let config := if config.Issuer = "" then
    { config with Issuer := getEnv env "JWT_ISSUER" "my-app" } else config
  if config.SecretKey = "" then none
  else
    let config := if config.RefreshSecretKey = "" then
      { config with RefreshSecretKey := config.SecretKey ++ "-refresh" } else config
    some
      { secretKey := config.SecretKey,
        refreshSecretKey := config.RefreshSecretKey,
        defaultExpiration := config.DefaultExpiration,
        refreshExpiration := config.RefreshExpiration,
        issuer := config.Issuer }

/-- An environment in which only the variable `key` is set, to `value`. -/
def envWith (key value : String) : String → String :=
  fun k => if k = key then value else ""

/-! ## The query builder (`pkg/domain/repositories/base.go`)

The database handle of gorm is left out: `Find`, `First` and `Count` give the
query they hand to gorm, or nothing when building it panics. -/

/-- The struct `QueryBuilder`, without the database handle. -/
structure QueryBuilder where
  conditions : List String
  args : List Value
  preloads : List String
  orderBy : String
  limit : Int
  offset : Int
  deriving DecidableEq

/-- The method `Repository.NewQueryBuilder`. -/
def NewQueryBuilder : QueryBuilder :=
  { conditions := [], args := [], preloads := [], orderBy := "", limit := 0, offset := 0 }

/-- The method `QueryBuilder.Where`; `args` is the variadic argument. -/
def QueryBuilder.Where (qb : QueryBuilder) (condition : String) (args : List Value) :
    QueryBuilder :=
  { qb with conditions := qb.conditions ++ [condition], args := qb.args ++ args }

/-- The method `QueryBuilder.Preload`. -/
def QueryBuilder.Preload (qb : QueryBuilder) (relation : String) : QueryBuilder :=
  { qb with preloads := qb.preloads ++ [relation] }

/-- The method `QueryBuilder.OrderBy`. -/
def QueryBuilder.OrderBy (qb : QueryBuilder) (order : String) : QueryBuilder :=
  { qb with orderBy := order }

/-- The method `QueryBuilder.Limit`. -/
def QueryBuilder.Limit (qb : QueryBuilder) (limit : Int) : QueryBuilder :=
  { qb with limit := limit }

/-- The method `QueryBuilder.Offset`. -/
def QueryBuilder.Offset (qb : QueryBuilder) (offset : Int) : QueryBuilder :=
  { qb with offset := offset }

/-- The query handed to gorm: the calls `Where(condition, arg)` in order, the
preloads, and the order, limit and offset when they are applied. -/
structure Query where
  wheres : List (String × Value)
  preloads : List String
  order : Option String
  limit : Option Int
  offset : Option Int
  deriving DecidableEq

/-- The loop `for i, condition := range qb.conditions { query.Where(condition,
qb.args[i]) }` from index `i` on: the pairs passed to gorm, or nothing when
`qb.args[i]` is out of range, which is a run-time panic. -/
def applyConditions (args : List Value) : List String → Nat → Option (List (String × Value))
  | [], _ => some []
  | condition :: rest, i =>
    match args.get? i with
    | none => none
    | some arg =>
      match applyConditions args rest (i + 1) with
      | none => none
      | some calls => some ((condition, arg) :: calls)

/-- The method `QueryBuilder.Find`, up to the call of `query.Find`. -/
def QueryBuilder.Find (qb : QueryBuilder) : Option Query :=
  match applyConditions qb.args qb.conditions 0 with
  | none => none
  | some calls =>
    some
      { wheres := calls,
        preloads := qb.preloads,
        order := if qb.orderBy ≠ "" then some qb.orderBy else none,
        limit := if qb.limit > 0 then some qb.limit else none,
        offset := if qb.offset > 0 then some qb.offset else none }

/-- The method `QueryBuilder.First`, up to the call of `query.First`. -/
def QueryBuilder.First (qb : QueryBuilder) : Option Query :=
  match applyConditions qb.args qb.conditions 0 with
  | none => none
  | some calls =>
    some
      { wheres := calls,
        preloads := qb.preloads,
        order := if qb.orderBy ≠ "" then some qb.orderBy else none,
        limit := none,
        offset := none }

/-- The method `QueryBuilder.Count`, up to the call of `query.Count`. -/
def QueryBuilder.Count (qb : QueryBuilder) : Option Query :=
  match applyConditions qb.args qb.conditions 0 with
  | none => none
  | some calls =>
    some { wheres := calls, preloads := [], order := none, limit := none, offset := none }

/-- A request context in which the role key holds the string `"Admin"`. -/
def adminContext : Context :=
  { headers := [], Keys := [("role", CtxValue.value (Value.str "Admin"))], aborted := false,
    response := none }

/-! ## Lemmas on maps and on the wire format -/

theorem assignAll_eq (dst src : Claims) : dst.assignAll src = src ++ dst := by
  unfold Claims.assignAll
  induction src with
  | nil => rfl
  | cons kv rest ih => simp [Claims.set, ih]

theorem lookup_assignAll (dst src : Claims) (k : String) :
    (dst.assignAll src).lookup k = (src.lookup k).or (dst.lookup k) := by
  rw [assignAll_eq, List.lookup_append]

theorem foldr_filterKeys (p : String → Bool) (m : Claims) :
    m.foldr (fun kv (acc : Claims) => if !p kv.1 then acc.set kv.1 kv.2 else acc) []
      = m.filter (fun kv => !p kv.1) := by
  induction m with
  | nil => rfl
  | cons kv rest ih =>
    rw [List.foldr_cons, ih]
    cases hp : p kv.1 <;> simp [hp, Claims.set]

theorem lookup_filter_key (p : String → Bool) (m : Claims) (k : String) :
    (m.filter (fun kv => !p kv.1)).lookup k = if p k then none else m.lookup k := by
  induction m with
  | nil => simp
  | cons kv rest ih =>
    obtain ⟨a, v⟩ := kv
    by_cases hk : k = a
    · subst hk
      cases hp : p k
      · rw [List.filter_cons_of_pos (by simp [hp])]
        simp [List.lookup_cons]
      · rw [List.filter_cons_of_neg (by simp [hp]), ih]
        simp [hp]
    · have hka : (k == a) = false := by simpa using hk
      cases hp : p a
      · rw [List.filter_cons_of_pos (by simp [hp])]
        simp only [List.lookup_cons, hka]
        exact ih
      · rw [List.filter_cons_of_neg (by simp [hp]), ih]
        simp only [List.lookup_cons, hka]

theorem splitDots_three (a b c : String) (ha : '.' ∉ a.data) (hb : '.' ∉ b.data)
    (hc : '.' ∉ c.data) : splitDots (a ++ "." ++ b ++ "." ++ c) = [a, b, c] := by
  unfold splitDots
  have h : (a ++ "." ++ b ++ "." ++ c).data = ['.'].intercalate [a.data, b.data, c.data] := by
    simp [List.intercalate, String.data_append]
  rw [h, List.splitOn_intercalate _ '.' (by simp [ha, hb, hc]) (by simp)]
  simp

theorem floor_intCast (s : ℤ) : Rat.floor (s : ℚ) = s := by
  show ⌊(s : ℚ)⌋ = s
  exact Int.floor_intCast s

theorem validate_congr (c d : Claims) (now : Int) (h : ∀ k, d.lookup k = c.lookup k) :
    validate d now = validate c now := by
  simp [validate, verifyExpiresAt, verifyNotBefore, parseNumericDate, Claims.get, h]

/-- Parsing a token made by `SignedString` with HS256 under `key`, with the key
function handing over `key2`: the signature is compared first, then the claims
are validated; the claims read back are the signed ones. -/
theorem parse_SignedString (E : Primitives) (claims : Claims) (key key2 : String) (now : Int) :
    ∃ d : Claims, (∀ k, d.lookup k = claims.lookup k) ∧
      parse E (SignedString E "HS256" claims key) (hmacKeyFunc key2) now =
        if E.hmac "HS256" key (signingString E "HS256" claims)
            = E.hmac "HS256" key2 (signingString E "HS256" claims) then
          (match validate claims now with
           | [] => .ok d
           | e :: es => .error (.TokenInvalidClaims :: e :: es))
        else .error [.TokenSignatureInvalid] := by
  obtain ⟨hd, hhd, hhl⟩ := E.json_roundtrip (newHeader "HS256")
  obtain ⟨d, hd1, hd2⟩ := E.json_roundtrip claims
  refine ⟨d, hd2, ?_⟩
  have halg : hd.get "alg" = some (.str "HS256") := by
    rw [Claims.get, hhl]; rfl
  have hm : getSigningMethod "HS256" = some (.hmac "HS256") := by decide
  unfold parse SignedString signingString
  rw [splitDots_three _ _ _ (E.b64_nodot _) (E.b64_nodot _) (E.b64_nodot _)]
  simp only [E.b64_roundtrip, Option.some_bind, hhd, hd1, halg, hm, hmacKeyFunc, verify,
    validate_congr claims d now hd2]
  by_cases h : E.hmac "HS256" key (E.b64encode (E.jsonMarshal (newHeader "HS256")) ++ "." ++
      E.b64encode (E.jsonMarshal claims)) = E.hmac "HS256" key2
      (E.b64encode (E.jsonMarshal (newHeader "HS256")) ++ "." ++ E.b64encode (E.jsonMarshal claims))
  · simp [h]
  · simp [h]

/-! ## Lemmas on validation and on the service -/

theorem verifyExpiresAt_int (c : Claims) (t s : Int) (h : c.lookup "exp" = some (.num (s : ℚ))) :
    verifyExpiresAt c t =
      if s = 0 then none else if t < s * 1000000000 then none else some .TokenExpired := by
  simp only [verifyExpiresAt, parseNumericDate, Claims.get, h, Int.cast_eq_zero, floor_intCast]
  by_cases hs : s = 0
  · simp [hs]
  · by_cases ht : t < s * 1000000000 <;> simp [hs, ht]

theorem verifyNotBefore_none (c : Claims) (t : Int) (h : c.lookup "nbf" = none) :
    verifyNotBefore c t = none := by
  simp [verifyNotBefore, parseNumericDate, Claims.get, h]

theorem validate_fresh (c : Claims) (t s : Int) (h : c.lookup "exp" = some (.num (s : ℚ)))
    (hn : c.lookup "nbf" = none) (ht : t < s * 1000000000) : validate c t = [] := by
  rw [validate, verifyExpiresAt_int c t s h, verifyNotBefore_none c t hn]
  by_cases hs : s = 0 <;> simp [hs, ht]

theorem validate_exp_zero (c : Claims) (t s : Int) (h : c.lookup "exp" = some (.num (s : ℚ)))
    (hn : c.lookup "nbf" = none) (hs : s = 0) : validate c t = [] := by
  rw [validate, verifyExpiresAt_int c t s h, verifyNotBefore_none c t hn]
  simp [hs]

theorem expired_mem_validate (c : Claims) (t s : Int)
    (h : c.lookup "exp" = some (.num (s : ℚ))) (hs : s ≠ 0) (ht : s * 1000000000 ≤ t) :
    JwtErr.TokenExpired ∈ validate c t := by
  rw [validate, verifyExpiresAt_int c t s h]
  simp [hs, not_lt.mpr ht]

/-- The claims that `CreateToken` signs. -/
theorem CreateToken_eq (E : Codec) (j : jwtService) (P : Claims) (ttl now : Int) :
    CreateToken E j P ttl now = .ok (SignedString E "HS256"
      (P ++ [("iss", .str j.issuer), ("iat", .num (unix now)),
        ("exp", .num (unix (now + if ttl = 0 then j.defaultExpiration else ttl)))])
      j.secretKey) := by
  simp [CreateToken, assignAll_eq]

/-- The claims that `CreateRefreshToken` signs. -/
theorem CreateRefreshToken_eq (E : Codec) (j : jwtService) (P : Claims) (now : Int) :
    CreateRefreshToken E j P now = .ok (SignedString E "HS256"
      (P ++ [("iss", .str j.issuer), ("iat", .num (unix now)),
        ("exp", .num (unix (now + j.refreshExpiration))), ("type", .str "refresh")])
      j.refreshSecretKey) := by
  simp [CreateRefreshToken, assignAll_eq]

/-- Validating a token signed with HS256 under the access key: the outcome is
that of the claims validation. -/
theorem ValidateToken_SignedString (E : Primitives) (j : jwtService) (claims : Claims)
    (t : Int) :
    ∃ d : Claims, (∀ k, d.lookup k = claims.lookup k) ∧
      ValidateToken E j (SignedString E "HS256" claims j.secretKey) t =
        match validate claims t with
        | [] => .ok d
        | e :: es => .error (mapParseError (.TokenInvalidClaims :: e :: es)) := by
  obtain ⟨d, hd, hp⟩ := parse_SignedString E claims j.secretKey j.secretKey t
  refine ⟨d, hd, ?_⟩
  rw [ValidateToken, hp]
  cases hv : validate claims t <;> simp

/-- Validating a token signed with HS256 under a key whose MAC of the token
differs from that of the access key: the signature is rejected. -/
theorem ValidateToken_SignedString_of_ne (E : Primitives) (j : jwtService) (claims : Claims)
    (key : String) (t : Int)
    (h : E.hmac "HS256" key (signingString E "HS256" claims)
      ≠ E.hmac "HS256" j.secretKey (signingString E "HS256" claims)) :
    ValidateToken E j (SignedString E "HS256" claims key) t = .error .InvalidToken := by
  obtain ⟨d, -, hp⟩ := parse_SignedString E claims key j.secretKey t
  rw [ValidateToken, hp, if_neg h]
  simp [mapParseError]

/-- Validating a token signed under the access key whose claims validation
reports an expiry: the outcome is `ErrExpiredToken`, whatever else is reported. -/
theorem ValidateToken_SignedString_expired (E : Primitives) (j : jwtService) (claims : Claims)
    (t : Int) (h : JwtErr.TokenExpired ∈ validate claims t) :
    ValidateToken E j (SignedString E "HS256" claims j.secretKey) t = .error .ExpiredToken := by
  obtain ⟨d, -, hv⟩ := ValidateToken_SignedString E j claims t
  rw [hv]
  cases hval : validate claims t with
  | nil => rw [hval] at h; simp at h
  | cons e es =>
    rw [hval] at h
    simp only [mapParseError, List.mem_cons]
    rw [if_pos (Or.inr (by simpa using h))]

theorem app3_lookup (P : Claims) (rest : Claims) (k : String) (h : P.lookup k = none) :
    (P ++ rest).lookup k = rest.lookup k := by
  rw [List.lookup_append, h]; rfl

/-- Refreshing a token signed with HS256 under `key`: the signature is compared
under the refresh key, the claims are validated, the `type` claim is checked, and
the remaining custom claims are signed anew under the access key. -/
theorem RefreshToken_SignedString (E : Primitives) (j : jwtService) (claims : Claims)
    (key : String) (t t2 : Int) :
    ∃ d : Claims, (∀ k, d.lookup k = claims.lookup k) ∧
      RefreshToken E j (SignedString E "HS256" claims key) t t2 =
        if E.hmac "HS256" key (signingString E "HS256" claims)
            = E.hmac "HS256" j.refreshSecretKey (signingString E "HS256" claims) then
          (match validate claims t with
           | [] =>
             if claims.lookup "type" = some (.str "refresh") then
               CreateToken E j (d.filter (fun kv => !excludeKeys kv.1)) j.defaultExpiration t2
             else .error .NotARefreshToken
           | e :: es => .error (mapParseError (.TokenInvalidClaims :: e :: es)))
        else .error .InvalidToken := by
  obtain ⟨d, hd, hp⟩ := parse_SignedString E claims key j.refreshSecretKey t
  refine ⟨d, hd, ?_⟩
  rw [RefreshToken, hp]
  by_cases hm : E.hmac "HS256" key (signingString E "HS256" claims)
      = E.hmac "HS256" j.refreshSecretKey (signingString E "HS256" claims)
  · rw [if_pos hm, if_pos hm]
    cases hv : validate claims t with
    | cons e es => rfl
    | nil =>
      simp only [Claims.get, hd, foldr_filterKeys]
      cases hty : claims.lookup "type" with
      | none => simp
      | some v =>
        cases v with
        | str s =>
          by_cases hs : s = "refresh"
          · subst hs; simp
          · simp [hs]
        | _ => simp
  · rw [if_neg hm, if_neg hm]
    simp [mapParseError]

/-- A token returned by `RefreshToken` is signed under the access key and its
claims have no `type` entry. -/
theorem RefreshToken_ok_form (E : Primitives) (j : jwtService) (rt tok : String) (t t2 : Int)
    (h : RefreshToken E j rt t t2 = .ok tok) :
    ∃ claims : Claims, claims.lookup "type" = none ∧
      tok = SignedString E "HS256" claims j.secretKey := by
  unfold RefreshToken at h
  split at h
  · cases h
  · rename_i c _
    split at h
    · split at h
      · cases h
      · rw [foldr_filterKeys, CreateToken_eq] at h
        injection h with h
        refine ⟨_, ?_, h.symm⟩
        rw [List.lookup_append, lookup_filter_key]
        rfl
    · cases h

theorem ref_json (c : Claims) :
    refPrimitives.jsonUnmarshal (refPrimitives.jsonMarshal c) = some c := by
  show (ofUnary 'J' (unary 'J' (Encodable.encode c))).bind Encodable.decode = some c
  simp [ofUnary, unary, String.length]

theorem ref_decode (c : Claims) :
    (refPrimitives.b64decode (refPrimitives.b64encode (refPrimitives.jsonMarshal c))).bind
      refPrimitives.jsonUnmarshal = some c := by
  rw [refPrimitives.b64_roundtrip]
  exact ref_json c

theorem ref_hmac_ne (text : String) :
    refPrimitives.hmac "HS256" "k-refresh" text ≠ refPrimitives.hmac "HS256" "k" text := by
  intro h
  have hl := congrArg String.length h
  simp [refPrimitives, String.length_append] at hl
  exact absurd hl (by decide)

theorem unix_mul_le (x : Int) : unix x * 1000000000 ≤ x :=
  Int.ediv_mul_le x (by decide)

theorem verifyNotBefore_int (c : Claims) (t s : Int)
    (h : c.lookup "nbf" = some (.num (s : ℚ))) :
    verifyNotBefore c t =
      if s = 0 then none else if t < s * 1000000000 then some .TokenNotValidYet else none := by
  simp only [verifyNotBefore, parseNumericDate, Claims.get, h, Int.cast_eq_zero, floor_intCast]
  by_cases hs : s = 0
  · simp [hs]
  · by_cases ht : t < s * 1000000000 <;> simp [hs, ht]

theorem validate_int (c : Claims) (t s n : Int) (hexp : c.lookup "exp" = some (.num (s : ℚ)))
    (hnbf : c.lookup "nbf" = some (.num (n : ℚ))) :
    validate c t =
      (if s = 0 then none else if t < s * 1000000000 then none
        else some JwtErr.TokenExpired).toList ++
      (if n = 0 then none else if t < n * 1000000000 then some JwtErr.TokenNotValidYet
        else none).toList := by
  rw [validate, verifyExpiresAt_int c t s hexp, verifyNotBefore_int c t n hnbf]

/-- Refreshing an unexpired token signed under the refresh key whose `type` claim
is `"refresh"` and which has no `nbf` claim succeeds. -/
theorem RefreshToken_fresh_ok (E : Primitives) (j : jwtService) (rc : Claims) (t t2 s : Int)
    (hexp : rc.lookup "exp" = some (.num (s : ℚ))) (hnbf : rc.lookup "nbf" = none)
    (hty : rc.lookup "type" = some (.str "refresh")) (ht : t < s * 1000000000) :
    ∃ out, RefreshToken E j (SignedString E "HS256" rc j.refreshSecretKey) t t2 = .ok out := by
  obtain ⟨d, -, hr⟩ := RefreshToken_SignedString E j rc j.refreshSecretKey t t2
  rw [if_pos rfl, validate_fresh rc t s hexp hnbf ht] at hr
  simp only [hty, if_true] at hr
  rw [CreateToken_eq] at hr
  exact ⟨_, hr⟩

/-! ## Lemmas on payloads of Go values and on the JSON codec -/

theorem foldr_cons_eq (G base : List (String × GoValue)) :
    G.foldr (fun kv acc => (kv.1, kv.2) :: acc) base = G ++ base := by
  induction G with
  | nil => rfl
  | cons kv rest ih => simp [ih]

theorem marshalValues_append (G H : List (String × GoValue)) :
    marshalValues (G ++ H) = (marshalValues G).bind (fun a => (marshalValues H).map (a ++ ·)) := by
  induction G with
  | nil => simp [marshalValues]
  | cons kv rest ih =>
    obtain ⟨k, v⟩ := kv
    cases v with
    | unsupported => simp [marshalValues]
    | json v =>
      show marshalValues ((k, .json v) :: (rest ++ H)) = _
      rw [marshalValues, ih, marshalValues]
      cases marshalValues rest with
      | none => rfl
      | some a =>
        cases marshalValues H with
        | none => rfl
        | some b => rfl

theorem marshalValues_none_iff (G : List (String × GoValue)) :
    marshalValues G = none ↔ ∃ kv ∈ G, kv.2 = .unsupported := by
  induction G with
  | nil => simp [marshalValues]
  | cons kv rest ih =>
    obtain ⟨k, v⟩ := kv
    cases v with
    | unsupported => simp [marshalValues]
    | json v => simp [marshalValues, ih]

theorem marshalValues_lookup (G : List (String × GoValue)) (P : Claims)
    (h : marshalValues G = some P) (k : String) :
    P.lookup k = (G.lookup k).bind GoValue.written := by
  induction G generalizing P with
  | nil =>
    simp only [marshalValues, Option.some.injEq] at h
    subst h
    rfl
  | cons kv rest ih =>
    obtain ⟨a, v⟩ := kv
    cases v with
    | unsupported => simp [marshalValues] at h
    | json v =>
      simp only [marshalValues, Option.map_eq_some'] at h
      obtain ⟨c, hc, rfl⟩ := h
      simp only [List.lookup_cons]
      cases hka : k == a
      · exact ih c hc
      · rfl

theorem marshalValues_mem (G : List (String × GoValue)) (P : Claims)
    (h : marshalValues G = some P) (kv : String × Value) (hkv : kv ∈ P) :
    (kv.1, GoValue.json kv.2) ∈ G := by
  induction G generalizing P with
  | nil =>
    simp only [marshalValues, Option.some.injEq] at h
    subst h
    cases hkv
  | cons g rest ih =>
    obtain ⟨a, v⟩ := g
    cases v with
    | unsupported => simp [marshalValues] at h
    | json v =>
      simp only [marshalValues, Option.map_eq_some'] at h
      obtain ⟨c, hc, rfl⟩ := h
      rcases List.mem_cons.1 hkv with h1 | h1
      · subst h1
        exact List.mem_cons_self _ _
      · exact List.mem_cons_of_mem _ (ih c hc h1)

/-- The token that `CreateTokenGo` returns on a payload that `json.Marshal`
writes as `P`. -/
theorem CreateTokenGo_eq (E : Codec) (j : jwtService) (G : List (String × GoValue))
    (P : Claims) (ttl now : Int) (h : marshalValues G = some P) :
    CreateTokenGo E j G ttl now = .ok (SignedString E "HS256"
      (P ++ [("iss", .str j.issuer), ("iat", .num (unix now)),
        ("exp", .num (unix (now + if ttl = 0 then j.defaultExpiration else ttl)))])
      j.secretKey) := by
  unfold CreateTokenGo
  simp only [foldr_cons_eq, marshalValues_append, h]
  rfl

theorem CreateTokenGo_unsupported (E : Codec) (j : jwtService)
    (G : List (String × GoValue)) (ttl now : Int) (h : marshalValues G = none) :
    CreateTokenGo E j G ttl now = .error .Unsupported := by
  unfold CreateTokenGo
  simp only [foldr_cons_eq, marshalValues_append, h]
  rfl

theorem CreateRefreshTokenGo_eq (E : Codec) (j : jwtService) (G : List (String × GoValue))
    (P : Claims) (now : Int) (h : marshalValues G = some P) :
    CreateRefreshTokenGo E j G now = .ok (SignedString E "HS256"
      (P ++ [("iss", .str j.issuer), ("iat", .num (unix now)),
        ("exp", .num (unix (now + j.refreshExpiration))), ("type", .str "refresh")])
      j.refreshSecretKey) := by
  unfold CreateRefreshTokenGo
  simp only [foldr_cons_eq, marshalValues_append, h]
  rfl

theorem marshalValues_of_json (G : List (String × GoValue))
    (h : ∀ kv ∈ G, ∃ v, kv.2 = .json v ∧ v.encodable = true) :
    ∃ P, marshalValues G = some P ∧ ∀ kv ∈ P, kv.2.encodable = true := by
  cases hm : marshalValues G with
  | none =>
    obtain ⟨kv, hkv, hu⟩ := (marshalValues_none_iff G).1 hm
    obtain ⟨v, hv, -⟩ := h kv hkv
    rw [hu] at hv
    cases hv
  | some P =>
    refine ⟨P, rfl, ?_⟩
    intro kv hkv
    obtain ⟨v, hv, he⟩ := h _ (marshalValues_mem G P hm kv hkv)
    injection hv with hv
    rw [hv]
    exact he

theorem plain_int (n : Int) (h : |n| ≤ 9007199254740992) :
    (Value.num (n : ℚ)).plain = true := by
  have h2 : n.natAbs ≤ 9007199254740992 := by
    have := Int.natCast_natAbs n
    omega
  simp [Value.plain, h2]

theorem encodable_of_plain (v : Value) (h : v.plain = true) : v.encodable = true := by
  cases v with
  | num q =>
    simp only [Value.plain, decide_eq_true_eq] at h
    simp only [Value.encodable, decide_eq_true_eq, h.1, mul_one]
    exact le_trans h.2 (by norm_num)
  | raw r => simp [Value.plain] at h
  | _ => rfl

/-- Parsing, with any codec, a token made by `SignedString` with HS256 under
`key` from encodable claims, with the key function handing over `key2`: the
signature is compared first, then the claims read back are validated; they have
the keys of the signed claims and their plain values. -/
theorem parse_SignedString_codec (E : Codec) (claims : Claims) (key key2 : String) (now : Int)
    (henc : ∀ kv ∈ claims, kv.2.encodable = true) :
    ∃ d : Claims,
      (∀ k, (claims.lookup k = none → d.lookup k = none) ∧
        ∀ v, claims.lookup k = some v → v.plain = true → d.lookup k = some v) ∧
      parse E (SignedString E "HS256" claims key) (hmacKeyFunc key2) now =
        if E.hmac "HS256" key (signingString E "HS256" claims)
            = E.hmac "HS256" key2 (signingString E "HS256" claims) then
          (match validate d now with
           | [] => .ok d
           | e :: es => .error (.TokenInvalidClaims :: e :: es))
        else .error [.TokenSignatureInvalid] := by
  obtain ⟨hd, hhd, hhl⟩ := E.json_decode (newHeader "HS256") (by
    intro kv hkv
    simp only [newHeader, List.mem_cons, List.mem_singleton] at hkv
    rcases hkv with h | h | h
    · rw [h]; rfl
    · rw [h]; rfl
    · cases h)
  obtain ⟨d, hd1, hd2⟩ := E.json_decode claims henc
  refine ⟨d, hd2, ?_⟩
  have halg : hd.get "alg" = some (.str "HS256") := (hhl "alg").2 _ rfl rfl
  have hm : getSigningMethod "HS256" = some (.hmac "HS256") := by decide
  unfold parse SignedString signingString
  rw [splitDots_three _ _ _ (E.b64_nodot _) (E.b64_nodot _) (E.b64_nodot _)]
  simp only [E.b64_roundtrip, Option.some_bind, hhd, hd1, halg, hm, hmacKeyFunc, verify]
  by_cases h : E.hmac "HS256" key (E.b64encode (E.jsonMarshal (newHeader "HS256")) ++ "." ++
      E.b64encode (E.jsonMarshal claims)) = E.hmac "HS256" key2
      (E.b64encode (E.jsonMarshal (newHeader "HS256")) ++ "." ++ E.b64encode (E.jsonMarshal claims))
  · simp [h]
  · simp [h]

/-! ## Claims C1 to C10 -/

/-- C1, amended. For every service, every payload whose values `json.Marshal`
writes as null, booleans, strings or numbers within the range of `float64`, with
none of the keys `iss`, `iat`, `exp`, `nbf`, every ttl > 0 and every issue instant
whose second and expiry second `float64` holds exactly, `CreateToken` succeeds and
`ValidateToken` applied to its token at an instant `t` earlier than the expiry
second (`now + ttl` truncated to whole seconds) succeeds, and the claims returned
contain every entry of the payload whose value is null, a boolean, a string or an
integer of magnitude at most `2^53`, together with `iss`, `iat` and `exp`. -/
theorem validate_createToken_roundtrip (E : Codec) (j : jwtService)
    (G : List (String × GoValue)) (ttl now t : Int)
    (hval : ∀ kv ∈ G, ∃ v, kv.2 = .json v ∧ v.encodable = true)
    (hiss : G.lookup "iss" = none) (hiat : G.lookup "iat" = none)
    (hexp : G.lookup "exp" = none) (hnbf : G.lookup "nbf" = none)
    (httl : 0 < ttl) (ht : t < unix (now + ttl) * 1000000000)
    (hnow : |unix now| ≤ 9007199254740992)
    (hend : |unix (now + ttl)| ≤ 9007199254740992) :
    ∃ tok c, CreateTokenGo E j G ttl now = .ok tok ∧ ValidateToken E j tok t = .ok c ∧
      (∀ k v, G.lookup k = some (.json v) → v.plain = true → c.lookup k = some v) ∧
      c.lookup "iss" = some (.str j.issuer) ∧
      c.lookup "iat" = some (.num (unix now)) ∧
      c.lookup "exp" = some (.num (unix (now + ttl))) := by
  have hne : ttl ≠ 0 := ne_of_gt httl
  obtain ⟨P, hP, hPenc⟩ := marshalValues_of_json G hval
  have hl := marshalValues_lookup G P hP
  have hc := CreateTokenGo_eq E j G P ttl now hP
  rw [if_neg hne] at hc
  have henc : ∀ kv ∈ P ++ [("iss", Value.str j.issuer), ("iat", .num (unix now)),
      ("exp", .num (unix (now + ttl)))], kv.2.encodable = true := by
    intro kv hkv
    rcases List.mem_append.1 hkv with h | h
    · exact hPenc kv h
    · simp only [List.mem_cons, List.mem_singleton] at h
      rcases h with h | h | h | h
      · rw [h]; rfl
      · rw [h]; exact encodable_of_plain _ (plain_int _ hnow)
      · rw [h]; exact encodable_of_plain _ (plain_int _ hend)
      · cases h
  obtain ⟨d, hd, hp⟩ := parse_SignedString_codec E _ j.secretKey j.secretKey t henc
  have hPk : ∀ k, G.lookup k = none → P.lookup k = none := by
    intro k hk
    rw [hl, hk]
    rfl
  have dexp : d.lookup "exp" = some (.num (unix (now + ttl))) :=
    (hd "exp").2 _ (by rw [app3_lookup _ _ _ (hPk _ hexp)]; rfl) (plain_int _ hend)
  have dnbf : d.lookup "nbf" = none :=
    (hd "nbf").1 (by rw [app3_lookup _ _ _ (hPk _ hnbf)]; rfl)
  rw [if_pos rfl, validate_fresh d t (unix (now + ttl)) dexp dnbf ht] at hp
  refine ⟨_, d, hc, by rw [ValidateToken, hp], ?_, ?_, ?_, dexp⟩
  · intro k v hk hv
    refine (hd k).2 v ?_ hv
    rw [List.lookup_append, hl, hk]
    rfl
  · exact (hd "iss").2 _ (by rw [app3_lookup _ _ _ (hPk _ hiss)]; rfl) rfl
  · exact (hd "iat").2 _ (by rw [app3_lookup _ _ _ (hPk _ hiat)]; rfl) (plain_int _ hnow)

/-- The round trip of `validate_createToken_roundtrip` on the payload
`{"user_id": 7}`, validated at the instant of issue with a ttl of one hour. -/
theorem validate_createToken_roundtrip_witness :
    ∃ tok c, CreateTokenGo refPrimitives svcDefault [("user_id", .json (.num 7))]
        3600000000000 1700000000500000000 = .ok tok ∧
      ValidateToken refPrimitives svcDefault tok 1700000000500000000 = .ok c ∧
      (∀ k v, List.lookup k [("user_id", GoValue.json (.num 7))] = some (.json v) →
        v.plain = true → c.lookup k = some v) ∧
      c.lookup "iss" = some (.str svcDefault.issuer) ∧
      c.lookup "iat" = some (.num (unix 1700000000500000000)) ∧
      c.lookup "exp" = some (.num (unix (1700000000500000000 + 3600000000000))) :=
  validate_createToken_roundtrip refPrimitives svcDefault [("user_id", .json (.num 7))]
    3600000000000 1700000000500000000 1700000000500000000
    (by
      intro kv hkv
      rw [List.mem_singleton] at hkv
      rw [hkv]
      exact ⟨_, rfl, encodable_of_plain _ (by decide)⟩)
    (by decide) (by decide) (by decide) (by decide) (by decide) (by decide) (by decide)
    (by decide)

/-- C1, counterexample. A token created with a ttl of one millisecond half a
second into a Unix second has `exp` equal to the current second, so validating it
at the very instant of its creation already fails with `ExpiredToken`. -/
theorem validate_createToken_subsecond_ttl :
    ∃ tok, CreateTokenGo refPrimitives svcDefault [("user_id", .json (.num 7))] 1000000
        1700000000500000000 = .ok tok ∧
      ValidateToken refPrimitives svcDefault tok 1700000000500000000
        = .error .ExpiredToken := by
  have hc := CreateTokenGo_eq refPrimitives svcDefault [("user_id", .json (.num 7))]
    [("user_id", .num 7)] 1000000 1700000000500000000 rfl
  rw [if_neg (by decide)] at hc
  exact ⟨_, hc, ValidateToken_SignedString_expired _ _ _ _
    (expired_mem_validate _ _ (unix (1700000000500000000 + 1000000)) rfl
      (by decide) (by decide))⟩

/-- C2, amended. For every payload, the claims of the token produced by
`CreateToken` carry, for each of `iss`, `iat` and `exp`, the value of the payload
when the payload has that key, and otherwise the value generated by the call
(configured issuer, now, now + ttl in whole seconds); these are the claims that
`ValidateToken` reads back. -/
theorem createToken_reserved_claims (E : Primitives) (j : jwtService) (P : Claims)
    (ttl now : Int) :
    ∃ claims : Claims,
      CreateToken E j P ttl now = .ok (SignedString E "HS256" claims j.secretKey) ∧
      claims.lookup "iss" = (P.lookup "iss").or (some (.str j.issuer)) ∧
      claims.lookup "iat" = (P.lookup "iat").or (some (.num (unix now))) ∧
      claims.lookup "exp" = (P.lookup "exp").or
        (some (.num (unix (now + if ttl = 0 then j.defaultExpiration else ttl)))) ∧
      ∀ t d, ValidateToken E j (SignedString E "HS256" claims j.secretKey) t = .ok d →
        ∀ k, d.lookup k = claims.lookup k := by
  refine ⟨_, CreateToken_eq E j P ttl now, ?_, ?_, ?_, ?_⟩
  · rw [List.lookup_append]; rfl
  · rw [List.lookup_append]; rfl
  · rw [List.lookup_append]; rfl
  · intro t d hd
    obtain ⟨d0, hd0, hv⟩ := ValidateToken_SignedString E j
      (P ++ [("iss", .str j.issuer), ("iat", .num (unix now)),
        ("exp", .num (unix (now + if ttl = 0 then j.defaultExpiration else ttl)))]) t
    rw [hv] at hd
    split at hd
    · injection hd with hd
      rw [← hd]; exact hd0
    · cases hd

/-- C2, counterexample. A payload with the key `iss` overwrites the issuer set by
the call: the token validates and its `iss` claim is the payload value, not the
configured issuer `"my-app"`. -/
theorem createToken_payload_overwrites_iss :
    ∃ tok c, CreateToken refPrimitives svcDefault [("iss", .str "intruder")] 3600000000000
        1700000000000000000 = .ok tok ∧
      ValidateToken refPrimitives svcDefault tok 1700000000000000000 = .ok c ∧
      c.lookup "iss" = some (.str "intruder") ∧ svcDefault.issuer = "my-app" := by
  have hc := CreateToken_eq refPrimitives svcDefault [("iss", .str "intruder")] 3600000000000
    1700000000000000000
  rw [if_neg (by decide)] at hc
  obtain ⟨d, hd, hv⟩ := ValidateToken_SignedString refPrimitives svcDefault
    ([("iss", .str "intruder")] ++ [("iss", .str svcDefault.issuer),
      ("iat", .num (unix 1700000000000000000)),
      ("exp", .num (unix (1700000000000000000 + 3600000000000)))]) 1700000000000000000
  have hval : validate ([("iss", .str "intruder")] ++ [("iss", .str svcDefault.issuer),
      ("iat", .num (unix 1700000000000000000)),
      ("exp", .num (unix (1700000000000000000 + 3600000000000)))]) 1700000000000000000 = [] :=
    validate_fresh _ _ (unix (1700000000000000000 + 3600000000000)) rfl rfl (by decide)
  rw [hval] at hv
  exact ⟨_, d, hc, hv, by rw [hd]; rfl, rfl⟩

/-- C3, amended. For every service whose refresh key and access key never give
the same MAC (which needs the two secrets to differ) and every payload,
`ValidateToken` applied to a token produced by `CreateRefreshToken` fails with
`InvalidToken`, at every instant. -/
theorem validateToken_rejects_refresh_token (E : Primitives) (j : jwtService) (P : Claims)
    (now t : Int)
    (hkeys : ∀ text, E.hmac "HS256" j.refreshSecretKey text ≠ E.hmac "HS256" j.secretKey text) :
    ∃ tok, CreateRefreshToken E j P now = .ok tok ∧
      ValidateToken E j tok t = .error .InvalidToken :=
  ⟨_, CreateRefreshToken_eq E j P now,
    ValidateToken_SignedString_of_ne E j _ j.refreshSecretKey t (hkeys _)⟩

theorem validateToken_rejects_refresh_token_witness :
    (∀ text, refPrimitives.hmac "HS256" svcDefault.refreshSecretKey text
      ≠ refPrimitives.hmac "HS256" svcDefault.secretKey text) ∧
    ∃ tok, CreateRefreshToken refPrimitives svcDefault [("user_id", .num 7)]
        1700000000000000000 = .ok tok ∧
      ValidateToken refPrimitives svcDefault tok 1700000000000000000 = .error .InvalidToken :=
  ⟨ref_hmac_ne, validateToken_rejects_refresh_token refPrimitives svcDefault
    [("user_id", .num 7)] 1700000000000000000 1700000000000000000 ref_hmac_ne⟩

/-- C3, counterexample. With a service configured with the same secret for both
key domains, a refresh token validates as an access token: `ValidateToken`
returns its claims, `type = "refresh"` included. -/
theorem validateToken_accepts_refresh_token_same_key :
    ∃ tok c, CreateRefreshToken refPrimitives svcSameKey [("user_id", .num 7)]
        1700000000000000000 = .ok tok ∧
      ValidateToken refPrimitives svcSameKey tok 1700000000000000000 = .ok c ∧
      c.lookup "type" = some (.str "refresh") := by
  obtain ⟨d, hd, hv⟩ := ValidateToken_SignedString refPrimitives svcSameKey
    ([("user_id", .num 7)] ++ [("iss", .str svcSameKey.issuer),
      ("iat", .num (unix 1700000000000000000)),
      ("exp", .num (unix (1700000000000000000 + svcSameKey.refreshExpiration))),
      ("type", .str "refresh")]) 1700000000000000000
  have hval : validate ([("user_id", .num 7)] ++ [("iss", .str svcSameKey.issuer),
      ("iat", .num (unix 1700000000000000000)),
      ("exp", .num (unix (1700000000000000000 + svcSameKey.refreshExpiration))),
      ("type", .str "refresh")]) 1700000000000000000 = [] :=
    validate_fresh _ _ (unix (1700000000000000000 + svcSameKey.refreshExpiration)) rfl rfl
      (by decide)
  rw [hval] at hv
  exact ⟨_, d, CreateRefreshToken_eq _ _ _ _, hv, by rw [hd]; rfl⟩

/-- C4. For every token string whose first segment decodes to a header naming a
signing algorithm outside the HMAC family (`none`, `RS256`, `ES256`, or any
other name), `ValidateToken` fails with `InvalidToken`, whatever the other
segments are and at every instant: it returns no claims and does not report
`ExpiredToken`. -/
theorem validateToken_rejects_non_hmac (E : Primitives) (j : jwtService) (tok : String)
    (t : Int) (p0 : String) (header : Claims) (alg : String)
    (hseg : (splitDots tok).head? = some p0)
    (hheader : (E.b64decode p0).bind E.jsonUnmarshal = some header)
    (halg : header.get "alg" = some (.str alg))
    (hfam : alg ≠ "HS256" ∧ alg ≠ "HS384" ∧ alg ≠ "HS512") :
    ValidateToken E j tok t = .error .InvalidToken := by
  obtain ⟨h1, h2, h3⟩ := hfam
  unfold ValidateToken parse
  rcases hs : splitDots tok with _ | ⟨a, _ | ⟨b, _ | ⟨c, _ | ⟨d, l⟩⟩⟩⟩
  · simp [mapParseError]
  · simp [mapParseError]
  · simp [mapParseError]
  · rw [hs] at hseg
    simp only [List.head?_cons, Option.some.injEq] at hseg
    subst hseg
    simp only [hheader, halg]
    cases (E.b64decode b).bind E.jsonUnmarshal with
    | none => simp [mapParseError]
    | some claims =>
      simp only [getSigningMethod, h1, h2, h3, false_or, if_false]
      split_ifs
      · cases E.b64decode c <;> simp [hmacKeyFunc, mapParseError]
      · simp [mapParseError]
  · simp [mapParseError]

theorem validateToken_rejects_non_hmac_witness :
    ((splitDots (refPrimitives.b64encode (refPrimitives.jsonMarshal [("alg", .str "none")])
        ++ "." ++ refPrimitives.b64encode (refPrimitives.jsonMarshal [("role", .str "admin")])
        ++ "." ++ "")).head?
      = some (refPrimitives.b64encode (refPrimitives.jsonMarshal [("alg", .str "none")]))) ∧
    ValidateToken refPrimitives svcDefault
      (refPrimitives.b64encode (refPrimitives.jsonMarshal [("alg", .str "none")])
        ++ "." ++ refPrimitives.b64encode (refPrimitives.jsonMarshal [("role", .str "admin")])
        ++ "." ++ "") 1700000000000000000 = .error .InvalidToken :=
  have hseg : (splitDots (refPrimitives.b64encode (refPrimitives.jsonMarshal
        [("alg", .str "none")])
        ++ "." ++ refPrimitives.b64encode (refPrimitives.jsonMarshal [("role", .str "admin")])
        ++ "." ++ "")).head?
      = some (refPrimitives.b64encode (refPrimitives.jsonMarshal [("alg", .str "none")])) := by
    rw [splitDots_three _ _ _ (refPrimitives.b64_nodot _) (refPrimitives.b64_nodot _)
      (by decide)]
    rfl
  ⟨hseg, validateToken_rejects_non_hmac refPrimitives svcDefault _ 1700000000000000000 _
    [("alg", .str "none")] "none" hseg (ref_decode _) rfl (by decide)⟩

/-- C5, amended. For every payload without a reserved key (only the absence of
`exp` is needed) and every ttl > 0, a token produced by `CreateToken(P, ttl)` whose
`exp` (issue time + ttl in whole Unix seconds) is not the second 0 fails
`ValidateToken` with `ExpiredToken` at every instant later than its issue time
plus ttl. -/
theorem validateToken_expired_after_ttl (E : Primitives) (j : jwtService) (P : Claims)
    (ttl now t : Int)
    (hexp : P.lookup "exp" = none) (httl : 0 < ttl) (ht : now + ttl < t)
    (hepoch : unix (now + ttl) ≠ 0) :
    ∃ tok, CreateToken E j P ttl now = .ok tok ∧
      ValidateToken E j tok t = .error .ExpiredToken := by
  have hne : ttl ≠ 0 := ne_of_gt httl
  have hc := CreateToken_eq E j P ttl now
  rw [if_neg hne] at hc
  refine ⟨_, hc, ValidateToken_SignedString_expired E j _ t
    (expired_mem_validate _ t (unix (now + ttl)) ?_ hepoch ?_)⟩
  · rw [app3_lookup _ _ _ hexp]; rfl
  · exact le_trans (unix_mul_le _) (le_of_lt ht)

theorem validateToken_expired_after_ttl_witness :
    ∃ tok, CreateToken refPrimitives svcDefault [("user_id", .num 7)] 1000000
        1700000000000000000 = .ok tok ∧
      ValidateToken refPrimitives svcDefault tok 1700000000005000000 = .error .ExpiredToken :=
  validateToken_expired_after_ttl refPrimitives svcDefault [("user_id", .num 7)] 1000000
    1700000000000000000 1700000000005000000 (by decide) (by decide) (by decide) (by decide)

/-- C5, counterexample. A token issued with a ttl of one millisecond at the Unix
epoch has `exp = 0`, which the validator reads as "no expiry": five milliseconds
later `ValidateToken` returns its claims instead of `ExpiredToken`. -/
theorem validateToken_epoch_never_expires :
    ∃ tok c, CreateToken refPrimitives svcDefault [("user_id", .num 7)] 1000000 0 = .ok tok ∧
      ValidateToken refPrimitives svcDefault tok 5000000 = .ok c := by
  have hc := CreateToken_eq refPrimitives svcDefault [("user_id", .num 7)] 1000000 0
  rw [if_neg (by decide)] at hc
  obtain ⟨d, -, hv⟩ := ValidateToken_SignedString refPrimitives svcDefault
    ([("user_id", .num 7)] ++ [("iss", .str svcDefault.issuer),
      ("iat", .num (unix 0)), ("exp", .num (unix (0 + 1000000)))]) 5000000
  have hval : validate ([("user_id", .num 7)] ++ [("iss", .str svcDefault.issuer),
      ("iat", .num (unix 0)), ("exp", .num (unix (0 + 1000000)))]) 5000000 = [] :=
    validate_exp_zero _ _ (unix (0 + 1000000)) rfl rfl (by decide)
  rw [hval] at hv
  exact ⟨_, d, hc, hv⟩

/-- C6, amended. For every service, every payload without a `type` entry and
every ttl, `RefreshToken` applied to the access token produced by `CreateToken`
fails. The failure is `InvalidToken` whenever the MAC of the token under the
access key differs from its MAC under the refresh key (two distinct key domains);
it is `NotARefreshToken` only if the MAC of the token is the same under both keys,
and it is `NotARefreshToken` when the two secrets are equal, the payload has no
`exp` or `nbf` entry and the token is unexpired. -/
theorem refreshToken_rejects_access_token (E : Primitives) (j : jwtService) (P : Claims)
    (ttl now t t2 : Int) (htype : P.lookup "type" = none) :
    ∃ claims : Claims,
      CreateToken E j P ttl now = .ok (SignedString E "HS256" claims j.secretKey) ∧
      (∃ e, RefreshToken E j (SignedString E "HS256" claims j.secretKey) t t2 = .error e) ∧
      (E.hmac "HS256" j.secretKey (signingString E "HS256" claims)
          ≠ E.hmac "HS256" j.refreshSecretKey (signingString E "HS256" claims) →
        RefreshToken E j (SignedString E "HS256" claims j.secretKey) t t2
          = .error .InvalidToken) ∧
      (RefreshToken E j (SignedString E "HS256" claims j.secretKey) t t2
          = .error .NotARefreshToken →
        E.hmac "HS256" j.secretKey (signingString E "HS256" claims)
          = E.hmac "HS256" j.refreshSecretKey (signingString E "HS256" claims)) ∧
      (j.secretKey = j.refreshSecretKey → P.lookup "exp" = none → P.lookup "nbf" = none →
        t < unix (now + if ttl = 0 then j.defaultExpiration else ttl) * 1000000000 →
        RefreshToken E j (SignedString E "HS256" claims j.secretKey) t t2
          = .error .NotARefreshToken) := by
  have hc := CreateToken_eq E j P ttl now
  generalize (if ttl = 0 then j.defaultExpiration else ttl) = ex at hc ⊢
  refine ⟨_, hc, ?_⟩
  obtain ⟨d, -, hr⟩ := RefreshToken_SignedString E j
    (P ++ [("iss", .str j.issuer), ("iat", .num (unix now)), ("exp", .num (unix (now + ex)))])
    j.secretKey t t2
  have hty : (P ++ [("iss", Value.str j.issuer), ("iat", .num (unix now)),
      ("exp", .num (unix (now + ex)))]).lookup "type" ≠ some (.str "refresh") := by
    rw [app3_lookup _ _ _ htype]
    intro h
    cases h
  simp only [hty, if_false] at hr
  refine ⟨?_, ?_, ?_, ?_⟩
  · rw [hr]
    split_ifs
    · split
      · exact ⟨_, rfl⟩
      · exact ⟨_, rfl⟩
    · exact ⟨_, rfl⟩
  · intro hk
    rw [hr, if_neg hk]
  · intro hn
    by_contra hne
    rw [hr, if_neg hne] at hn
    cases hn
  · intro hk hexp hnbf ht
    rw [hr, if_pos (by rw [hk]), validate_fresh _ t _
      (by rw [app3_lookup _ _ _ hexp]; rfl) (by rw [app3_lookup _ _ _ hnbf]; rfl) ht]

/-- The failure of `refreshToken_rejects_access_token` with one secret for both
key domains: the access token fails the kind check. -/
theorem refreshToken_rejects_access_token_witness :
    ∃ claims : Claims,
      CreateToken refPrimitives svcSameKey [("user_id", .num 7)] 0 1700000000000000000
        = .ok (SignedString refPrimitives "HS256" claims svcSameKey.secretKey) ∧
      RefreshToken refPrimitives svcSameKey
          (SignedString refPrimitives "HS256" claims svcSameKey.secretKey)
          1700000000000000000 1700000000000000000 = .error .NotARefreshToken := by
  obtain ⟨claims, h1, -, -, -, h5⟩ := refreshToken_rejects_access_token refPrimitives
    svcSameKey [("user_id", .num 7)] 0 1700000000000000000 1700000000000000000
    1700000000000000000 (by decide)
  exact ⟨claims, h1, h5 rfl (by decide) (by decide) (by decide)⟩

/-- C6, counterexample. With the two key domains of the default configuration,
`RefreshToken` applied to an access token fails on the signature, with
`InvalidToken` and not with `NotARefreshToken`. -/
theorem refreshToken_access_token_invalid :
    ∃ tok, CreateToken refPrimitives svcDefault [("user_id", .num 7)] 3600000000000
        1700000000000000000 = .ok tok ∧
      RefreshToken refPrimitives svcDefault tok 1700000000000000000 1700000000000000000
        = .error .InvalidToken := by
  refine ⟨_, CreateToken_eq _ _ _ _ _, ?_⟩
  obtain ⟨d, -, hr⟩ := RefreshToken_SignedString refPrimitives svcDefault
    ([("user_id", .num 7)] ++ [("iss", .str svcDefault.issuer),
      ("iat", .num (unix 1700000000000000000)),
      ("exp", .num (unix (1700000000000000000 +
        if (3600000000000 : Int) = 0 then svcDefault.defaultExpiration else 3600000000000)))])
    svcDefault.secretKey 1700000000000000000 1700000000000000000
  rw [hr, if_neg (fun h => ref_hmac_ne _ h.symm)]

/-- C7, amended. For every payload whose values `json.Marshal` writes as null,
booleans, strings or numbers within the range of `float64`, without the keys
`exp`, `type` and `nbf`, issued at an instant whose second and expiry second
`float64` holds exactly, `RefreshToken` applied to the unexpired token produced by
`CreateRefreshToken` succeeds and returns a token signed with the access key whose
claims have `iss` = configured issuer, `iat` = time of the refresh, `exp` = time of
the refresh + default access ttl (whole Unix seconds), no `type`, and, for every
other key, no entry when the payload has none and the payload's value when it is
null, a boolean, a string or an integer of magnitude at most `2^53`. -/
theorem refreshToken_reissues_claims (E : Codec) (j : jwtService)
    (G : List (String × GoValue)) (now t t2 : Int)
    (hval : ∀ kv ∈ G, ∃ v, kv.2 = .json v ∧ v.encodable = true)
    (hexp : G.lookup "exp" = none) (htype : G.lookup "type" = none)
    (hnbf : G.lookup "nbf" = none)
    (ht : t < unix (now + j.refreshExpiration) * 1000000000)
    (hnow : |unix now| ≤ 9007199254740992)
    (hend : |unix (now + j.refreshExpiration)| ≤ 9007199254740992) :
    ∃ rt claims, CreateRefreshTokenGo E j G now = .ok rt ∧
      RefreshToken E j rt t t2 = .ok (SignedString E "HS256" claims j.secretKey) ∧
      claims.lookup "iss" = some (.str j.issuer) ∧
      claims.lookup "iat" = some (.num (unix t2)) ∧
      claims.lookup "exp" = some (.num (unix (t2 + j.defaultExpiration))) ∧
      claims.lookup "type" = none ∧
      ∀ k, k ≠ "iss" → k ≠ "iat" → k ≠ "exp" → k ≠ "type" →
        (G.lookup k = none → claims.lookup k = none) ∧
        ∀ v, G.lookup k = some (.json v) → v.plain = true → claims.lookup k = some v := by
  obtain ⟨P, hP, hPenc⟩ := marshalValues_of_json G hval
  have hl := marshalValues_lookup G P hP
  have hc := CreateRefreshTokenGo_eq E j G P now hP
  have henc : ∀ kv ∈ P ++ [("iss", Value.str j.issuer), ("iat", .num (unix now)),
      ("exp", .num (unix (now + j.refreshExpiration))), ("type", .str "refresh")],
      kv.2.encodable = true := by
    intro kv hkv
    rcases List.mem_append.1 hkv with h | h
    · exact hPenc kv h
    · simp only [List.mem_cons, List.mem_singleton] at h
      rcases h with h | h | h | h | h
      · rw [h]; rfl
      · rw [h]; exact encodable_of_plain _ (plain_int _ hnow)
      · rw [h]; exact encodable_of_plain _ (plain_int _ hend)
      · rw [h]; rfl
      · cases h
  obtain ⟨d, hd, hp⟩ := parse_SignedString_codec E _ j.refreshSecretKey j.refreshSecretKey t henc
  have hPk : ∀ k, G.lookup k = none → P.lookup k = none := by
    intro k hk
    rw [hl, hk]
    rfl
  have dexp : d.lookup "exp" = some (.num (unix (now + j.refreshExpiration))) :=
    (hd "exp").2 _ (by rw [app3_lookup _ _ _ (hPk _ hexp)]; rfl) (plain_int _ hend)
  have dnbf : d.lookup "nbf" = none :=
    (hd "nbf").1 (by rw [app3_lookup _ _ _ (hPk _ hnbf)]; rfl)
  have dtype : d.get "type" = some (.str "refresh") :=
    (hd "type").2 _ (by rw [app3_lookup _ _ _ (hPk _ htype)]; rfl) rfl
  rw [if_pos rfl, validate_fresh d t _ dexp dnbf ht] at hp
  have hr : RefreshToken E j (SignedString E "HS256"
      (P ++ [("iss", Value.str j.issuer), ("iat", .num (unix now)),
        ("exp", .num (unix (now + j.refreshExpiration))), ("type", .str "refresh")])
      j.refreshSecretKey) t t2
      = .ok (SignedString E "HS256"
          (d.filter (fun kv => !excludeKeys kv.1) ++ [("iss", .str j.issuer),
            ("iat", .num (unix t2)), ("exp", .num (unix (t2 + j.defaultExpiration)))])
          j.secretKey) := by
    rw [RefreshToken, hp]
    simp only [dtype, ne_eq, not_true_eq_false, if_false, foldr_filterKeys]
    rw [CreateToken_eq, ite_self]
  refine ⟨_, _, hc, hr, ?_, ?_, ?_, ?_, ?_⟩
  · rw [List.lookup_append, lookup_filter_key]; rfl
  · rw [List.lookup_append, lookup_filter_key]; rfl
  · rw [List.lookup_append, lookup_filter_key]; rfl
  · rw [List.lookup_append, lookup_filter_key]; rfl
  · intro k h1 h2 h3 h4
    have hx : excludeKeys k = false := by simp [excludeKeys, h1, h2, h3, h4]
    have e1 : (k == "iss") = false := by simpa using h1
    have e2 : (k == "iat") = false := by simpa using h2
    have e3 : (k == "exp") = false := by simpa using h3
    have e4 : (k == "type") = false := by simpa using h4
    have hrest : ∀ o : Option Value, P.lookup k = o →
        (P ++ [("iss", Value.str j.issuer), ("iat", .num (unix now)),
          ("exp", .num (unix (now + j.refreshExpiration))),
          ("type", .str "refresh")]).lookup k = o := by
      intro o ho
      rw [List.lookup_append, ho]
      cases o <;> simp [List.lookup_cons, e1, e2, e3, e4]
    constructor
    · intro hk
      rw [List.lookup_append, lookup_filter_key, hx, if_neg (by simp),
        (hd k).1 (hrest none (hPk k hk))]
      simp [List.lookup_cons, e1, e2, e3]
    · intro v hk hv
      have hPv : P.lookup k = some v := by
        rw [hl, hk]
        rfl
      rw [List.lookup_append, lookup_filter_key, hx, if_neg (by simp),
        (hd k).2 v (hrest (some v) hPv) hv]
      rfl

/-- The refresh of `refreshToken_reissues_claims` on the payload `{"user_id": 7}`,
fifteen minutes after the refresh token was issued. -/
theorem refreshToken_reissues_claims_witness :
    ∃ rt claims, CreateRefreshTokenGo refPrimitives svcDefault [("user_id", .json (.num 7))]
        1700000000000000000 = .ok rt ∧
      RefreshToken refPrimitives svcDefault rt 1700000900000000000 1700000900000000001
        = .ok (SignedString refPrimitives "HS256" claims svcDefault.secretKey) ∧
      claims.lookup "iss" = some (.str svcDefault.issuer) ∧
      claims.lookup "iat" = some (.num (unix 1700000900000000001)) ∧
      claims.lookup "exp"
        = some (.num (unix (1700000900000000001 + svcDefault.defaultExpiration))) ∧
      claims.lookup "type" = none ∧
      ∀ k, k ≠ "iss" → k ≠ "iat" → k ≠ "exp" → k ≠ "type" →
        (List.lookup k [("user_id", GoValue.json (.num 7))] = none →
          claims.lookup k = none) ∧
        ∀ v, List.lookup k [("user_id", GoValue.json (.num 7))] = some (.json v) →
          v.plain = true → claims.lookup k = some v :=
  refreshToken_reissues_claims refPrimitives svcDefault [("user_id", .json (.num 7))]
    1700000000000000000 1700000900000000000 1700000900000000001
    (by
      intro kv hkv
      rw [List.mem_singleton] at hkv
      rw [hkv]
      exact ⟨_, rfl, encodable_of_plain _ (by decide)⟩)
    (by decide) (by decide) (by decide) (by decide) (by decide) (by decide)

/-- C7, counterexample. A payload that has no reserved key but carries a
not-before date in the future (`nbf` = 1 January 2100) gives a refresh token that
`RefreshToken` rejects with `InvalidToken` although it is unexpired. -/
theorem refreshToken_rejects_future_nbf :
    ∃ rt, CreateRefreshTokenGo refPrimitives svcDefault
        [("nbf", .json (.num (4102444800 : Int)))] 1700000000000000000 = .ok rt ∧
      RefreshToken refPrimitives svcDefault rt 1700000900000000000 1700000900000000001
        = .error .InvalidToken := by
  refine ⟨_, CreateRefreshTokenGo_eq _ _ _ [("nbf", .num (4102444800 : Int))] _ rfl, ?_⟩
  obtain ⟨d, -, hr⟩ := RefreshToken_SignedString refPrimitives svcDefault
    ([("nbf", .num (4102444800 : Int))] ++ [("iss", .str svcDefault.issuer),
      ("iat", .num (unix 1700000000000000000)),
      ("exp", .num (unix (1700000000000000000 + svcDefault.refreshExpiration))),
      ("type", .str "refresh")])
    svcDefault.refreshSecretKey 1700000900000000000 1700000900000000001
  have hval : validate ([("nbf", .num (4102444800 : Int))] ++ [("iss", .str svcDefault.issuer),
      ("iat", .num (unix 1700000000000000000)),
      ("exp", .num (unix (1700000000000000000 + svcDefault.refreshExpiration))),
      ("type", .str "refresh")]) 1700000900000000000 = [.TokenNotValidYet] := by
    refine (validate_int _ _ (unix (1700000000000000000 + svcDefault.refreshExpiration))
      4102444800 ?_ ?_).trans ?_
    · rfl
    · rfl
    · decide
  rw [hr, if_pos rfl, hval]
  rfl

/-- C8, amended. For every token that `jwt.Parse` accepts under the refresh key
(its signature verifies under that key, it is not expired and its `nbf` claim, if
it has one, is not in the future), `RefreshToken` fails with `NotARefreshToken`, a
failure distinct from `InvalidToken` and `ExpiredToken`, exactly when the `type`
claim is missing, is not a string, or differs from `"refresh"`; in every other
such case it succeeds. -/
theorem refreshToken_type_check (E : Codec) (j : jwtService) (tok : String)
    (t t2 : Int) (c : Claims)
    (hparse : parse E tok (hmacKeyFunc j.refreshSecretKey) t = .ok c) :
    (RefreshToken E j tok t t2 = .error .NotARefreshToken ↔
      (c.get "type" = none ∨ (∃ v, c.get "type" = some v ∧ ∀ s, v ≠ .str s) ∨
        ∃ s, c.get "type" = some (.str s) ∧ s ≠ "refresh")) ∧
    (c.get "type" = some (.str "refresh") → ∃ out, RefreshToken E j tok t t2 = .ok out) ∧
    AuthError.NotARefreshToken ≠ AuthError.InvalidToken ∧
    AuthError.NotARefreshToken ≠ AuthError.ExpiredToken := by
  refine ⟨?_, ?_, by decide, by decide⟩
  · rw [RefreshToken, hparse]
    simp only [foldr_filterKeys, CreateToken_eq]
    generalize c.get "type" = ty
    cases ty with
    | none => simp
    | some v =>
      cases v with
      | str s =>
        by_cases hs : s = "refresh"
        · subst hs
          simp
        · simp [hs]
      | null => simp
      | bool b => simp
      | num q => simp
      | raw r => simp
  · intro hty
    rw [RefreshToken, hparse]
    simp only [hty, ne_eq, not_true_eq_false, if_false, foldr_filterKeys, CreateToken_eq]
    exact ⟨_, rfl⟩

theorem refreshToken_type_check_witness :
    ∃ c, parse refPrimitives
        (SignedString refPrimitives "HS256"
          [("type", .str "access"), ("exp", .num (1700003600 : Int))] svcDefault.refreshSecretKey)
        (hmacKeyFunc svcDefault.refreshSecretKey) 1700000000000000000 = .ok c ∧
      (RefreshToken refPrimitives svcDefault
          (SignedString refPrimitives "HS256"
            [("type", .str "access"), ("exp", .num (1700003600 : Int))]
            svcDefault.refreshSecretKey)
          1700000000000000000 1700000000000000001 = .error .NotARefreshToken ↔
        (c.get "type" = none ∨ (∃ v, c.get "type" = some v ∧ ∀ s, v ≠ .str s) ∨
          ∃ s, c.get "type" = some (.str s) ∧ s ≠ "refresh")) ∧
      (c.get "type" = some (.str "refresh") → ∃ out, RefreshToken refPrimitives svcDefault
          (SignedString refPrimitives "HS256"
            [("type", .str "access"), ("exp", .num (1700003600 : Int))]
            svcDefault.refreshSecretKey)
          1700000000000000000 1700000000000000001 = .ok out) ∧
      AuthError.NotARefreshToken ≠ AuthError.InvalidToken ∧
      AuthError.NotARefreshToken ≠ AuthError.ExpiredToken := by
  obtain ⟨d, -, hp⟩ := parse_SignedString refPrimitives
    [("type", .str "access"), ("exp", .num (1700003600 : Int))]
    svcDefault.refreshSecretKey svcDefault.refreshSecretKey 1700000000000000000
  have hval : validate [("type", .str "access"), ("exp", .num (1700003600 : Int))]
      1700000000000000000 = [] :=
    validate_fresh _ _ 1700003600 rfl rfl (by decide)
  rw [if_pos rfl, hval] at hp
  exact ⟨d, hp, refreshToken_type_check refPrimitives svcDefault _ 1700000000000000000
    1700000000000000001 d hp⟩

/-- C8, counterexample. A token signed under the refresh key whose claims are
`type = "refresh"`, an expiry in the future and a not-before date in the future
(1 January 2100) verifies under the refresh key and is not expired, yet
`RefreshToken` fails, with `InvalidToken`: it neither succeeds nor fails with
`NotARefreshToken`. -/
theorem refreshToken_refresh_type_not_yet_valid :
    verify refPrimitives (.hmac "HS256")
      (signingString refPrimitives "HS256"
        [("type", .str "refresh"), ("exp", .num (1700003600 : Int)),
          ("nbf", .num (4102444800 : Int))])
      (refPrimitives.hmac "HS256" svcDefault.refreshSecretKey
        (signingString refPrimitives "HS256"
          [("type", .str "refresh"), ("exp", .num (1700003600 : Int)),
            ("nbf", .num (4102444800 : Int))]))
      svcDefault.refreshSecretKey = true ∧
    verifyExpiresAt [("type", .str "refresh"), ("exp", .num (1700003600 : Int)),
      ("nbf", .num (4102444800 : Int))] 1700000000000000000 = none ∧
    List.lookup "type" [("type", Value.str "refresh"), ("exp", .num (1700003600 : Int)),
      ("nbf", .num (4102444800 : Int))] = some (.str "refresh") ∧
    RefreshToken refPrimitives svcDefault
      (SignedString refPrimitives "HS256"
        [("type", .str "refresh"), ("exp", .num (1700003600 : Int)),
          ("nbf", .num (4102444800 : Int))] svcDefault.refreshSecretKey)
      1700000000000000000 1700000000000000001 = .error .InvalidToken := by
  refine ⟨by simp [verify], ?_, rfl, ?_⟩
  · refine (verifyExpiresAt_int _ _ 1700003600 ?_).trans ?_
    · rfl
    · decide
  · obtain ⟨d, -, hr⟩ := RefreshToken_SignedString refPrimitives svcDefault
      [("type", .str "refresh"), ("exp", .num (1700003600 : Int)),
        ("nbf", .num (4102444800 : Int))]
      svcDefault.refreshSecretKey 1700000000000000000 1700000000000000001
    have hval : validate [("type", .str "refresh"), ("exp", .num (1700003600 : Int)),
        ("nbf", .num (4102444800 : Int))] 1700000000000000000 = [.TokenNotValidYet] := by
      refine (validate_int _ _ 1700003600 4102444800 ?_ ?_).trans ?_
      · rfl
      · rfl
      · decide
    rw [hr, if_pos rfl, hval]
    rfl

/-- C9. For every service configuration, equal access and refresh secrets
included, and every token accepted by `RefreshToken`, the token returned is an
access token only: passing it back to `RefreshToken` fails, at every instant. -/
theorem refreshToken_output_not_refreshable (E : Primitives) (j : jwtService)
    (rt tok : String) (t t2 t3 t4 : Int) (h : RefreshToken E j rt t t2 = .ok tok) :
    ∃ e, RefreshToken E j tok t3 t4 = .error e := by
  obtain ⟨claims, hty, rfl⟩ := RefreshToken_ok_form E j rt tok t t2 h
  obtain ⟨d, -, hr⟩ := RefreshToken_SignedString E j claims j.secretKey t3 t4
  have hne : claims.lookup "type" ≠ some (.str "refresh") := by
    rw [hty]
    intro h
    cases h
  simp only [hne, if_false] at hr
  rw [hr]
  split_ifs
  · split
    · exact ⟨_, rfl⟩
    · exact ⟨_, rfl⟩
  · exact ⟨_, rfl⟩

theorem refreshToken_output_not_refreshable_witness :
    ∃ tok, RefreshToken refPrimitives svcSameKey
        (SignedString refPrimitives "HS256"
          [("type", .str "refresh"), ("exp", .num (1700003600 : Int))]
          svcSameKey.refreshSecretKey)
        1700000000000000000 1700000000000000001 = .ok tok ∧
      ∃ e, RefreshToken refPrimitives svcSameKey tok 1700000000000000002 1700000000000000003
        = .error e := by
  obtain ⟨tok, htok⟩ := RefreshToken_fresh_ok refPrimitives svcSameKey
    [("type", .str "refresh"), ("exp", .num (1700003600 : Int))]
    1700000000000000000 1700000000000000001 1700003600 rfl rfl rfl (by decide)
  exact ⟨tok, htok, refreshToken_output_not_refreshable refPrimitives svcSameKey _ tok
    1700000000000000000 1700000000000000001 1700000000000000002 1700000000000000003 htok⟩

/-- C10, amended. For every payload with none of the keys `type`, `iss`, `iat`,
`exp` and `nbf`, the token produced by `CreateRefreshToken` is signed with the
refresh key and its claims have `type = "refresh"`, `iss` = configured issuer,
`iat` = now and `exp` = now + configured refresh ttl (whole Unix seconds), and it
is accepted by `RefreshToken` at every instant before that expiry. -/
theorem createRefreshToken_claims (E : Primitives) (j : jwtService) (P : Claims) (now : Int)
    (htype : P.lookup "type" = none) (hiss : P.lookup "iss" = none)
    (hiat : P.lookup "iat" = none) (hexp : P.lookup "exp" = none)
    (hnbf : P.lookup "nbf" = none) :
    ∃ claims : Claims,
      CreateRefreshToken E j P now = .ok (SignedString E "HS256" claims j.refreshSecretKey) ∧
      claims.lookup "type" = some (.str "refresh") ∧
      claims.lookup "iss" = some (.str j.issuer) ∧
      claims.lookup "iat" = some (.num (unix now)) ∧
      claims.lookup "exp" = some (.num (unix (now + j.refreshExpiration))) ∧
      ∀ t t2, t < unix (now + j.refreshExpiration) * 1000000000 →
        ∃ out, RefreshToken E j (SignedString E "HS256" claims j.refreshSecretKey) t t2
          = .ok out := by
  have h1 : (P ++ [("iss", Value.str j.issuer), ("iat", .num (unix now)),
      ("exp", .num (unix (now + j.refreshExpiration))), ("type", .str "refresh")]).lookup "type"
      = some (.str "refresh") := by
    rw [app3_lookup _ _ _ htype]; rfl
  have h2 : (P ++ [("iss", Value.str j.issuer), ("iat", .num (unix now)),
      ("exp", .num (unix (now + j.refreshExpiration))), ("type", .str "refresh")]).lookup "exp"
      = some (.num (unix (now + j.refreshExpiration))) := by
    rw [app3_lookup _ _ _ hexp]; rfl
  refine ⟨_, CreateRefreshToken_eq E j P now, h1, ?_, ?_, h2, ?_⟩
  · rw [app3_lookup _ _ _ hiss]; rfl
  · rw [app3_lookup _ _ _ hiat]; rfl
  · intro t t2 ht
    exact RefreshToken_fresh_ok E j _ t t2 _ h2 (by rw [app3_lookup _ _ _ hnbf]; rfl) h1 ht

theorem createRefreshToken_claims_witness :
    ∃ claims : Claims,
      CreateRefreshToken refPrimitives svcDefault [("user_id", .num 7)] 1700000000000000000
        = .ok (SignedString refPrimitives "HS256" claims svcDefault.refreshSecretKey) ∧
      claims.lookup "type" = some (.str "refresh") ∧
      claims.lookup "iss" = some (.str svcDefault.issuer) ∧
      claims.lookup "iat" = some (.num (unix 1700000000000000000)) ∧
      claims.lookup "exp"
        = some (.num (unix (1700000000000000000 + svcDefault.refreshExpiration))) ∧
      ∀ t t2, t < unix (1700000000000000000 + svcDefault.refreshExpiration) * 1000000000 →
        ∃ out, RefreshToken refPrimitives svcDefault
          (SignedString refPrimitives "HS256" claims svcDefault.refreshSecretKey) t t2
          = .ok out :=
  createRefreshToken_claims refPrimitives svcDefault [("user_id", .num 7)] 1700000000000000000
    (by decide) (by decide) (by decide) (by decide) (by decide)

/-- C10, counterexample. A payload with the key `type` overwrites the token kind:
the refresh token carries `type = "access"` and `RefreshToken` rejects it with
`NotARefreshToken` right after it was issued. -/
theorem createRefreshToken_payload_overwrites_type :
    ∃ rt, CreateRefreshToken refPrimitives svcDefault [("type", .str "access")]
        1700000000000000000 = .ok rt ∧
      RefreshToken refPrimitives svcDefault rt 1700000000000000000 1700000000000000001
        = .error .NotARefreshToken := by
  refine ⟨_, CreateRefreshToken_eq _ _ _ _, ?_⟩
  obtain ⟨d, -, hr⟩ := RefreshToken_SignedString refPrimitives svcDefault
    ([("type", .str "access")] ++ [("iss", .str svcDefault.issuer),
      ("iat", .num (unix 1700000000000000000)),
      ("exp", .num (unix (1700000000000000000 + svcDefault.refreshExpiration))),
      ("type", .str "refresh")])
    svcDefault.refreshSecretKey 1700000000000000000 1700000000000000001
  have hval : validate ([("type", .str "access")] ++ [("iss", .str svcDefault.issuer),
      ("iat", .num (unix 1700000000000000000)),
      ("exp", .num (unix (1700000000000000000 + svcDefault.refreshExpiration))),
      ("type", .str "refresh")]) 1700000000000000000 = [] :=
    validate_fresh _ _ (unix (1700000000000000000 + svcDefault.refreshExpiration)) rfl rfl
      (by decide)
  rw [hr, if_pos rfl, hval]
  rfl

/-! ## Lemmas on the cipher -/

theorem Encrypt_ok (E : CipherPrimitives) (p : passwordService) (S rnd : Bytes)
    (hkey : validKeySize p.key.length = true) (hrnd : nonceSize ≤ rnd.length) :
    Encrypt E p S rnd
      = (E.stdEncode (rnd.take nonceSize ++ E.sealGCM p.key (rnd.take nonceSize) S), none) := by
  simp [Encrypt, hkey, Nat.not_lt.mpr hrnd]

theorem Encrypt_ok_inv (E : CipherPrimitives) (p : passwordService) (S rnd : Bytes)
    (h : (Encrypt E p S rnd).2 = none) :
    validKeySize p.key.length = true ∧ nonceSize ≤ rnd.length := by
  unfold Encrypt at h
  by_cases h1 : validKeySize p.key.length = false
  · rw [if_pos h1] at h
    cases h
  · rw [if_neg h1] at h
    by_cases h2 : rnd.length < nonceSize
    · rw [if_pos h2] at h
      cases h
    · exact ⟨by simpa using h1, Nat.not_lt.mp h2⟩

theorem Decrypt_Encrypt (E : CipherPrimitives) (p : passwordService) (S rnd : Bytes)
    (hkey : validKeySize p.key.length = true) (hrnd : nonceSize ≤ rnd.length) :
    Decrypt E p (Encrypt E p S rnd).1 = (S, none) := by
  have hlen : (rnd.take nonceSize).length = nonceSize := by
    rw [List.length_take]; exact Nat.min_eq_left hrnd
  rw [Encrypt_ok E p S rnd hkey hrnd]
  simp only [Decrypt, E.std_roundtrip, hkey]
  have hnot : ¬ (rnd.take nonceSize ++ E.sealGCM p.key (rnd.take nonceSize) S).length
      < nonceSize := by
    rw [List.length_append, hlen]; omega
  rw [if_neg (by simp), if_neg hnot, List.take_left' hlen, List.drop_left' hlen,
    E.open_seal _ _ _ hkey hlen]

theorem Decrypt_of_decode_none (E : CipherPrimitives) (p : passwordService) (e : String)
    (h : E.stdDecode e = none) : Decrypt E p e = ([], some .CorruptInputError) := by
  simp [Decrypt, h]

theorem Decrypt_of_short (E : CipherPrimitives) (p : passwordService) (e : String)
    (data : Bytes) (hk : validKeySize p.key.length = true) (hd : E.stdDecode e = some data)
    (hl : data.length < nonceSize) : Decrypt E p e = ([], some .InvalidData) := by
  simp [Decrypt, hd, hk, hl]

theorem Decrypt_of_open_none (E : CipherPrimitives) (p : passwordService) (e : String)
    (data : Bytes) (hk : validKeySize p.key.length = true) (hd : E.stdDecode e = some data)
    (hl : nonceSize ≤ data.length)
    (ho : E.openGCM p.key (data.take nonceSize) (data.drop nonceSize) = none) :
    Decrypt E p e = ([], some .AuthFailed) := by
  simp [Decrypt, hd, hk, Nat.not_lt.mpr hl, ho]

theorem Decrypt_of_open_some (E : CipherPrimitives) (p : passwordService) (e : String)
    (data pt : Bytes) (hk : validKeySize p.key.length = true)
    (hd : E.stdDecode e = some data) (hl : nonceSize ≤ data.length)
    (ho : E.openGCM p.key (data.take nonceSize) (data.drop nonceSize) = some pt) :
    Decrypt E p e = (pt, none) := by
  simp [Decrypt, hd, hk, Nat.not_lt.mpr hl, ho]

theorem Decrypt_fst_of_error (E : CipherPrimitives) (p : passwordService) (e : String)
    (h : (Decrypt E p e).2 ≠ none) : (Decrypt E p e).1 = [] := by
  unfold Decrypt at h ⊢
  cases hd : E.stdDecode e with
  | none => rfl
  | some data =>
    rw [hd] at h
    simp only at h ⊢
    by_cases hk : validKeySize p.key.length = false
    · rw [if_pos hk]
    · rw [if_neg hk] at h ⊢
      by_cases hl : data.length < nonceSize
      · rw [if_pos hl]
      · rw [if_neg hl] at h ⊢
        cases ho : E.openGCM p.key (data.take nonceSize) (data.drop nonceSize) with
        | none => rfl
        | some pt =>
          rw [ho] at h
          exact absurd rfl h

/-! ## Lemmas on the Authorization header -/

theorem sep_not_mem_of_mem_splitOn (x : Char) (l : List Char) :
    ∀ p ∈ l.splitOn x, x ∉ p := by
  unfold List.splitOn
  induction l with
  | nil => simp
  | cons hd tl ih =>
    rw [List.splitOnP_cons]
    by_cases hx : (hd == x) = true
    · rw [if_pos hx]
      intro p hp
      rcases List.mem_cons.mp hp with rfl | hp
      · simp
      · exact ih p hp
    · rw [if_neg hx]
      intro p hp
      cases hr : List.splitOnP (fun y => y == x) tl with
      | nil => rw [hr] at hp; simp at hp
      | cons r0 rs =>
        rw [hr] at hp ih
        simp only [List.modifyHead_cons, List.mem_cons] at hp
        rcases hp with rfl | hp
        · intro hmem
          rcases List.mem_cons.mp hmem with h | h
          · exact hx (by simp [h])
          · exact ih r0 (List.mem_cons_self _ _) h
        · exact ih p (List.mem_cons_of_mem _ hp)

theorem splitSpaces_pair (a b : String) (ha : ' ' ∉ a.data) (hb : ' ' ∉ b.data) :
    splitSpaces (a ++ " " ++ b) = [a, b] := by
  unfold splitSpaces
  have h : (a ++ " " ++ b).data = [' '].intercalate [a.data, b.data] := by
    simp [List.intercalate, String.data_append]
  rw [h, List.splitOn_intercalate _ ' ' (by simp [ha, hb]) (by simp)]
  simp

theorem splitSpaces_pair_inv (h a b : String) (hs : splitSpaces h = [a, b]) :
    h = a ++ " " ++ b ∧ ' ' ∉ a.data ∧ ' ' ∉ b.data := by
  unfold splitSpaces at hs
  have hmem := sep_not_mem_of_mem_splitOn ' ' h.data
  have hint := List.intercalate_splitOn h.data ' '
  cases hl : h.data.splitOn ' ' with
  | nil => rw [hl] at hs; simp at hs
  | cons a0 rest =>
    cases rest with
    | nil => rw [hl] at hs; simp at hs
    | cons b0 rest2 =>
      cases rest2 with
      | cons c0 r => rw [hl] at hs; simp at hs
      | nil =>
        rw [hl] at hs hmem hint
        simp only [List.map_cons, List.map_nil, List.cons.injEq, and_true] at hs
        obtain ⟨rfl, rfl⟩ := hs
        refine ⟨?_, hmem a0 (by simp), hmem b0 (by simp)⟩
        apply String.ext
        simp only [String.data_append]
        rw [← hint]
        simp [List.intercalate]

theorem no_space_of_bearer (a : String) (h : ToLower a = "bearer") : ' ' ∉ a.data := by
  intro hmem
  have hd : a.data.map Char.toLower = "bearer".data := by
    have := congrArg String.data h
    simpa [ToLower] using this
  have : Char.toLower ' ' ∈ a.data.map Char.toLower := List.mem_map_of_mem _ hmem
  rw [hd] at this
  revert this
  decide

/-- The header values on which `ExtractTokenFromHeader` succeeds: a spelling of
`bearer`, one space, and a token without a space. -/
theorem ExtractTokenFromHeader_ok_iff (c : Context) (t : String) :
    ExtractTokenFromHeader c = .ok t ↔
      ∃ a : String, c.GetHeader "Authorization" = a ++ " " ++ t ∧
        ' ' ∉ a.data ∧ ' ' ∉ t.data ∧ ToLower a = "bearer" := by
  constructor
  · intro h
    unfold ExtractTokenFromHeader at h
    simp only at h
    split_ifs at h with h0
    split at h
    · rename_i p0 p1 hs
      split_ifs at h with hb
      injection h with h
      subst h
      obtain ⟨e1, e2, e3⟩ := splitSpaces_pair_inv _ _ _ hs
      exact ⟨p0, e1, e2, e3, by simpa using hb⟩
    · cases h
  · rintro ⟨a, hh, ha, ht, hb⟩
    unfold ExtractTokenFromHeader
    simp only
    have hne : a ++ " " ++ t ≠ "" := by
      intro h
      have := congrArg String.length h
      simp [String.length_append] at this
      exact absurd this.1.2 (by decide)
    rw [hh, if_neg hne, splitSpaces_pair a t ha ht]
    simp [hb]

theorem ExtractTokenFromHeader_cases (c : Context) :
    ExtractTokenFromHeader c = .error .MissingToken ∨
    ExtractTokenFromHeader c = .error .InvalidAuthHeader ∨
    ∃ t, ExtractTokenFromHeader c = .ok t := by
  unfold ExtractTokenFromHeader
  simp only
  split_ifs
  · exact Or.inl rfl
  · split
    · split_ifs
      · exact Or.inr (Or.inl rfl)
      · exact Or.inr (Or.inr ⟨_, rfl⟩)
    · exact Or.inr (Or.inl rfl)

/-! ## Lemmas on the middlewares -/

theorem extractUser_Claims (C : Claims) : (extractUserFromClaims C).Claims = C := by
  unfold extractUserFromClaims
  simp only
  repeat' split
  all_goals rfl

theorem extractUser_UserID (C : Claims) :
    (extractUserFromClaims C).UserID = (C.get "user_id").getD .null := by
  unfold extractUserFromClaims
  simp only
  repeat' split
  all_goals simp_all

theorem extractUser_Username (C : Claims) :
    (extractUserFromClaims C).Username
      = match C.get "username" with
        | some (.str s) => s
        | _ => "" := by
  unfold extractUserFromClaims
  simp only
  repeat' split
  all_goals simp_all

theorem extractUser_Email (C : Claims) :
    (extractUserFromClaims C).Email
      = match C.get "email" with
        | some (.str s) => s
        | _ => "" := by
  unfold extractUserFromClaims
  simp only
  repeat' split
  all_goals simp_all

theorem extractUser_Role (C : Claims) :
    (extractUserFromClaims C).Role
      = match C.get "role" with
        | some (.str s) => s
        | _ => "" := by
  unfold extractUserFromClaims
  simp only
  repeat' split
  all_goals simp_all

theorem ValidateTokenFromHeader_error_kind (E : Primitives) (j : jwtService) (c : Context)
    (now : Int) (e : AuthError) (h : ValidateTokenFromHeader E j c now = .error e) :
    e = .MissingToken ∨ e = .InvalidAuthHeader ∨ e = .InvalidToken ∨ e = .ExpiredToken := by
  unfold ValidateTokenFromHeader at h
  rcases ExtractTokenFromHeader_cases c with h1 | h1 | ⟨t, h1⟩
  · rw [h1] at h
    injection h with h
    exact Or.inl h.symm
  · rw [h1] at h
    injection h with h
    exact Or.inr (Or.inl h.symm)
  · rw [h1] at h
    simp only [ValidateToken] at h
    split at h
    · injection h with h
      subst h
      unfold mapParseError
      split_ifs
      · exact Or.inr (Or.inr (Or.inr rfl))
      · exact Or.inr (Or.inr (Or.inl rfl))
    · cases h

theorem ValidateTokenFromHeader_bearer (E : Primitives) (j : jwtService) (c : Context)
    (tok : String) (now : Int)
    (hh : c.GetHeader "Authorization" = "Bearer" ++ " " ++ tok) (ht : ' ' ∉ tok.data) :
    ValidateTokenFromHeader E j c now = ValidateToken E j tok now := by
  have hx : ExtractTokenFromHeader c = .ok tok :=
    (ExtractTokenFromHeader_ok_iff c tok).mpr ⟨"Bearer", hh, by decide, ht, by decide⟩
  rw [ValidateTokenFromHeader, hx]

theorem ref_token_no_space (claims : Claims) (key : String) :
    ' ' ∉ (SignedString refPrimitives "HS256" claims key).data := by
  simp [SignedString, signingString, refPrimitives, unary, String.data_append,
    List.mem_replicate]

/-! ## Claims C11 to C20 -/

/-- C11, amended. For every payload without the keys `iss`, `iat`, `exp` and
every ttl: when `json.Marshal` writes every value of the payload, `CreateToken`
returns no error and the claims it signs are exactly the payload, as written, plus
`iss` = configured issuer, `iat` = now and `exp` = now + ttl, both as whole Unix
seconds, where a ttl of zero is replaced by the configured default ttl; when
`json.Marshal` refuses a value of the payload, `CreateToken` returns its error. -/
theorem createToken_signs_payload_plus_reserved (E : Codec) (j : jwtService)
    (G : List (String × GoValue)) (ttl now : Int)
    (hiss : G.lookup "iss" = none) (hiat : G.lookup "iat" = none)
    (hexp : G.lookup "exp" = none) :
    ((∀ kv ∈ G, kv.2 ≠ .unsupported) →
      ∃ claims : Claims,
        CreateTokenGo E j G ttl now = .ok (SignedString E "HS256" claims j.secretKey) ∧
        ∀ k, claims.lookup k =
          if k = "iss" then some (.str j.issuer)
          else if k = "iat" then some (.num (unix now))
          else if k = "exp" then
            some (.num (unix (now + if ttl = 0 then j.defaultExpiration else ttl)))
          else (G.lookup k).bind GoValue.written) ∧
    ((∃ kv ∈ G, kv.2 = .unsupported) →
      CreateTokenGo E j G ttl now = .error .Unsupported) := by
  constructor
  · intro hsup
    cases hm : marshalValues G with
    | none =>
      obtain ⟨kv, hkv, hu⟩ := (marshalValues_none_iff G).1 hm
      exact absurd hu (hsup kv hkv)
    | some P =>
      have hl := marshalValues_lookup G P hm
      have hPk : ∀ k, G.lookup k = none → P.lookup k = none := by
        intro k hk
        rw [hl, hk]
        rfl
      refine ⟨_, CreateTokenGo_eq E j G P ttl now hm, ?_⟩
      intro k
      by_cases h1 : k = "iss"
      · subst h1
        rw [app3_lookup _ _ _ (hPk _ hiss), if_pos rfl]; rfl
      by_cases h2 : k = "iat"
      · subst h2
        rw [app3_lookup _ _ _ (hPk _ hiat), if_neg (show ¬ ("iat" = "iss") by decide),
          if_pos rfl]; rfl
      by_cases h3 : k = "exp"
      · subst h3
        rw [app3_lookup _ _ _ (hPk _ hexp), if_neg (show ¬ ("exp" = "iss") by decide),
          if_neg (show ¬ ("exp" = "iat") by decide), if_pos rfl]; rfl
      have e1 : (k == "iss") = false := by simpa using h1
      have e2 : (k == "iat") = false := by simpa using h2
      have e3 : (k == "exp") = false := by simpa using h3
      rw [if_neg h1, if_neg h2, if_neg h3, List.lookup_append, ← hl]
      simp [List.lookup_cons, e1, e2, e3]
  · intro hu
    exact CreateTokenGo_unsupported E j G ttl now ((marshalValues_none_iff G).2 hu)

/-- The claims of `createToken_signs_payload_plus_reserved` for the payload
`{"user_id": 7}` and an unset ttl. -/
theorem createToken_signs_payload_plus_reserved_witness :
    ∃ claims : Claims,
      CreateTokenGo refPrimitives svcDefault [("user_id", .json (.num 7))] 0
        1700000000500000000
        = .ok (SignedString refPrimitives "HS256" claims svcDefault.secretKey) ∧
      ∀ k, claims.lookup k =
        if k = "iss" then some (.str svcDefault.issuer)
        else if k = "iat" then some (.num (unix 1700000000500000000))
        else if k = "exp" then
          some (.num (unix (1700000000500000000 +
            if (0 : Int) = 0 then svcDefault.defaultExpiration else 0)))
        else (List.lookup k [("user_id", GoValue.json (.num 7))]).bind GoValue.written :=
  (createToken_signs_payload_plus_reserved refPrimitives svcDefault
    [("user_id", .json (.num 7))] 0 1700000000500000000 (by decide) (by decide)
    (by decide)).1 (by decide)

/-- C11, counterexample. A payload with a value that has no JSON form, such as a
NaN, makes `CreateToken` return the error of `json.Marshal` instead of a token. -/
theorem createToken_unsupported_value_fails :
    CreateTokenGo refPrimitives svcDefault [("score", .unsupported)] 3600000000000
      1700000000000000000 = .error .Unsupported ∧
    List.lookup "iss" [("score", GoValue.unsupported)] = none ∧
    List.lookup "iat" [("score", GoValue.unsupported)] = none ∧
    List.lookup "exp" [("score", GoValue.unsupported)] = none :=
  ⟨rfl, by decide, by decide, by decide⟩

/-- C12. For every key of 16, 24 or 32 bytes, every plaintext `S` (the empty one
included) and every nonce drawn by `Encrypt` from the random source, `Encrypt`
succeeds and `Decrypt(Encrypt(S))` succeeds and returns exactly `S`. -/
theorem decrypt_encrypt_roundtrip (E : CipherPrimitives) (p : passwordService)
    (S rnd : Bytes)
    (hkey : p.key.length = 16 ∨ p.key.length = 24 ∨ p.key.length = 32)
    (hrnd : nonceSize ≤ rnd.length) :
    (Encrypt E p S rnd).2 = none ∧ Decrypt E p (Encrypt E p S rnd).1 = (S, none) := by
  have hk : validKeySize p.key.length = true := by
    simp only [validKeySize, Bool.or_eq_true, decide_eq_true_eq]
    tauto
  exact ⟨by rw [Encrypt_ok E p S rnd hk hrnd], Decrypt_Encrypt E p S rnd hk hrnd⟩

theorem decrypt_encrypt_roundtrip_witness :
    (Encrypt refCipher pwdService [] rndA).2 = none ∧
      Decrypt refCipher pwdService (Encrypt refCipher pwdService [] rndA).1 = ([], none) :=
  decrypt_encrypt_roundtrip refCipher pwdService [] rndA (by decide) (by decide)

/-- C13, amended. `Decrypt` fails, and returns the empty string as plaintext, in
each of the three cases, with the error of the step that failed and not one
common kind: `base64.CorruptInputError` for an input that is not valid padded
standard base64 (whatever the key), and, under a key of valid size, the error
`"dados criptografados inválidos"` for an input that decodes to fewer bytes than
the nonce size and the authentication error of `gcm.Open` for an input whose tag
does not verify. Whenever `Decrypt` fails its plaintext result is empty. -/
theorem decrypt_failures (E : CipherPrimitives) (p : passwordService) (e : String) :
    (E.stdDecode e = none → Decrypt E p e = ([], some .CorruptInputError)) ∧
    (∀ data, validKeySize p.key.length = true → E.stdDecode e = some data →
      data.length < nonceSize → Decrypt E p e = ([], some .InvalidData)) ∧
    (∀ data, validKeySize p.key.length = true → E.stdDecode e = some data →
      nonceSize ≤ data.length →
      E.openGCM p.key (data.take nonceSize) (data.drop nonceSize) = none →
      Decrypt E p e = ([], some .AuthFailed)) ∧
    ((Decrypt E p e).2 ≠ none → (Decrypt E p e).1 = []) :=
  ⟨Decrypt_of_decode_none E p e, fun data => Decrypt_of_short E p e data,
    fun data => Decrypt_of_open_none E p e data, Decrypt_fst_of_error E p e⟩

/-- C13, counterexample. The failures are not of a single kind: an input that is
not base64 fails with `CorruptInputError`, an input that decodes to three bytes
fails with the service's own error, and a well-formed input sealed under another
key fails with the authentication error; the three errors are distinct. -/
theorem decrypt_failures_differ :
    Decrypt refCipher pwdService "%%%" = ([], some .CorruptInputError) ∧
    Decrypt refCipher pwdService (refCipher.stdEncode [1, 2, 3]) = ([], some .InvalidData) ∧
    Decrypt refCipher pwdService
      (refCipher.stdEncode (rndA ++ refCipher.sealGCM (List.replicate 16 0) rndA [104, 105]))
      = ([], some .AuthFailed) ∧
    CipherError.CorruptInputError ≠ CipherError.InvalidData ∧
    CipherError.InvalidData ≠ CipherError.AuthFailed ∧
    CipherError.CorruptInputError ≠ CipherError.AuthFailed :=
  ⟨Decrypt_of_decode_none _ _ _ (by decide),
    Decrypt_of_short _ _ _ [1, 2, 3] (by decide) (refCipher.std_roundtrip _) (by decide),
    Decrypt_of_open_none _ _ _ _ (by decide) (refCipher.std_roundtrip _) (by decide)
      (by decide),
    by decide, by decide, by decide⟩

/-- C14. For every candidate plaintext `c` and encoded blob `e`: when `Decrypt(e)`
fails, `Compare(c, e)` returns that failure unchanged with the result `false`;
otherwise it returns, without error, whether `c` equals the plaintext of
`Decrypt(e)`. In particular, for a blob that `Encrypt` produced from `pw`,
`Compare(pw, Encrypt(pw))` is true and `Compare(q, Encrypt(pw))` is false for
every `q` different from `pw`. -/
theorem compare_spec (E : CipherPrimitives) (p : passwordService) (pw rnd : Bytes) :
    (∀ c e, ((Decrypt E p e).2 ≠ none → Compare E p c e = (false, (Decrypt E p e).2)) ∧
      ((Decrypt E p e).2 = none →
        Compare E p c e = (decide (c = (Decrypt E p e).1), none))) ∧
    ((Encrypt E p pw rnd).2 = none →
      Compare E p pw (Encrypt E p pw rnd).1 = (true, none) ∧
      ∀ q, q ≠ pw → Compare E p q (Encrypt E p pw rnd).1 = (false, none)) := by
  constructor
  · intro c e
    unfold Compare
    rcases hd : Decrypt E p e with ⟨pt, err⟩
    cases err with
    | none => simp
    | some x => simp
  · intro henc
    obtain ⟨hk, hr⟩ := Encrypt_ok_inv E p pw rnd henc
    unfold Compare
    rw [Decrypt_Encrypt E p pw rnd hk hr]
    refine ⟨by simp, ?_⟩
    intro q hq
    simp [hq]

theorem compare_spec_witness :
    (∀ c e, ((Decrypt refCipher pwdService e).2 ≠ none →
        Compare refCipher pwdService c e = (false, (Decrypt refCipher pwdService e).2)) ∧
      ((Decrypt refCipher pwdService e).2 = none →
        Compare refCipher pwdService c e
          = (decide (c = (Decrypt refCipher pwdService e).1), none))) ∧
    ((Encrypt refCipher pwdService [104, 105] rndA).2 = none →
      Compare refCipher pwdService [104, 105] (Encrypt refCipher pwdService [104, 105] rndA).1
        = (true, none) ∧
      ∀ q, q ≠ [104, 105] →
        Compare refCipher pwdService q (Encrypt refCipher pwdService [104, 105] rndA).1
          = (false, none)) :=
  compare_spec refCipher pwdService [104, 105] rndA

/-- C15. With the nonce an explicit input: when `Encrypt` is called twice on the
same plaintext under the same key and both calls succeed, each output decodes to
the nonce of the call followed by the sealed ciphertext and tag, and whenever the
two calls draw different nonces the two encoded strings differ. -/
theorem encrypt_distinct_nonces (E : CipherPrimitives) (p : passwordService)
    (S rnd1 rnd2 : Bytes)
    (h1 : (Encrypt E p S rnd1).2 = none) (h2 : (Encrypt E p S rnd2).2 = none)
    (hne : rnd1.take nonceSize ≠ rnd2.take nonceSize) :
    E.stdDecode (Encrypt E p S rnd1).1
      = some (rnd1.take nonceSize ++ E.sealGCM p.key (rnd1.take nonceSize) S) ∧
    E.stdDecode (Encrypt E p S rnd2).1
      = some (rnd2.take nonceSize ++ E.sealGCM p.key (rnd2.take nonceSize) S) ∧
    (Encrypt E p S rnd1).1 ≠ (Encrypt E p S rnd2).1 := by
  obtain ⟨hk, hr1⟩ := Encrypt_ok_inv E p S rnd1 h1
  obtain ⟨-, hr2⟩ := Encrypt_ok_inv E p S rnd2 h2
  rw [Encrypt_ok E p S rnd1 hk hr1, Encrypt_ok E p S rnd2 hk hr2]
  refine ⟨E.std_roundtrip _, E.std_roundtrip _, ?_⟩
  intro heq
  have hdec := congrArg E.stdDecode heq
  rw [E.std_roundtrip, E.std_roundtrip] at hdec
  have happ := Option.some.inj hdec
  have hl1 : (rnd1.take nonceSize).length = nonceSize := by
    rw [List.length_take]; exact Nat.min_eq_left hr1
  have hl2 : (rnd2.take nonceSize).length = nonceSize := by
    rw [List.length_take]; exact Nat.min_eq_left hr2
  exact hne (List.append_inj_left happ (hl1.trans hl2.symm))

theorem encrypt_distinct_nonces_witness :
    (Encrypt refCipher pwdService [104, 105] rndA).2 = none ∧
    (Encrypt refCipher pwdService [104, 105] rndB).2 = none ∧
    rndA.take nonceSize ≠ rndB.take nonceSize ∧
    (refCipher.stdDecode (Encrypt refCipher pwdService [104, 105] rndA).1
      = some (rndA.take nonceSize
          ++ refCipher.sealGCM pwdService.key (rndA.take nonceSize) [104, 105]) ∧
    refCipher.stdDecode (Encrypt refCipher pwdService [104, 105] rndB).1
      = some (rndB.take nonceSize
          ++ refCipher.sealGCM pwdService.key (rndB.take nonceSize) [104, 105]) ∧
    (Encrypt refCipher pwdService [104, 105] rndA).1
      ≠ (Encrypt refCipher pwdService [104, 105] rndB).1) :=
  have ha : (Encrypt refCipher pwdService [104, 105] rndA).2 = none := by
    rw [Encrypt_ok refCipher pwdService _ rndA (by decide) (by decide)]
  have hb : (Encrypt refCipher pwdService [104, 105] rndB).2 = none := by
    rw [Encrypt_ok refCipher pwdService _ rndB (by decide) (by decide)]
  have hne : rndA.take nonceSize ≠ rndB.take nonceSize := by decide
  ⟨ha, hb, hne, encrypt_distinct_nonces refCipher pwdService [104, 105] rndA rndB ha hb hne⟩

/-- C16, amended. `ExtractTokenFromHeader` fails with `MissingToken` exactly when
the `Authorization` header is empty, and for every non-empty header `h` it fails
with `InvalidAuthHeader` if and only if `h` is not of the form `a + " " + b` where
`a` and `b` contain no space character and `a` equals `"bearer"` ignoring case.
The part `b` may be empty and only the space character separates. The headers
`"Token abc"`, `"Bearer"` and `"Bearer a b"` are rejected with
`InvalidAuthHeader`. -/
theorem extractToken_failure_cases (c : Context) :
    (ExtractTokenFromHeader c = .error .MissingToken ↔ c.GetHeader "Authorization" = "") ∧
    (c.GetHeader "Authorization" ≠ "" →
      (ExtractTokenFromHeader c = .error .InvalidAuthHeader ↔
        ¬ ∃ a b : String, c.GetHeader "Authorization" = a ++ " " ++ b ∧
          ' ' ∉ a.data ∧ ' ' ∉ b.data ∧ ToLower a = "bearer")) ∧
    ExtractTokenFromHeader (requestWith "Token abc") = .error .InvalidAuthHeader ∧
    ExtractTokenFromHeader (requestWith "Bearer") = .error .InvalidAuthHeader ∧
    ExtractTokenFromHeader (requestWith "Bearer a b") = .error .InvalidAuthHeader := by
  refine ⟨?_, ?_, rfl, rfl, rfl⟩
  · constructor
    · intro h
      by_contra hne
      unfold ExtractTokenFromHeader at h
      simp only [if_neg hne] at h
      split at h
      · split_ifs at h
        cases h
      · cases h
    · intro h
      simp [ExtractTokenFromHeader, h]
  · intro hne
    have hmiss : ExtractTokenFromHeader c ≠ .error .MissingToken := by
      intro h
      unfold ExtractTokenFromHeader at h
      simp only [if_neg hne] at h
      split at h
      · split_ifs at h
        cases h
      · cases h
    constructor
    · rintro h ⟨a, b, hh, ha, hb, hl⟩
      have hok := (ExtractTokenFromHeader_ok_iff c b).mpr ⟨a, hh, ha, hb, hl⟩
      rw [hok] at h
      cases h
    · intro h
      rcases ExtractTokenFromHeader_cases c with h1 | h1 | ⟨t, h1⟩
      · exact absurd h1 hmiss
      · exact h1
      · obtain ⟨a, hh, ha, ht, hl⟩ := (ExtractTokenFromHeader_ok_iff c t).mp h1
        exact absurd ⟨a, t, hh, ha, ht, hl⟩ h

/-- C16, counterexample. The header `"Bearer "` has a single non-empty token, yet
it is accepted: the extracted token is the empty string. And the header
`"Bearer  abc"`, two non-empty tokens separated by two spaces, is rejected. -/
theorem extractToken_accepts_empty_token :
    ExtractTokenFromHeader (requestWith "Bearer ") = .ok "" ∧
    ExtractTokenFromHeader (requestWith "Bearer  abc") = .error .InvalidAuthHeader :=
  ⟨rfl, rfl⟩

/-- C17. For every spelling `s` of `"bearer"` in any mixture of upper and lower
case and every token `t` that contains no space (a non-empty one in particular),
`ExtractTokenFromHeader` on the header `s + " " + t` succeeds and returns exactly
`t`. -/
theorem extractToken_bearer_any_case (c : Context) (s t : String)
    (hs : ToLower s = "bearer") (ht : ' ' ∉ t.data)
    (hh : c.GetHeader "Authorization" = s ++ " " ++ t) :
    ExtractTokenFromHeader c = .ok t :=
  (ExtractTokenFromHeader_ok_iff c t).mpr ⟨s, hh, no_space_of_bearer s hs, ht, hs⟩

theorem extractToken_bearer_any_case_witness :
    ToLower "bearer" = "bearer" ∧ ' ' ∉ "xyz".data ∧
    (requestWith "bearer xyz").GetHeader "Authorization" = "bearer" ++ " " ++ "xyz" ∧
    ExtractTokenFromHeader (requestWith "bearer xyz") = .ok "xyz" :=
  ⟨by decide, by decide, by decide,
    extractToken_bearer_any_case (requestWith "bearer xyz") "bearer" "xyz" (by decide)
      (by decide) (by decide)⟩

/-- C18. For every request, `ValidateTokenFromHeader` is the composition of
`ExtractTokenFromHeader` and `ValidateToken`: it returns the failure of the
extraction unchanged, with no claims, when the extraction fails, and otherwise
exactly the result of `ValidateToken` on the extracted token; a header failure is
therefore reported in preference to any token failure. -/
theorem validateTokenFromHeader_composes (E : Primitives) (j : jwtService) (c : Context)
    (now : Int) :
    ValidateTokenFromHeader E j c now = extractThenValidate E j c now ∧
    (∀ err, ExtractTokenFromHeader c = .error err →
      ValidateTokenFromHeader E j c now = .error err) ∧
    (∀ tokenString, ExtractTokenFromHeader c = .ok tokenString →
      ValidateTokenFromHeader E j c now = ValidateToken E j tokenString now) := by
  refine ⟨?_, ?_, ?_⟩
  · unfold ValidateTokenFromHeader extractThenValidate
    cases ExtractTokenFromHeader c <;> rfl
  · intro err h
    rw [ValidateTokenFromHeader, h]
  · intro tokenString h
    rw [ValidateTokenFromHeader, h]

/-- C19. For every request on which `ValidateTokenFromHeader` fails (the failure
is `MissingToken`, `InvalidAuthHeader`, `InvalidToken` or `ExpiredToken`), the
strict gate aborts the request without invoking the next handler, leaves the keys
of the request context as they were, and writes the same response whichever
failure occurred: status 401 with the fixed body `{"error": "Token inválido ou
ausente"}`. -/
theorem authMiddleware_rejects (E : Primitives) (j : jwtService) (now : Int)
    (next : Context → Context) (c : Context) (e : AuthError)
    (h : ValidateTokenFromHeader E j c now = .error e) :
    AuthMiddleware E j now next c
      = { c with response := some (401, [("error", .str "Token inválido ou ausente")]),
                 aborted := true } ∧
    (AuthMiddleware E j now next c).aborted = true ∧
    (AuthMiddleware E j now next c).Keys = c.Keys ∧
    (∀ other : Context → Context,
      AuthMiddleware E j now other c = AuthMiddleware E j now next c) ∧
    (e = .MissingToken ∨ e = .InvalidAuthHeader ∨ e = .InvalidToken ∨ e = .ExpiredToken) := by
  have hm : ∀ f : Context → Context, AuthMiddleware E j now f c
      = { c with response := some (401, [("error", .str "Token inválido ou ausente")]),
                 aborted := true } := by
    intro f
    rw [AuthMiddleware, h]
    rfl
  refine ⟨hm next, ?_, ?_, ?_, ValidateTokenFromHeader_error_kind E j c now e h⟩
  · rw [hm next]
  · rw [hm next]
  · intro other
    rw [hm other, hm next]

theorem authMiddleware_rejects_witness :
    ValidateTokenFromHeader refPrimitives svcDefault (requestWith "Token abc")
      1700000000000000000 = .error .InvalidAuthHeader ∧
    (AuthMiddleware refPrimitives svcDefault 1700000000000000000 id (requestWith "Token abc")
      = { requestWith "Token abc" with
          response := some (401, [("error", .str "Token inválido ou ausente")]),
          aborted := true } ∧
    (AuthMiddleware refPrimitives svcDefault 1700000000000000000 id
      (requestWith "Token abc")).aborted = true ∧
    (AuthMiddleware refPrimitives svcDefault 1700000000000000000 id
      (requestWith "Token abc")).Keys = (requestWith "Token abc").Keys ∧
    (∀ other : Context → Context,
      AuthMiddleware refPrimitives svcDefault 1700000000000000000 other
          (requestWith "Token abc")
        = AuthMiddleware refPrimitives svcDefault 1700000000000000000 id
          (requestWith "Token abc")) ∧
    (AuthError.InvalidAuthHeader = .MissingToken ∨
      AuthError.InvalidAuthHeader = .InvalidAuthHeader ∨
      AuthError.InvalidAuthHeader = .InvalidToken ∨
      AuthError.InvalidAuthHeader = .ExpiredToken)) :=
  ⟨rfl, authMiddleware_rejects refPrimitives svcDefault 1700000000000000000 id
    (requestWith "Token abc") .InvalidAuthHeader rfl⟩

/-- C20. For every request on which `ValidateTokenFromHeader` succeeds with claims
`C`, the strict gate invokes the next handler, with a context in which
`GetClaims` returns `C`, `GetUser` returns an identity whose `Claims` field is
`C`, `GetUserID` returns the value of `C["user_id"]` (nil when the claim is
missing), and `GetUsername`, `GetEmail` and `GetRole` return the corresponding
claim of `C` when it is a string. The request and the response are untouched. -/
theorem authMiddleware_populates_identity (E : Primitives) (j : jwtService) (now : Int)
    (next : Context → Context) (c : Context) (C : Claims)
    (h : ValidateTokenFromHeader E j c now = .ok C) :
    ∃ c2 : Context, AuthMiddleware E j now next c = next c2 ∧
      c2.headers = c.headers ∧ c2.aborted = c.aborted ∧ c2.response = c.response ∧
      GetClaims c2 = some C ∧
      (∃ u, GetUser c2 = some u ∧ u.Claims = C) ∧
      GetUserID c2 = some (.value ((C.get "user_id").getD .null)) ∧
      (∀ s, C.get "username" = some (.str s) → GetUsername c2 = some s) ∧
      (∀ s, C.get "email" = some (.str s) → GetEmail c2 = some s) ∧
      (∀ s, C.get "role" = some (.str s) → GetRole c2 = some s) := by
  refine ⟨(((((c.Set "user_claims" (.claims C)).Set "user"
      (.user (extractUserFromClaims C))).Set "user_id"
      (.value (extractUserFromClaims C).UserID)).Set "username"
      (.value (.str (extractUserFromClaims C).Username))).Set "email"
      (.value (.str (extractUserFromClaims C).Email))).Set "role"
      (.value (.str (extractUserFromClaims C).Role)), ?_, rfl, rfl, rfl, rfl,
    ⟨_, rfl, extractUser_Claims C⟩, ?_, ?_, ?_, ?_⟩
  · rw [AuthMiddleware, h]
  · show some (CtxValue.value (extractUserFromClaims C).UserID) = _
    rw [extractUser_UserID]
  · intro s hs
    show some (extractUserFromClaims C).Username = some s
    rw [extractUser_Username, hs]
  · intro s hs
    show some (extractUserFromClaims C).Email = some s
    rw [extractUser_Email, hs]
  · intro s hs
    show some (extractUserFromClaims C).Role = some s
    rw [extractUser_Role, hs]

theorem authMiddleware_populates_identity_witness :
    ∃ C : Claims,
      ValidateTokenFromHeader refPrimitives svcDefault
        (requestWith ("Bearer" ++ " " ++ SignedString refPrimitives "HS256"
          [("user_id", .num 7), ("role", .str "admin"), ("exp", .num (1700003600 : Int))]
          svcDefault.secretKey))
        1700000000000000000 = .ok C ∧
      ∃ c2 : Context,
        AuthMiddleware refPrimitives svcDefault 1700000000000000000 id
          (requestWith ("Bearer" ++ " " ++ SignedString refPrimitives "HS256"
            [("user_id", .num 7), ("role", .str "admin"), ("exp", .num (1700003600 : Int))]
            svcDefault.secretKey)) = id c2 ∧
        c2.headers = (requestWith ("Bearer" ++ " " ++ SignedString refPrimitives "HS256"
            [("user_id", .num 7), ("role", .str "admin"), ("exp", .num (1700003600 : Int))]
            svcDefault.secretKey)).headers ∧
        c2.aborted = false ∧ c2.response = none ∧
        GetClaims c2 = some C ∧
        (∃ u, GetUser c2 = some u ∧ u.Claims = C) ∧
        GetUserID c2 = some (.value ((C.get "user_id").getD .null)) ∧
        (∀ s, C.get "username" = some (.str s) → GetUsername c2 = some s) ∧
        (∀ s, C.get "email" = some (.str s) → GetEmail c2 = some s) ∧
        (∀ s, C.get "role" = some (.str s) → GetRole c2 = some s) := by
  obtain ⟨d, -, hv⟩ := ValidateToken_SignedString refPrimitives svcDefault
    [("user_id", .num 7), ("role", .str "admin"), ("exp", .num (1700003600 : Int))]
    1700000000000000000
  have hval : validate
      [("user_id", .num 7), ("role", .str "admin"), ("exp", .num (1700003600 : Int))]
      1700000000000000000 = [] :=
    validate_fresh _ _ 1700003600 rfl rfl (by decide)
  rw [hval] at hv
  have hh : ValidateTokenFromHeader refPrimitives svcDefault
      (requestWith ("Bearer" ++ " " ++ SignedString refPrimitives "HS256"
        [("user_id", .num 7), ("role", .str "admin"), ("exp", .num (1700003600 : Int))]
        svcDefault.secretKey))
      1700000000000000000 = .ok d := by
    rw [ValidateTokenFromHeader_bearer _ _ _ _ _ rfl (ref_token_no_space _ _)]
    exact hv
  exact ⟨d, hh, authMiddleware_populates_identity refPrimitives svcDefault
    1700000000000000000 id _ d hh⟩

/-! ## Lemmas on the role gates -/

theorem roleLoop_eq (isAllowed : String → Bool) (next : Context → Context) (c : Context)
    (roles : List String) :
    roleLoop isAllowed next c roles =
      if roles.any isAllowed = true then next c
      else (c.JSON 403 [("error", .str "Acesso negado: permissões insuficientes")]).Abort := by
  induction roles with
  | nil => rfl
  | cons a rest ih =>
    rw [roleLoop, ih]
    by_cases h : isAllowed a = true
    · simp [h]
    · simp [h]

theorem RequireRole_of_role (F : CaseFolding) (roles : List String) (next : Context → Context)
    (c : Context) (r : String) (hr : c.Get "role" = some (.value (.str r))) :
    RequireRole F roles next c =
      if roles.any (fun a => EqualFold F r a) = true then next c
      else (c.JSON 403 [("error", .str "Acesso negado: permissões insuficientes")]).Abort := by
  rw [RequireRole, hr]
  exact roleLoop_eq _ next c roles

theorem RequireRoleStrict_of_role (roles : List String) (next : Context → Context)
    (c : Context) (r : String) (hr : c.Get "role" = some (.value (.str r))) :
    RequireRoleStrict roles next c =
      if roles.any (fun a => decide (r = a)) = true then next c
      else (c.JSON 403 [("error", .str "Acesso negado: permissões insuficientes")]).Abort := by
  rw [RequireRoleStrict, hr]
  exact roleLoop_eq _ next c roles

theorem any_decide_eq (r : String) (roles : List String) :
    roles.any (fun a => decide (r = a)) = true ↔ r ∈ roles := by
  simp [List.any_eq_true]

theorem toNat_ofNat_small (n : Nat) (h : n < 55296) : (Char.ofNat n).toNat = n := by
  have hv : n.isValidChar := Or.inl h
  unfold Char.ofNat
  rw [dif_pos hv]
  simp [Char.ofNatAux, Char.toNat, UInt32.toNat]

theorem toLower_toNat (c : Char) :
    c.toLower.toNat = if 65 ≤ c.toNat ∧ c.toNat ≤ 90 then c.toNat + 32 else c.toNat := by
  unfold Char.toLower
  by_cases h : 65 ≤ c.toNat ∧ c.toNat ≤ 90
  · simp only [h, ge_iff_le, and_self, if_true]
    exact toNat_ofNat_small _ (by omega)
  · simp [h]

theorem char_eq_iff (c d : Char) : c = d ↔ c.toNat = d.toNat := by
  constructor
  · intro h
    rw [h]
  · intro h
    have := congrArg Char.ofNat h
    simpa using this

theorem equalFoldRune_ascii (F : CaseFolding) (c d : Char) (hc : c.toNat < 128)
    (hd : d.toNat < 128) :
    equalFoldRune F c d = true ↔ c.toLower = d.toLower := by
  rw [char_eq_iff c.toLower, toLower_toNat, toLower_toNat]
  unfold equalFoldRune
  by_cases h : d = c
  · subst h
    simp
  · have hne : d.toNat ≠ c.toNat := fun e => h ((char_eq_iff d c).2 e)
    rw [if_neg h]
    by_cases hlt : d.toNat < c.toNat
    · simp only [hlt, if_true, hc, decide_eq_true_eq]
      split_ifs <;> omega
    · simp only [hlt, if_false, hd, if_true, decide_eq_true_eq]
      split_ifs <;> omega

theorem equalFoldRune_self (F : CaseFolding) (c : Char) : equalFoldRune F c c = true := by
  simp [equalFoldRune]

theorem EqualFold_self (F : CaseFolding) (s : String) : EqualFold F s s = true := by
  unfold EqualFold
  induction s.data with
  | nil => rfl
  | cons a t ih => simp [equalFoldRunes, equalFoldRune_self, ih]

theorem EqualFold_empty (F : CaseFolding) (a : String) :
    EqualFold F "" a = true ↔ a = "" := by
  unfold EqualFold
  constructor
  · intro h
    cases hd : a.data with
    | nil => exact String.ext hd
    | cons x t =>
      rw [hd] at h
      simp [equalFoldRunes] at h
  · intro h
    subst h
    rfl

theorem equalFoldRunes_ascii (F : CaseFolding) (s t : List Char)
    (hs : ∀ c ∈ s, c.toNat < 128) (ht : ∀ c ∈ t, c.toNat < 128) :
    equalFoldRunes F s t = true ↔ s.map Char.toLower = t.map Char.toLower := by
  induction s generalizing t with
  | nil =>
    cases t with
    | nil => simp [equalFoldRunes]
    | cons b t => simp [equalFoldRunes]
  | cons a s ih =>
    cases t with
    | nil => simp [equalFoldRunes]
    | cons b t =>
      have h1 := equalFoldRune_ascii F a b (hs a (List.mem_cons_self _ _))
        (ht b (List.mem_cons_self _ _))
      have h2 := ih t (fun c hc => hs c (List.mem_cons_of_mem _ hc))
        (fun c hc => ht c (List.mem_cons_of_mem _ hc))
      simp only [equalFoldRunes, Bool.and_eq_true, List.map_cons, List.cons.injEq, h1, h2]

/-- On ASCII strings `EqualFold` is the equality of the lower-cased strings. -/
theorem EqualFold_ascii (F : CaseFolding) (s t : String) (hs : isASCII s = true)
    (ht : isASCII t = true) : EqualFold F s t = true ↔ ToLower s = ToLower t := by
  unfold EqualFold ToLower
  rw [equalFoldRunes_ascii F _ _ (by simpa [isASCII] using hs) (by simpa [isASCII] using ht)]
  constructor
  · intro h
    rw [h]
  · intro h
    exact congrArg String.data h

theorem char_toNat_lt (c : Char) : c.toNat < 1114112 := by
  have h := c.valid
  unfold Char.toNat
  rcases h with h | h
  · have : c.val.toNat < 55296 := h
    omega
  · have : c.val.toNat < 1114112 := h.2
    omega

theorem foldWalk_sound (F : CaseFolding) (sr tr : Char) (fuel : Nat) (r : Char)
    (h : foldWalk F sr tr fuel r = true) : ∃ n, Nat.iterate F.SimpleFold n r = tr := by
  induction fuel generalizing r with
  | zero => simp [foldWalk] at h
  | succ f ih =>
    rw [foldWalk] at h
    split_ifs at h with hc
    · obtain ⟨n, hn⟩ := ih _ h
      exact ⟨n + 1, hn⟩
    · exact ⟨0, by simpa using h⟩

theorem foldWalk_complete (F : CaseFolding) (sr tr : Char) (fuel : Nat) (r : Char)
    (hreach : ∃ n, Nat.iterate F.SimpleFold n r = tr) (hsr : sr.toNat < r.toNat)
    (hle : r.toNat ≤ tr.toNat) (hfuel : tr.toNat - r.toNat < fuel) :
    foldWalk F sr tr fuel r = true := by
  induction fuel generalizing r with
  | zero => omega
  | succ f ih =>
    rw [foldWalk]
    have hne : r ≠ sr := by
      intro e
      rw [e] at hsr
      omega
    by_cases hlt : r.toNat < tr.toNat
    · rw [if_pos ⟨hne, hlt⟩]
      obtain ⟨n, hn⟩ := hreach
      have hnx := F.fold_next r tr n hn hlt
      cases n with
      | zero =>
        simp only [Function.iterate_zero, id_eq] at hn
        rw [hn] at hlt
        omega
      | succ m =>
        exact ih _ ⟨m, hn⟩ (by omega) hnx.2 (by omega)
    · rw [if_neg (fun h => hlt h.2)]
      have : r = tr := (char_eq_iff r tr).2 (by omega)
      simp [this]

theorem iterate_period (f : Char → Char) (c : Char) (p m : Nat)
    (h : Nat.iterate f p c = c) : Nat.iterate f (m * p) c = c := by
  induction m with
  | zero => simp
  | succ k ih =>
    rw [Nat.succ_mul, Function.iterate_add_apply, h, ih]

theorem sameLetter_symm (F : CaseFolding) (c d : Char) (h : sameLetter F c d) :
    sameLetter F d c := by
  obtain ⟨n, hn⟩ := h
  obtain ⟨p, hp⟩ := F.fold_cycle c
  refine ⟨n * p, ?_⟩
  rw [← hn, ← Function.iterate_add_apply]
  have : n * p + n = n * (p + 1) := by ring
  rw [this]
  exact iterate_period _ c (p + 1) n hp

theorem equalFoldRune_lt (F : CaseFolding) (lo hi : Char) (hlt : lo.toNat < hi.toNat) :
    (if hi.toNat < 128 then
      decide (65 ≤ lo.toNat ∧ lo.toNat ≤ 90 ∧ hi.toNat = lo.toNat + 32)
    else foldWalk F lo hi 1114112 (F.SimpleFold lo)) = true ↔ sameLetter F lo hi := by
  by_cases hascii : hi.toNat < 128
  · rw [if_pos hascii, sameLetter, F.fold_ascii lo hi (by omega) hascii, char_eq_iff,
      toLower_toNat, toLower_toNat, decide_eq_true_eq]
    split_ifs <;> omega
  · rw [if_neg hascii]
    constructor
    · intro h
      obtain ⟨n, hn⟩ := foldWalk_sound F lo hi _ _ h
      exact ⟨n + 1, hn⟩
    · rintro ⟨n, hn⟩
      have hnx := F.fold_next lo hi n hn hlt
      cases n with
      | zero =>
        simp only [Function.iterate_zero, id_eq] at hn
        rw [hn] at hlt
        omega
      | succ m =>
        have := char_toNat_lt hi
        exact foldWalk_complete F lo hi _ _ ⟨m, hn⟩ hnx.1 hnx.2 (by omega)

/-- One round of `EqualFold` accepts two runes exactly when they are the same
letter ignoring case. -/
theorem equalFoldRune_iff (F : CaseFolding) (c d : Char) :
    equalFoldRune F c d = true ↔ sameLetter F c d := by
  unfold equalFoldRune
  by_cases h : d = c
  · subst h
    simp only [if_true, true_iff]
    exact ⟨0, rfl⟩
  · have hne : d.toNat ≠ c.toNat := fun e => h ((char_eq_iff d c).2 e)
    rw [if_neg h]
    by_cases hlt : d.toNat < c.toNat
    · simp only [hlt, if_true]
      rw [equalFoldRune_lt F d c hlt]
      exact ⟨sameLetter_symm F d c, sameLetter_symm F c d⟩
    · simp only [hlt, if_false]
      exact equalFoldRune_lt F c d (by omega)

theorem equalFoldRunes_iff (F : CaseFolding) (s t : List Char) :
    equalFoldRunes F s t = true ↔ List.Forall₂ (sameLetter F) s t := by
  induction s generalizing t with
  | nil =>
    cases t with
    | nil => simp [equalFoldRunes]
    | cons b t => simp [equalFoldRunes]
  | cons a s ih =>
    cases t with
    | nil => simp [equalFoldRunes]
    | cons b t =>
      simp only [equalFoldRunes, Bool.and_eq_true, List.forall₂_cons, equalFoldRune_iff, ih]

/-- The comparison of `strings.EqualFold` is equality ignoring letter case. -/
theorem EqualFold_iff (F : CaseFolding) (s t : String) :
    EqualFold F s t = true ↔ equalIgnoringCase F s t :=
  equalFoldRunes_iff F s.data t.data

/-- A handler that marks the context as not aborted: it tells a run of the rest
of the chain from an abort. -/
theorem abort_ne_next (c : Context) (code : Nat) (body : Claims) :
    (c.JSON code body).Abort ≠ (fun x : Context => { x with aborted := false }) c := by
  intro h
  have := congrArg Context.aborted h
  simp [Context.Abort, Context.JSON] at this

/-- A request carrying, as a bearer token, claims signed under the access key of
the default service is validated when the claims are valid at that instant. -/
theorem ref_request_validates (claims : Claims) (t : Int) (hv : validate claims t = []) :
    ∃ d : Claims, (∀ k, d.lookup k = claims.lookup k) ∧
      ValidateTokenFromHeader refPrimitives svcDefault
        (requestWith ("Bearer" ++ " "
          ++ SignedString refPrimitives "HS256" claims svcDefault.secretKey)) t = .ok d := by
  obtain ⟨d, hd, hval⟩ := ValidateToken_SignedString refPrimitives svcDefault claims t
  rw [hv] at hval
  refine ⟨d, hd, ?_⟩
  rw [ValidateTokenFromHeader_bearer _ _ _ _ _ rfl (ref_token_no_space _ _)]
  exact hval

/-- The user id that the strict gate stores in the context. -/
theorem AuthMiddleware_user_id (E : Primitives) (j : jwtService) (now : Int) (c : Context)
    (C : Claims) (h : ValidateTokenFromHeader E j c now = .ok C) :
    (AuthMiddleware E j now id c).Get "user_id"
      = some (.value ((C.lookup "user_id").getD .null)) := by
  rw [AuthMiddleware, h]
  show some (CtxValue.value (extractUserFromClaims C).UserID) = _
  rw [extractUser_UserID]
  rfl

/-! ## Lemmas on the configuration -/

/-- The secret key that `NewJwtService` ends up with: the one of the
configuration, or else the one of the environment. -/
theorem NewJwtService_eq (env : String → String) (config : Option JwtConfig) :
    NewJwtService env config =
      if (if (config.getD ⟨"", "", 0, 0, ""⟩).SecretKey = "" then env "JWT_SECRET_KEY"
          else (config.getD ⟨"", "", 0, 0, ""⟩).SecretKey) = "" then none
      else some
        { secretKey :=
            if (config.getD ⟨"", "", 0, 0, ""⟩).SecretKey = "" then env "JWT_SECRET_KEY"
            else (config.getD ⟨"", "", 0, 0, ""⟩).SecretKey,
          refreshSecretKey :=
            if (if (config.getD ⟨"", "", 0, 0, ""⟩).RefreshSecretKey = "" then
                  env "JWT_REFRESH_SECRET_KEY"
                else (config.getD ⟨"", "", 0, 0, ""⟩).RefreshSecretKey) = "" then
              (if (config.getD ⟨"", "", 0, 0, ""⟩).SecretKey = "" then env "JWT_SECRET_KEY"
                else (config.getD ⟨"", "", 0, 0, ""⟩).SecretKey) ++ "-refresh"
            else if (config.getD ⟨"", "", 0, 0, ""⟩).RefreshSecretKey = "" then
              env "JWT_REFRESH_SECRET_KEY"
            else (config.getD ⟨"", "", 0, 0, ""⟩).RefreshSecretKey,
          defaultExpiration :=
            if (config.getD ⟨"", "", 0, 0, ""⟩).DefaultExpiration = 0 then
              getEnvDuration env "JWT_DEFAULT_EXPIRATION" 900000000000
            else (config.getD ⟨"", "", 0, 0, ""⟩).DefaultExpiration,
          refreshExpiration :=
            if (config.getD ⟨"", "", 0, 0, ""⟩).RefreshExpiration = 0 then
              getEnvDuration env "JWT_REFRESH_EXPIRATION" 604800000000000
            else (config.getD ⟨"", "", 0, 0, ""⟩).RefreshExpiration,
          issuer :=
            if (config.getD ⟨"", "", 0, 0, ""⟩).Issuer = "" then
              (if env "JWT_ISSUER" = "" then "my-app" else env "JWT_ISSUER")
            else (config.getD ⟨"", "", 0, 0, ""⟩).Issuer } := by
  unfold NewJwtService getEnv
  generalize config.getD ⟨"", "", 0, 0, ""⟩ = cfg
  obtain ⟨sk, rk, de, re, iss⟩ := cfg
  generalize getEnvDuration env "JWT_DEFAULT_EXPIRATION" 900000000000 = d1
  generalize getEnvDuration env "JWT_REFRESH_EXPIRATION" 604800000000000 = d2
  generalize env "JWT_SECRET_KEY" = a
  generalize env "JWT_REFRESH_SECRET_KEY" = b
  generalize env "JWT_ISSUER" = i
  by_cases h1 : sk = "" <;> by_cases h6 : a = "" <;> simp only [h1, h6, if_true, if_false] <;>
    by_cases h2 : rk = "" <;> by_cases h7 : b = "" <;>
    simp only [h2, h7, if_true, if_false] <;>
    by_cases h3 : de = 0 <;> by_cases h4 : re = 0 <;> by_cases h5 : iss = "" <;>
    simp [h1, h2, h3, h4, h5, h6, h7]

theorem append_refresh_ne (s : String) : s ++ "-refresh" ≠ s := by
  intro h
  have hl := congrArg String.length h
  simp [String.length_append] at hl
  exact absurd hl (by decide)

theorem append_refresh_ne_empty (s : String) : s ++ "-refresh" ≠ "" := by
  intro h
  have hl := congrArg String.length h
  simp [String.length_append] at hl
  exact absurd hl.2 (by decide)

theorem leadingInt_digits (ds rest : List Char) (x : Nat)
    (hall : ∀ c ∈ ds, c.isDigit = true)
    (hrest : ∀ c, rest.head? = some c → c.isDigit = false) :
    leadingInt (ds ++ rest) x = none ∨ ∃ v, leadingInt (ds ++ rest) x = some (v, rest) := by
  induction ds generalizing x with
  | nil =>
    cases rest with
    | nil => exact Or.inr ⟨x, rfl⟩
    | cons c cs =>
      have hc := hrest c rfl
      exact Or.inr ⟨x, by simp [leadingInt, hc]⟩
  | cons c cs ih =>
    have hc : c.isDigit = true := hall c (List.mem_cons_self _ _)
    have ih2 := fun y => ih y (fun d hd => hall d (List.mem_cons_of_mem _ hd))
    simp only [List.cons_append, leadingInt, hc, if_true]
    split_ifs
    · exact Or.inl rfl
    · exact Or.inl rfl
    · exact ih2 _

/-- A run of digits, followed by nothing or by the letter `d`, is not a duration
for `ParseDuration`: the unit is missing or unknown. -/
theorem parseDurationLoop_digits (fuel : Nat) (ds rest : List Char) (d : Nat)
    (hne : ds ≠ []) (hall : ∀ c ∈ ds, c.isDigit = true)
    (hrest : rest = [] ∨ rest = ['d']) :
    parseDurationLoop (fuel + 1) (ds ++ rest) d = none := by
  obtain ⟨c, cs, rfl⟩ := List.exists_cons_of_ne_nil hne
  have hc : c.isDigit = true := hall c (List.mem_cons_self _ _)
  rcases hrest with hr2 | hr2
  · subst hr2
    have hr : ∀ x : Char, ([] : List Char).head? = some x → x.isDigit = false := by
      intro x hx
      cases hx
    rcases leadingInt_digits (c :: cs) [] 0 hall hr with h | ⟨v, h⟩
    · rw [List.append_nil] at h ⊢
      simp only [parseDurationLoop, h]
      split_ifs <;> rfl
    · rw [List.append_nil] at h ⊢
      simp only [parseDurationLoop, h]
      simp
  · subst hr2
    have hr : ∀ x : Char, (['d'] : List Char).head? = some x → x.isDigit = false := by
      intro x hx
      injection hx with hx
      rw [← hx]
      decide
    rcases leadingInt_digits (c :: cs) ['d'] 0 hall hr with h | ⟨v, h⟩
    · rw [List.cons_append] at h ⊢
      simp only [parseDurationLoop, h]
      split_ifs <;> rfl
    · rw [List.cons_append] at h ⊢
      have hu : unitMap (String.mk ['d']) = none := by decide
      have hd1 : ('d' : Char).isDigit = false := by decide
      have hd2 : ¬ ('d' : Char) = '.' := by decide
      simp only [parseDurationLoop, h]
      simp [hd1, hd2, hu]

theorem splitSign_of_digit (c : Char) (cs : List Char) (hc : c.isDigit = true) :
    splitSign (c :: cs) = (false, c :: cs) := by
  have h1 : c ≠ '-' := by
    rintro rfl
    revert hc
    decide
  have h2 : c ≠ '+' := by
    rintro rfl
    revert hc
    decide
  unfold splitSign
  split
  · rename_i heq
    injection heq with ha hb
    exact absurd ha h1
  · rename_i heq
    injection heq with ha hb
    exact absurd ha h2
  · rfl

/-- The sign of a numeral: a minus, or nothing. -/
theorem splitSign_signed (neg : Bool) (ds rest : List Char) (hne : ds ≠ [])
    (hall : ∀ c ∈ ds, c.isDigit = true) :
    splitSign ((if neg then ['-'] else []) ++ ds ++ rest) = (neg, ds ++ rest) := by
  obtain ⟨c, cs, rfl⟩ := List.exists_cons_of_ne_nil hne
  cases neg
  · exact splitSign_of_digit c (cs ++ rest) (hall c (List.mem_cons_self _ _))
  · rfl

theorem wrap64_of_range (x : Int) (h1 : -9223372036854775808 ≤ x)
    (h2 : x ≤ 9223372036854775807) : wrap64 x = x := by
  unfold wrap64
  omega

theorem ParseDuration_numeral_d (neg : Bool) (ds : List Char) (hne : ds ≠ [])
    (hall : ∀ c ∈ ds, c.isDigit = true) :
    ParseDuration (String.mk ((if neg then ['-'] else []) ++ ds ++ ['d'])) = none := by
  have hs := splitSign_signed neg ds ['d'] hne hall
  have hl := parseDurationLoop_digits (ds ++ ['d']).length ds ['d'] 0 hne hall (Or.inr rfl)
  obtain ⟨c, cs, rfl⟩ := List.exists_cons_of_ne_nil hne
  unfold ParseDuration
  simp only [hs, hl]
  simp

theorem ParseDuration_numeral (neg : Bool) (ds : List Char) (hne : ds ≠ [])
    (hall : ∀ c ∈ ds, c.isDigit = true) :
    ParseDuration (String.mk ((if neg then ['-'] else []) ++ ds)) =
      if ds = ['0'] then some 0 else none := by
  have hs := splitSign_signed neg ds [] hne hall
  have hl := parseDurationLoop_digits (ds ++ []).length ds [] 0 hne hall (Or.inl rfl)
  simp only [List.append_nil] at hs hl
  unfold ParseDuration
  simp only [hs, hl]
  by_cases h : ds = ['0']
  · simp [h]
  · simp [h, hne]

theorem all_isDigit (ds : List Char) (hall : ∀ c ∈ ds, c.isDigit = true) :
    ds.all Char.isDigit = true := by
  simpa using hall

theorem Atoi_numeral (neg : Bool) (ds : List Char) (hne : ds ≠ [])
    (hall : ∀ c ∈ ds, c.isDigit = true) (hmax : digitsValue ds ≤ 9223372036854775807) :
    Atoi (String.mk ((if neg then ['-'] else []) ++ ds)) =
      some (if neg then -(digitsValue ds : Int) else (digitsValue ds : Int)) := by
  have hs := splitSign_signed neg ds [] hne hall
  simp only [List.append_nil] at hs
  have ha := all_isDigit ds hall
  have hmax2 : (digitsValue ds : Int) ≤ 9223372036854775807 := by exact_mod_cast hmax
  have h0 : (0 : Int) ≤ (digitsValue ds : Int) := Int.natCast_nonneg _
  unfold Atoi
  simp only [hs, ha]
  cases neg
  · simp [hne]
    omega
  · simp [hne]
    omega

theorem getLast_numeral (neg : Bool) (ds : List Char)
    (hall : ∀ c ∈ ds, c.isDigit = true) :
    ((if neg then ['-'] else []) ++ ds).getLast? ≠ some 'd' := by
  intro h
  have hm : 'd' ∈ ds := by
    have h2 := List.mem_of_getLast?_eq_some h
    rcases List.mem_append.1 h2 with h3 | h3
    · cases neg
      · simp at h3
      · simp at h3
    · exact h3
  have := hall _ hm
  revert this
  decide

/-- An integer followed by the letter `d` is read as a number of days, wrapped
around at 64 bits. -/
theorem getEnvDuration_days (env : String → String) (key : String) (dflt : Int)
    (neg : Bool) (ds : List Char) (hne : ds ≠ []) (hall : ∀ c ∈ ds, c.isDigit = true)
    (hmax : digitsValue ds ≤ 9223372036854775807)
    (hv : env key = String.mk ((if neg then ['-'] else []) ++ ds ++ ['d'])) :
    getEnvDuration env key dflt =
      wrap64 (wrap64 ((if neg then -(digitsValue ds : Int) else (digitsValue ds : Int)) * 24)
        * 3600000000000) := by
  have hp := ParseDuration_numeral_d neg ds hne hall
  have ha := Atoi_numeral neg ds hne hall hmax
  have hne2 : String.mk ((if neg then ['-'] else []) ++ ds ++ ['d']) ≠ "" := by
    intro h
    have := congrArg String.data h
    simp at this
  unfold getEnvDuration
  simp only [hv, hp, if_neg hne2]
  rw [List.getLast?_append_of_ne_nil _ (by simp), List.dropLast_concat]
  simp only [List.getLast?_singleton, if_true, ha]

/-- A bare integer is read as a number of seconds, wrapped around at 64 bits. -/
theorem getEnvDuration_seconds (env : String → String) (key : String) (dflt : Int)
    (neg : Bool) (ds : List Char) (hne : ds ≠ []) (hall : ∀ c ∈ ds, c.isDigit = true)
    (hmax : digitsValue ds ≤ 9223372036854775807)
    (hv : env key = String.mk ((if neg then ['-'] else []) ++ ds)) :
    getEnvDuration env key dflt =
      wrap64 ((if neg then -(digitsValue ds : Int) else (digitsValue ds : Int))
        * 1000000000) := by
  have hp := ParseDuration_numeral neg ds hne hall
  have ha := Atoi_numeral neg ds hne hall hmax
  have hl := getLast_numeral neg ds hall
  have hne2 : String.mk ((if neg then ['-'] else []) ++ ds) ≠ "" := by
    intro h
    have := congrArg String.data h
    simp [hne] at this
  unfold getEnvDuration
  simp only [hv, hp, if_neg hne2, if_neg hl, ha]
  by_cases h : ds = ['0']
  · subst h
    cases neg <;> simp [digitsValue, wrap64]
  · simp [h]

theorem ParseDuration_empty : ParseDuration "" = none := by
  decide

/-- In range, the products of `getEnvDuration` do not wrap around. -/
theorem days_in_range (n : Int) (h1 : -106751 ≤ n) (h2 : n ≤ 106751) :
    wrap64 (wrap64 (n * 24) * 3600000000000) = n * 24 * 3600000000000 := by
  rw [wrap64_of_range (n * 24) (by omega) (by omega)]
  exact wrap64_of_range _ (by omega) (by omega)

theorem seconds_in_range (n : Int) (h1 : -9223372036 ≤ n) (h2 : n ≤ 9223372036) :
    wrap64 (n * 1000000000) = n * 1000000000 :=
  wrap64_of_range _ (by omega) (by omega)

/-! ## Claims C21 to C29 -/

/-- C21. For every request the optional gate invokes the next handler and neither
aborts nor writes a response. When the validation succeeds it does exactly what
the strict gate does: the next handler runs on the same context, in which
`IsAuthenticated` is true and `GetUser` returns the identity of the claims. When
the validation fails the next handler runs on the context unchanged, so that
`IsAuthenticated` is false for a request that carried no identity before. -/
theorem authMiddlewareOptional_spec (E : Primitives) (j : jwtService) (now : Int)
    (next : Context → Context) (c : Context) :
    (∃ c2, AuthMiddlewareOptional E j now next c = next c2 ∧
      c2.aborted = c.aborted ∧ c2.response = c.response ∧ c2.headers = c.headers) ∧
    (∀ C, ValidateTokenFromHeader E j c now = .ok C →
      AuthMiddlewareOptional E j now next c = AuthMiddleware E j now next c ∧
      ∃ c2, AuthMiddlewareOptional E j now next c = next c2 ∧
        IsAuthenticated c2 = true ∧ GetUser c2 = some (extractUserFromClaims C) ∧
        GetClaims c2 = some C) ∧
    (∀ e, ValidateTokenFromHeader E j c now = .error e →
      AuthMiddlewareOptional E j now next c = next c ∧
      (c.Get "user" = none → IsAuthenticated c = false)) := by
  refine ⟨?_, ?_, ?_⟩
  · unfold AuthMiddlewareOptional
    cases ValidateTokenFromHeader E j c now with
    | error e => exact ⟨c, rfl, rfl, rfl, rfl⟩
    | ok C => exact ⟨_, rfl, rfl, rfl, rfl⟩
  · intro C h
    refine ⟨by rw [AuthMiddlewareOptional, AuthMiddleware, h], ?_⟩
    rw [AuthMiddlewareOptional, h]
    exact ⟨_, rfl, rfl, rfl, rfl⟩
  · intro e h
    refine ⟨by rw [AuthMiddlewareOptional, h], ?_⟩
    intro hu
    rw [IsAuthenticated, hu]
    rfl

/-- C22. For every request context and allow-list, each role gate ends in the
unauthorized outcome (401, aborted) when the role key is absent, in the forbidden
outcome (403, aborted) when the role value is not a string or when no entry of the
allow-list matches it, and continues to the next handler only when some entry
matches. In the first three cases the outcome does not depend on the next
handler, which is not run; with an empty allow-list a gate always aborts. -/
theorem roleGates_outcomes (F : CaseFolding) (roles : List String)
    (next : Context → Context) (c : Context) :
    (c.Get "role" = none →
      RequireRole F roles next c
        = (c.JSON 401 [("error", .str "Usuário não autenticado")]).Abort ∧
      RequireRoleStrict roles next c
        = (c.JSON 401 [("error", .str "Usuário não autenticado")]).Abort) ∧
    (∀ v, c.Get "role" = some v → (∀ s, v ≠ .value (.str s)) →
      RequireRole F roles next c = (c.JSON 403 [("error", .str "Role inválida")]).Abort ∧
      RequireRoleStrict roles next c
        = (c.JSON 403 [("error", .str "Role inválida")]).Abort) ∧
    (∀ r, c.Get "role" = some (.value (.str r)) →
      ((∀ a ∈ roles, EqualFold F r a = false) →
        RequireRole F roles next c
          = (c.JSON 403 [("error", .str "Acesso negado: permissões insuficientes")]).Abort) ∧
      (r ∉ roles →
        RequireRoleStrict roles next c
          = (c.JSON 403 [("error", .str "Acesso negado: permissões insuficientes")]).Abort) ∧
      ((∃ a ∈ roles, EqualFold F r a = true) → RequireRole F roles next c = next c) ∧
      (r ∈ roles → RequireRoleStrict roles next c = next c)) ∧
    ((RequireRole F [] next c).aborted = true ∧ (RequireRoleStrict [] next c).aborted = true ∧
      ∀ other : Context → Context,
        RequireRole F [] other c = RequireRole F [] next c ∧
        RequireRoleStrict [] other c = RequireRoleStrict [] next c) := by
  refine ⟨?_, ?_, ?_, ?_⟩
  · intro h
    constructor
    · rw [RequireRole, h]
    · rw [RequireRoleStrict, h]
  · intro v hv hs
    constructor
    · rw [RequireRole, hv]
      cases v with
      | value w =>
        cases w with
        | str s => exact absurd rfl (hs s)
        | _ => rfl
      | _ => rfl
    · rw [RequireRoleStrict, hv]
      cases v with
      | value w =>
        cases w with
        | str s => exact absurd rfl (hs s)
        | _ => rfl
      | _ => rfl
  · intro r hr
    refine ⟨?_, ?_, ?_, ?_⟩
    · intro h
      rw [RequireRole_of_role F roles next c r hr, if_neg]
      simp only [List.any_eq_true, not_exists, not_and]
      intro a ha
      simp [h a ha]
    · intro h
      rw [RequireRoleStrict_of_role roles next c r hr, if_neg]
      rw [any_decide_eq]
      exact h
    · rintro ⟨a, ha, hm⟩
      rw [RequireRole_of_role F roles next c r hr, if_pos]
      exact List.any_eq_true.mpr ⟨a, ha, hm⟩
    · intro h
      rw [RequireRoleStrict_of_role roles next c r hr, if_pos ((any_decide_eq r roles).mpr h)]
  · have key : ∀ f : Context → Context,
        (RequireRole F [] f c).aborted = true ∧ (RequireRoleStrict [] f c).aborted = true ∧
        RequireRole F [] f c = RequireRole F [] (fun x => x) c ∧
        RequireRoleStrict [] f c = RequireRoleStrict [] (fun x => x) c := by
      intro f
      unfold RequireRole RequireRoleStrict
      cases hg : c.Get "role" with
      | none => exact ⟨rfl, rfl, rfl, rfl⟩
      | some v =>
        cases v with
        | value w =>
          cases w with
          | str s => exact ⟨rfl, rfl, rfl, rfl⟩
          | _ => exact ⟨rfl, rfl, rfl, rfl⟩
        | _ => exact ⟨rfl, rfl, rfl, rfl⟩
    refine ⟨(key next).1, (key next).2.1, ?_⟩
    intro other
    exact ⟨(key other).2.2.1.trans (key next).2.2.1.symm,
      (key other).2.2.2.trans (key next).2.2.2.symm⟩

/-- C23. For every string role `r` in the context and every allow-list `L`,
`RequireRole` authorizes (runs the next handler, whatever it is) if and only if
some element of `L` equals `r` ignoring letter case, which on ASCII strings is the
equality of the two strings once the letters `A` to `Z` are put in lower case, and
`RequireRoleStrict` authorizes if and only if some element of `L` equals `r`
exactly; hence whatever `RequireRoleStrict` authorizes `RequireRole` authorizes
too. With `L = {"admin"}` and `r = "Admin"` the first gate authorizes and the
strict gate forbids; the first gate authorizes `r = "admin"` with `L = {"ADMIN"}`
and forbids `r = "guest"` with `L = {"admin"}`. -/
theorem roleGates_authorize_iff (F : CaseFolding) (roles : List String) (c : Context)
    (r : String) (hr : c.Get "role" = some (.value (.str r))) :
    ((∀ next, RequireRole F roles next c = next c) ↔
      ∃ a ∈ roles, equalIgnoringCase F r a) ∧
    (∀ a, isASCII r = true → isASCII a = true →
      (equalIgnoringCase F r a ↔ ToLower r = ToLower a)) ∧
    (isASCII r = true → (∀ a ∈ roles, isASCII a = true) →
      ((∀ next, RequireRole F roles next c = next c) ↔ ∃ a ∈ roles, ToLower a = ToLower r)) ∧
    ((∀ next, RequireRoleStrict roles next c = next c) ↔ r ∈ roles) ∧
    ((∀ next, RequireRoleStrict roles next c = next c) →
      ∀ next, RequireRole F roles next c = next c) ∧
    (r = "Admin" →
      (∀ next, RequireRole F ["admin"] next c = next c) ∧
      ∀ next, RequireRoleStrict ["admin"] next c
        = (c.JSON 403 [("error", .str "Acesso negado: permissões insuficientes")]).Abort) ∧
    (r = "admin" → ∀ next, RequireRole F ["ADMIN"] next c = next c) ∧
    (r = "guest" → ∀ next, RequireRole F ["admin"] next c
      = (c.JSON 403 [("error", .str "Acesso negado: permissões insuficientes")]).Abort) := by
  have h1 : ∀ L : List String,
      (∀ next, RequireRole F L next c = next c) ↔ ∃ a ∈ L, EqualFold F r a = true := by
    intro L
    constructor
    · intro h
      by_contra hno
      have hx := h (fun x => { x with aborted := false })
      rw [RequireRole_of_role F L _ c r hr, if_neg] at hx
      · exact abort_ne_next c _ _ hx
      · intro hany
        obtain ⟨a, ha, hm⟩ := List.any_eq_true.mp hany
        exact hno ⟨a, ha, hm⟩
    · rintro ⟨a, ha, hm⟩ next
      rw [RequireRole_of_role F L next c r hr, if_pos (List.any_eq_true.mpr ⟨a, ha, hm⟩)]
  have h2 : ∀ L : List String, (∀ next, RequireRoleStrict L next c = next c) ↔ r ∈ L := by
    intro L
    constructor
    · intro h
      by_contra hno
      have hx := h (fun x => { x with aborted := false })
      rw [RequireRoleStrict_of_role L _ c r hr,
        if_neg (fun hany => hno ((any_decide_eq r L).mp hany))] at hx
      exact abort_ne_next c _ _ hx
    · intro hmem next
      rw [RequireRoleStrict_of_role L next c r hr, if_pos ((any_decide_eq r L).mpr hmem)]
  refine ⟨?_, ?_, ?_, h2 roles, ?_, ?_, ?_, ?_⟩
  · rw [h1 roles]
    constructor
    · rintro ⟨a, ha, hm⟩
      exact ⟨a, ha, (EqualFold_iff F r a).mp hm⟩
    · rintro ⟨a, ha, hm⟩
      exact ⟨a, ha, (EqualFold_iff F r a).mpr hm⟩
  · intro a hra ha
    rw [← EqualFold_iff]
    exact EqualFold_ascii F r a hra ha
  · intro hra hL
    rw [h1 roles]
    constructor
    · rintro ⟨a, ha, hm⟩
      exact ⟨a, ha, ((EqualFold_ascii F r a hra (hL a ha)).mp hm).symm⟩
    · rintro ⟨a, ha, hm⟩
      exact ⟨a, ha, (EqualFold_ascii F r a hra (hL a ha)).mpr hm.symm⟩
  · intro hs
    exact (h1 roles).mpr ⟨r, (h2 roles).mp hs, EqualFold_self F r⟩
  · intro hA
    subst hA
    constructor
    · exact (h1 ["admin"]).mpr ⟨"admin", by simp,
        (EqualFold_ascii F "Admin" "admin" (by decide) (by decide)).mpr (by decide)⟩
    · intro next
      rw [RequireRoleStrict_of_role ["admin"] next c "Admin" hr, if_neg]
      rw [any_decide_eq]
      decide
  · intro hA
    subst hA
    exact (h1 ["ADMIN"]).mpr ⟨"ADMIN", by simp,
      (EqualFold_ascii F "admin" "ADMIN" (by decide) (by decide)).mpr (by decide)⟩
  · intro hA next
    subst hA
    rw [RequireRole_of_role F ["admin"] next c "guest" hr, if_neg]
    intro hany
    obtain ⟨a, ha, hm⟩ := List.any_eq_true.mp hany
    rw [List.mem_singleton] at ha
    subst ha
    exact absurd ((EqualFold_ascii F "guest" "admin" (by decide) (by decide)).mp hm) (by decide)

/-- The gates of `roleGates_authorize_iff` on a context whose role is `"Admin"`,
with the allow-list `{"admin"}` and the table of the ASCII letters. -/
theorem roleGates_authorize_iff_witness :
    adminContext.Get "role" = some (.value (.str "Admin")) ∧
    (∀ next, RequireRole refFolding ["admin"] next adminContext = next adminContext) ∧
    (∀ next, RequireRoleStrict ["admin"] next adminContext
      = (adminContext.JSON 403
          [("error", .str "Acesso negado: permissões insuficientes")]).Abort) ∧
    ((∀ next, RequireRoleStrict ["admin"] next adminContext = next adminContext) ↔
      "Admin" ∈ ["admin"]) :=
  ⟨rfl,
    ((roleGates_authorize_iff refFolding ["admin"] adminContext "Admin" rfl).2.2.2.2.2.1 rfl).1,
    ((roleGates_authorize_iff refFolding ["admin"] adminContext "Admin" rfl).2.2.2.2.2.1 rfl).2,
    (roleGates_authorize_iff refFolding ["admin"] adminContext "Admin" rfl).2.2.2.1⟩

/-- C28. After the strict gate succeeds on validated claims `C`, the context the
next handler receives holds the role key with a string value: the role claim when
it is a string, the empty string when the claim is missing or is not a string.
Hence a role gate run on that context either runs its next handler or ends in the
forbidden outcome for insufficient permissions, never in the unauthorized or the
invalid-role outcome; and for a token without a usable role claim it authorizes
exactly when the allow-list contains the empty string. -/
theorem strictGate_role_is_string (E : Primitives) (j : jwtService) (now : Int)
    (next : Context → Context) (c : Context) (C : Claims)
    (h : ValidateTokenFromHeader E j c now = .ok C) :
    ∃ c2 r, AuthMiddleware E j now next c = next c2 ∧
      c2.Get "role" = some (.value (.str r)) ∧
      (r = match C.get "role" with
        | some (.str s) => s
        | _ => "") ∧
      ∀ (F : CaseFolding) (roles : List String),
        (∀ next2, RequireRole F roles next2 c2 = next2 c2 ∨
          RequireRole F roles next2 c2
            = (c2.JSON 403 [("error", .str "Acesso negado: permissões insuficientes")]).Abort) ∧
        (∀ next2, RequireRoleStrict roles next2 c2 = next2 c2 ∨
          RequireRoleStrict roles next2 c2
            = (c2.JSON 403 [("error", .str "Acesso negado: permissões insuficientes")]).Abort) ∧
        ((∀ s, C.get "role" ≠ some (.str s)) →
          ((∀ next2, RequireRole F roles next2 c2 = next2 c2) ↔ "" ∈ roles) ∧
          ((∀ next2, RequireRoleStrict roles next2 c2 = next2 c2) ↔ "" ∈ roles)) := by
  obtain ⟨c2, hc2, hrole⟩ : ∃ c2, AuthMiddleware E j now next c = next c2 ∧
      c2.Get "role" = some (.value (.str (extractUserFromClaims C).Role)) :=
    ⟨(((((c.Set "user_claims" (.claims C)).Set "user"
      (.user (extractUserFromClaims C))).Set "user_id"
      (.value (extractUserFromClaims C).UserID)).Set "username"
      (.value (.str (extractUserFromClaims C).Username))).Set "email"
      (.value (.str (extractUserFromClaims C).Email))).Set "role"
      (.value (.str (extractUserFromClaims C).Role)), by rw [AuthMiddleware, h], rfl⟩
  refine ⟨c2, (extractUserFromClaims C).Role, hc2, hrole, extractUser_Role C, ?_⟩
  intro F roles
  refine ⟨?_, ?_, ?_⟩
  · intro next2
    rw [RequireRole_of_role F roles next2 _ _ hrole]
    split_ifs
    · exact Or.inl rfl
    · exact Or.inr rfl
  · intro next2
    rw [RequireRoleStrict_of_role roles next2 _ _ hrole]
    split_ifs
    · exact Or.inl rfl
    · exact Or.inr rfl
  · intro hno
    have hr : (extractUserFromClaims C).Role = "" := by
      rw [extractUser_Role]
      split
      · rename_i s hs
        exact absurd hs (hno s)
      · rfl
    rw [hr] at hrole
    constructor
    · constructor
      · intro hall
        by_contra hmem
        have hx := hall (fun x => { x with aborted := false })
        rw [RequireRole_of_role F roles _ _ "" hrole, if_neg] at hx
        · exact abort_ne_next _ _ _ hx
        · intro hany
          obtain ⟨a, ha, hm⟩ := List.any_eq_true.mp hany
          rw [(EqualFold_empty F a).mp hm] at ha
          exact hmem ha
      · intro hmem next2
        rw [RequireRole_of_role F roles next2 _ "" hrole,
          if_pos (List.any_eq_true.mpr ⟨"", hmem, EqualFold_self F ""⟩)]
    · constructor
      · intro hall
        by_contra hmem
        have hx := hall (fun x => { x with aborted := false })
        rw [RequireRoleStrict_of_role roles _ _ "" hrole,
          if_neg (fun hany => hmem ((any_decide_eq "" roles).mp hany))] at hx
        exact abort_ne_next _ _ _ hx
      · intro hmem next2
        rw [RequireRoleStrict_of_role roles next2 _ "" hrole,
          if_pos ((any_decide_eq "" roles).mpr hmem)]

theorem strictGate_role_is_string_witness :
    ∃ C : Claims,
      ValidateTokenFromHeader refPrimitives svcDefault
        (requestWith ("Bearer" ++ " " ++ SignedString refPrimitives "HS256"
          [("user_id", .num 7), ("exp", .num (1700003600 : Int))] svcDefault.secretKey))
        1700000000000000000 = .ok C ∧
      ∃ c2 r, AuthMiddleware refPrimitives svcDefault 1700000000000000000 id
          (requestWith ("Bearer" ++ " " ++ SignedString refPrimitives "HS256"
            [("user_id", .num 7), ("exp", .num (1700003600 : Int))] svcDefault.secretKey))
          = id c2 ∧
        c2.Get "role" = some (.value (.str r)) ∧
        (r = match C.get "role" with
          | some (.str s) => s
          | _ => "") ∧
        ∀ (F : CaseFolding) (roles : List String),
          (∀ next2, RequireRole F roles next2 c2 = next2 c2 ∨
            RequireRole F roles next2 c2
              = (c2.JSON 403
                  [("error", .str "Acesso negado: permissões insuficientes")]).Abort) ∧
          (∀ next2, RequireRoleStrict roles next2 c2 = next2 c2 ∨
            RequireRoleStrict roles next2 c2
              = (c2.JSON 403
                  [("error", .str "Acesso negado: permissões insuficientes")]).Abort) ∧
          ((∀ s, C.get "role" ≠ some (.str s)) →
            ((∀ next2, RequireRole F roles next2 c2 = next2 c2) ↔ "" ∈ roles) ∧
            ((∀ next2, RequireRoleStrict roles next2 c2 = next2 c2) ↔ "" ∈ roles)) := by
  obtain ⟨d, -, hh⟩ := ref_request_validates
    [("user_id", .num 7), ("exp", .num (1700003600 : Int))] 1700000000000000000
    (validate_fresh _ _ 1700003600 rfl rfl (by decide))
  exact ⟨d, hh, strictGate_role_is_string refPrimitives svcDefault 1700000000000000000 id
    _ d hh⟩

/-- C24, the code at two failing inputs. After the strict gate has validated a
token whose `user_id` is the string `"42abc"`, `GetUserIDAsInt` returns `(42,
true)` while `GetUserIDAsString` returns `"42abc"`: the string is not the numeral
of 42. After a token whose `user_id` is the number 1234567, `GetUserIDAsInt`
returns 1234567 while `GetUserIDAsString` returns `"1.234567e+06"`. -/
theorem subject_id_forms_disagree :
    (∃ C : Claims,
      ValidateTokenFromHeader refPrimitives svcDefault
        (requestWith ("Bearer" ++ " " ++ SignedString refPrimitives "HS256"
          [("user_id", .str "42abc"), ("exp", .num (1700003600 : Int))]
          svcDefault.secretKey)) 1700000000000000000 = .ok C ∧
      GetUserIDAsInt (AuthMiddleware refPrimitives svcDefault 1700000000000000000 id
        (requestWith ("Bearer" ++ " " ++ SignedString refPrimitives "HS256"
          [("user_id", .str "42abc"), ("exp", .num (1700003600 : Int))]
          svcDefault.secretKey))) = some 42 ∧
      ∀ other, GetUserIDAsString other
        (AuthMiddleware refPrimitives svcDefault 1700000000000000000 id
          (requestWith ("Bearer" ++ " " ++ SignedString refPrimitives "HS256"
            [("user_id", .str "42abc"), ("exp", .num (1700003600 : Int))]
            svcDefault.secretKey))) = some "42abc") ∧
    (∃ C : Claims,
      ValidateTokenFromHeader refPrimitives svcDefault
        (requestWith ("Bearer" ++ " " ++ SignedString refPrimitives "HS256"
          [("user_id", .num (1234567 : Int)), ("exp", .num (1700003600 : Int))]
          svcDefault.secretKey)) 1700000000000000000 = .ok C ∧
      GetUserIDAsInt (AuthMiddleware refPrimitives svcDefault 1700000000000000000 id
        (requestWith ("Bearer" ++ " " ++ SignedString refPrimitives "HS256"
          [("user_id", .num (1234567 : Int)), ("exp", .num (1700003600 : Int))]
          svcDefault.secretKey))) = some 1234567 ∧
      ∀ other, GetUserIDAsString other
        (AuthMiddleware refPrimitives svcDefault 1700000000000000000 id
          (requestWith ("Bearer" ++ " " ++ SignedString refPrimitives "HS256"
            [("user_id", .num (1234567 : Int)), ("exp", .num (1700003600 : Int))]
            svcDefault.secretKey))) = some "1.234567e+06") := by
  constructor
  · obtain ⟨d, hd, hh⟩ := ref_request_validates
      [("user_id", .str "42abc"), ("exp", .num (1700003600 : Int))] 1700000000000000000
      (validate_fresh _ _ 1700003600 rfl rfl (by decide))
    have hget := AuthMiddleware_user_id refPrimitives svcDefault 1700000000000000000 _ d hh
    rw [hd] at hget
    refine ⟨d, hh, ?_, ?_⟩
    · rw [GetUserIDAsInt, hget]
      decide
    · intro other
      rw [GetUserIDAsString, hget]
      rfl
  · obtain ⟨d, hd, hh⟩ := ref_request_validates
      [("user_id", .num (1234567 : Int)), ("exp", .num (1700003600 : Int))]
      1700000000000000000 (validate_fresh _ _ 1700003600 rfl rfl (by decide))
    have hget := AuthMiddleware_user_id refPrimitives svcDefault 1700000000000000000 _ d hh
    rw [hd] at hget
    refine ⟨d, hh, ?_, ?_⟩
    · rw [GetUserIDAsInt, hget]
      simp
    · intro other
      rw [GetUserIDAsString, hget]
      simp [Sprintf_v]
      decide

/-- C25: `NewJwtService` panics exactly when the secret key is empty both in the
configuration (a nil configuration counts as an empty one) and in the environment;
in every other case it returns a service whose access key is that secret, the one
of the configuration when it has one and otherwise the one of the environment, and
whose issuer and refresh key are not empty. -/
theorem newJwtService_panics_iff (env : String → String) (config : Option JwtConfig) :
    (NewJwtService env config = none ↔
      (config.getD ⟨"", "", 0, 0, ""⟩).SecretKey = "" ∧ env "JWT_SECRET_KEY" = "") ∧
    (¬ ((config.getD ⟨"", "", 0, 0, ""⟩).SecretKey = "" ∧ env "JWT_SECRET_KEY" = "") →
      ∃ svc, NewJwtService env config = some svc ∧
        svc.secretKey =
          (if (config.getD ⟨"", "", 0, 0, ""⟩).SecretKey = "" then env "JWT_SECRET_KEY"
            else (config.getD ⟨"", "", 0, 0, ""⟩).SecretKey) ∧
        svc.secretKey ≠ "" ∧ svc.issuer ≠ "" ∧ svc.refreshSecretKey ≠ "") := by
  rw [NewJwtService_eq]
  generalize config.getD ⟨"", "", 0, 0, ""⟩ = cfg
  by_cases h1 : cfg.SecretKey = ""
  · by_cases h2 : env "JWT_SECRET_KEY" = ""
    · simp [h1, h2]
    · simp only [h1, h2, if_true, if_false, and_false, not_false_eq_true, true_and,
        forall_true_left, and_true, false_iff]
      refine ⟨by simp, _, rfl, rfl, h2, ?_, ?_⟩
      · dsimp only
        split_ifs <;> first | assumption | decide
      · dsimp only
        split_ifs <;> first | exact append_refresh_ne_empty _ | assumption
  · simp only [h1, if_false, false_and, not_false_eq_true, forall_true_left, false_iff]
    refine ⟨by simp, _, rfl, rfl, h1, ?_, ?_⟩
    · dsimp only
      split_ifs <;> first | assumption | decide
    · dsimp only
      split_ifs <;> first | exact append_refresh_ne_empty _ | assumption

/-- The gate of `newJwtService_panics_iff` at work: a secret in the environment
alone is enough, and it becomes the access key. -/
theorem newJwtService_panics_iff_witness :
    ∃ svc, NewJwtService (envWith "JWT_SECRET_KEY" "s3cret") none = some svc ∧
      svc.secretKey = "s3cret" ∧ svc.secretKey ≠ "" ∧ svc.issuer ≠ "" ∧
      svc.refreshSecretKey ≠ "" :=
  (newJwtService_panics_iff (envWith "JWT_SECRET_KEY" "s3cret") none).2 (by decide)

/-- C26: for every non-empty secret (of the configuration, or else of the
environment), when no refresh secret is configured, neither in the configuration
nor in the environment, `NewJwtService` returns a service whose refresh key is the
secret followed by `-refresh`, and that key differs from the access key. -/
theorem newJwtService_refresh_fallback (env : String → String) (config : Option JwtConfig)
    (hsecret : (if (config.getD ⟨"", "", 0, 0, ""⟩).SecretKey = "" then env "JWT_SECRET_KEY"
      else (config.getD ⟨"", "", 0, 0, ""⟩).SecretKey) ≠ "")
    (hcfg : (config.getD ⟨"", "", 0, 0, ""⟩).RefreshSecretKey = "")
    (henv : env "JWT_REFRESH_SECRET_KEY" = "") :
    ∃ svc, NewJwtService env config = some svc ∧
      svc.secretKey =
        (if (config.getD ⟨"", "", 0, 0, ""⟩).SecretKey = "" then env "JWT_SECRET_KEY"
          else (config.getD ⟨"", "", 0, 0, ""⟩).SecretKey) ∧
      svc.refreshSecretKey = svc.secretKey ++ "-refresh" ∧
      svc.refreshSecretKey ≠ svc.secretKey := by
  rw [NewJwtService_eq, if_neg hsecret]
  refine ⟨_, rfl, rfl, ?_, ?_⟩
  · simp [hcfg, henv]
  · simp only [hcfg, henv, if_true]
    exact append_refresh_ne _

/-- The fallback of `newJwtService_refresh_fallback` on a configuration that only
carries the secret. -/
theorem newJwtService_refresh_fallback_witness :
    ∃ svc, NewJwtService (fun _ => "") (some ⟨"s3cret", "", 0, 0, ""⟩) = some svc ∧
      svc.secretKey = "s3cret" ∧
      svc.refreshSecretKey = svc.secretKey ++ "-refresh" ∧
      svc.refreshSecretKey ≠ svc.secretKey :=
  newJwtService_refresh_fallback (fun _ => "") (some ⟨"s3cret", "", 0, 0, ""⟩)
    (by decide) rfl rfl

/-- C29 (refuted by the code): `Where` stores all the arguments of a call in one
flat list, while `Find`, `First` and `Count` read one argument per condition at the
index of the condition. A condition without arguments makes the three of them read
out of bounds, and after a condition with two arguments the next condition receives
the second argument of the first one. -/
theorem queryBuilder_args_misaligned :
    (NewQueryBuilder.Where "deleted_at IS NULL" []).Find = none ∧
    (NewQueryBuilder.Where "deleted_at IS NULL" []).First = none ∧
    (NewQueryBuilder.Where "deleted_at IS NULL" []).Count = none ∧
    ((NewQueryBuilder.Where "a = ? AND b = ?" [.num 1, .num 2]).Where "c = ?" [.num 3]).Find =
      some { wheres := [("a = ? AND b = ?", .num 1), ("c = ?", .num 2)], preloads := [],
             order := none, limit := none, offset := none } := by
  decide

/-- C27 (amended): for the text `v` of a duration-valued setting, `getEnvDuration`
returns the default when `v` is empty; the duration that `time.ParseDuration` reads
when `v` is a standard duration expression; `n` days when `v` is an optional minus
sign, a run of decimal digits of value at most 106751 and the letter `d`; `n`
seconds when `v` is an optional minus sign and a run of decimal digits of value at
most 9223372036; and the default when `v` is read neither as a duration nor as a
64-bit integer, with or without a final `d`. `NewJwtService` supplies 15 minutes for
the access ttl and 7 days for the refresh ttl. -/
theorem getEnvDuration_shapes (env : String → String) (key : String) (dflt : Int)
    (config : Option JwtConfig) :
    (env key = "" → getEnvDuration env key dflt = dflt) ∧
    (∀ d, ParseDuration (env key) = some d → getEnvDuration env key dflt = d) ∧
    (∀ (neg : Bool) (ds : List Char), ds ≠ [] → (∀ c ∈ ds, c.isDigit = true) →
      digitsValue ds ≤ 106751 →
      env key = String.mk ((if neg then ['-'] else []) ++ ds ++ ['d']) →
      getEnvDuration env key dflt =
        (if neg then -(digitsValue ds : Int) else (digitsValue ds : Int))
          * 24 * 3600000000000) ∧
    (∀ (neg : Bool) (ds : List Char), ds ≠ [] → (∀ c ∈ ds, c.isDigit = true) →
      digitsValue ds ≤ 9223372036 →
      env key = String.mk ((if neg then ['-'] else []) ++ ds) →
      getEnvDuration env key dflt =
        (if neg then -(digitsValue ds : Int) else (digitsValue ds : Int)) * 1000000000) ∧
    (ParseDuration (env key) = none → Atoi (env key) = none →
      ((env key).data.getLast? = some 'd' →
        Atoi (String.mk (env key).data.dropLast) = none) →
      getEnvDuration env key dflt = dflt) ∧
    ((config.getD ⟨"", "", 0, 0, ""⟩).SecretKey ≠ "" →
      (config.getD ⟨"", "", 0, 0, ""⟩).DefaultExpiration = 0 →
      (config.getD ⟨"", "", 0, 0, ""⟩).RefreshExpiration = 0 →
      env "JWT_DEFAULT_EXPIRATION" = "" → env "JWT_REFRESH_EXPIRATION" = "" →
      ∃ svc, NewJwtService env config = some svc ∧
        svc.defaultExpiration = 15 * 60 * 1000000000 ∧
        svc.refreshExpiration = 7 * 24 * 3600 * 1000000000) := by
  refine ⟨?_, ?_, ?_, ?_, ?_, ?_⟩
  · intro h
    simp [getEnvDuration, h]
  · intro d h
    have hne : env key ≠ "" := by
      intro h0
      rw [h0, ParseDuration_empty] at h
      cases h
    simp [getEnvDuration, h, hne]
  · intro neg ds hne hall hmax hv
    rw [getEnvDuration_days env key dflt neg ds hne hall (by omega) hv]
    have h0 : (0 : Int) ≤ (digitsValue ds : Int) := Int.natCast_nonneg _
    have h1 : (digitsValue ds : Int) ≤ 106751 := by exact_mod_cast hmax
    apply days_in_range
    · cases neg
      · simp only [Bool.false_eq_true, if_false]
        omega
      · simp only [if_true]
        omega
    · cases neg
      · simp only [Bool.false_eq_true, if_false]
        omega
      · simp only [if_true]
        omega
  · intro neg ds hne hall hmax hv
    rw [getEnvDuration_seconds env key dflt neg ds hne hall (by omega) hv]
    have h0 : (0 : Int) ≤ (digitsValue ds : Int) := Int.natCast_nonneg _
    have h1 : (digitsValue ds : Int) ≤ 9223372036 := by exact_mod_cast hmax
    apply seconds_in_range
    · cases neg
      · simp only [Bool.false_eq_true, if_false]
        omega
      · simp only [if_true]
        omega
    · cases neg
      · simp only [Bool.false_eq_true, if_false]
        omega
      · simp only [if_true]
        omega
  · intro hp ha hd
    unfold getEnvDuration
    simp only [hp, ha]
    by_cases h0 : env key = ""
    · simp [h0]
    · by_cases hl : (env key).data.getLast? = some 'd'
      · simp [h0, hl, hd hl]
      · simp [h0, hl]
  · intro hs h1 h2 he1 he2
    rw [NewJwtService_eq]
    have hd1 : getEnvDuration env "JWT_DEFAULT_EXPIRATION" 900000000000 = 900000000000 := by
      simp [getEnvDuration, he1]
    have hd2 : getEnvDuration env "JWT_REFRESH_EXPIRATION" 604800000000000
        = 604800000000000 := by
      simp [getEnvDuration, he2]
    simp only [if_neg hs, h1, h2, if_true, hd1, hd2]
    exact ⟨_, rfl, by norm_num, by norm_num⟩

/-- The shapes of `getEnvDuration_shapes` on the setting `7d`: seven days. -/
theorem getEnvDuration_shapes_witness :
    getEnvDuration (envWith "JWT_REFRESH_EXPIRATION" "7d") "JWT_REFRESH_EXPIRATION" 5 =
      604800000000000 :=
  ((getEnvDuration_shapes (envWith "JWT_REFRESH_EXPIRATION" "7d") "JWT_REFRESH_EXPIRATION" 5
    none).2.2.1 false ['7'] (by decide) (by decide) (by decide) (by decide)).trans (by decide)

/-- C27 (counterexample): not every integer gives its number of days or seconds.
The setting `200000d` gives a negative duration, because the product wraps around
at 64 bits; so does the setting `10000000000` read as seconds; and a numeral that
does not fit in 64 bits gives the default. -/
theorem getEnvDuration_wraps :
    getEnvDuration (envWith "JWT_REFRESH_EXPIRATION" "200000d") "JWT_REFRESH_EXPIRATION"
        604800000000000 = -1166744073709551616 ∧
    ¬ (getEnvDuration (envWith "JWT_REFRESH_EXPIRATION" "200000d") "JWT_REFRESH_EXPIRATION"
        604800000000000 = 200000 * 24 * 3600000000000) ∧
    ¬ (getEnvDuration (envWith "JWT_DEFAULT_EXPIRATION" "10000000000") "JWT_DEFAULT_EXPIRATION"
        900000000000 = 10000000000 * 1000000000) ∧
    getEnvDuration (envWith "JWT_DEFAULT_EXPIRATION" "99999999999999999999")
        "JWT_DEFAULT_EXPIRATION" 900000000000 = 900000000000 := by
  decide

end OakBank
